import Mathlib

/-!
# Verification of the adaptive tabular ingestion engine
  (backend/agents/data_extractor_agent.py, backend/utils/parsing.py)

This file is a shallow embedding of the schema-inference / canonical-record
pipeline of the repository, together with theorems settling the frozen claims
C1-C10.  Python floats are modelled as exact rationals (ℚ); Python `dict`s as
insertion-ordered association lists; exceptions as `Option`/sum results.
Stdlib collaborators that the source calls (`csv.Sniffer.sniff`,
`csv.Sniffer.has_header`, `csv.reader`) are modelled faithfully from CPython's
`csv.py` because the engine's control flow runs through them.
-/

set_option autoImplicit false

namespace DataExtractor

/-! ## Python string primitives -/

/-- ASCII decimal digit test (`str.isdigit` restricted to ASCII, which is the
only digit alphabet the repository's inputs and aliases use). -/
def isDigitChar (c : Char) : Bool := 48 ≤ c.toNat && c.toNat ≤ 57

/-- ASCII alphabetic test (`str.isalpha` restricted to ASCII). -/
def isAlphaChar (c : Char) : Bool :=
  (65 ≤ c.toNat && c.toNat ≤ 90) || (97 ≤ c.toNat && c.toNat ≤ 122)

/-- Python whitespace for `str.strip()`. -/
def isSpaceChar (c : Char) : Bool :=
  c = ' ' || c = '\t' || c = '\n' || c = '\r' || c.toNat = 11 || c.toNat = 12

/-- `str.strip()` on a character list. -/
def pyStripL (l : List Char) : List Char :=
  ((l.dropWhile isSpaceChar).reverse.dropWhile isSpaceChar).reverse

/-- `str.strip()`. -/
def pyStrip (s : String) : String := ⟨pyStripL s.data⟩

/-- ASCII lower-casing of one character (`str.lower` on the ASCII range). -/
def toLowerChar (c : Char) : Char :=
  if 65 ≤ c.toNat && c.toNat ≤ 90 then Char.ofNat (c.toNat + 32) else c

/-- ASCII upper-casing of one character (`str.upper` on the ASCII range). -/
def toUpperChar (c : Char) : Char :=
  if 97 ≤ c.toNat && c.toNat ≤ 122 then Char.ofNat (c.toNat - 32) else c

/-- `str.lower()`. -/
def pyLower (s : String) : String := ⟨s.data.map toLowerChar⟩

/-- `str.upper()`. -/
def pyUpper (s : String) : String := ⟨s.data.map toUpperChar⟩

/-- Occurrences of a single character in a string (`str.count(c)`). -/
def pyCountChar (s : String) (c : Char) : ℕ := s.data.count c

/-- Does `pat` occur as a leading block of `l`? -/
def startsWithL (pat l : List Char) : Bool :=
  match pat, l with
  | [], _ => true
  | _ :: _, [] => false
  | a :: as, b :: bs => a = b && startsWithL as bs

/-- Does `pat` occur as a contiguous block of `l`? -/
def isInfixL (pat l : List Char) : Bool :=
  match l with
  | [] => pat.isEmpty
  | _ :: rest => startsWithL pat l || isInfixL pat rest

/-- Substring test (`sub in s`). -/
def pyContains (s sub : String) : Bool := isInfixL sub.data s.data

/-- Digits of a string, in order (`"".join(filter(str.isdigit, value))` /
`_digits`). -/
def digitsOf (s : String) : List Char := s.data.filter isDigitChar

/-- `any(ch.isalpha() for ch in value)` (`_contains_alpha`). -/
def containsAlpha (s : String) : Bool := s.data.any isAlphaChar

/-! ## Decimal rendering of naturals (Python `f"{n}"`)

Fuel-structured so that it reduces definitionally (usable under `decide`). -/

def digitChar (n : ℕ) : Char := Char.ofNat (48 + n)

def natDigitsAux : ℕ → ℕ → List Char
  | 0, _ => []
  | fuel + 1, m =>
      if m < 10 then [digitChar m]
      else natDigitsAux fuel (m / 10) ++ [digitChar (m % 10)]

/-- Decimal digit list of a natural number. -/
def natDigits (n : ℕ) : List Char := natDigitsAux (n + 1) n

/-- Decimal string of a natural number (Python's `str(n)` for `n : ℕ`). -/
def natStr (n : ℕ) : String := ⟨natDigits n⟩

/-! ## `parse_safe_float` (backend/utils/parsing.py)

The source converts a string to a `float`, tolerating `.`/`,` separator
conventions; unparseable input yields `0.0`.  We model the float result as an
exact rational. -/

/-- Characters kept by `parse_safe_float`'s filter `"0123456789,.-."`. -/
def psfKeep (c : Char) : Bool := isDigitChar c || c = ',' || c = '.' || c = '-'

/-- Index of the last occurrence of a character (`str.rfind`), or none. -/
def lastIdxOf (c : Char) (l : List Char) : Option ℕ :=
  ((l.enum.filter (fun p => p.2 = c)).map (fun p => p.1)).getLast?

def digitsToNat (l : List Char) : ℕ :=
  l.foldl (fun a c => a * 10 + (c.toNat - 48)) 0

/-- Value of a fractional digit block. -/
def fracToQ (l : List Char) : ℚ := (digitsToNat l : ℚ) / ((10 : ℚ) ^ l.length)

/-- Model of Python `float(s)` restricted to the character alphabet that can
reach it inside `parse_safe_float` (digits, at most one `.`, an optional
leading `-`): `none` models `ValueError`. -/
def pyFloatSimple (l : List Char) : Option ℚ :=
  let (neg, rest) :=
    match l with
    | '-' :: r => (true, r)
    | r => (false, r)
  if rest.all (fun c => isDigitChar c || c = '.') && rest.count '.' ≤ 1
      && rest.any isDigitChar then
    let intPart := rest.takeWhile (fun c => c ≠ '.')
    let fracPart := (rest.dropWhile (fun c => c ≠ '.')).drop 1
    let v : ℚ := (digitsToNat intPart : ℚ) + fracToQ fracPart
    some (if neg then -v else v)
  else none

/-- The `,`/`.` disambiguation step of `parse_safe_float`. -/
def psfSeparators (f : List Char) : List Char :=
  if f.contains ',' && f.contains '.' then
    if (lastIdxOf ',' f).getD 0 > (lastIdxOf '.' f).getD 0 then
      (f.filter (fun c => c ≠ '.')).map (fun c => if c = ',' then '.' else c)
    else
      f.filter (fun c => c ≠ ',')
  else if f.contains ',' then
    f.map (fun c => if c = ',' then '.' else c)
  else f

/-- `parse_safe_float` on a string. -/
def parseSafeFloatStr (s : String) : ℚ :=
  let t := pyStrip s
  if t = "" then 0
  else
    let f := (t.data.filter psfKeep)
    let g := psfSeparators f
    if g = [] then 0 else (pyFloatSimple g).getD 0

/-- `parse_safe_float` as called on `row.get(...)` results (`None → 0.0`). -/
def parseSafeFloat : Option String → ℚ
  | none => 0
  | some s => parseSafeFloatStr s

/-! ## `_mask_cnpj` -/

/-- `_mask_cnpj`: masks a tax-id value, keeping the first 8 and last 2 digits,
only when the value holds at least 14 digits; falsy values (`None`, `""`) and
values with fewer than 14 digits are returned unchanged. -/
def maskCnpj : Option String → Option String
  | none => none
  | some v =>
      if v = "" then some v
      else
        let ds := digitsOf v
        if ds.length < 14 then some v
        else some (⟨ds.take 8⟩ ++ "****" ++ ⟨ds.drop (ds.length - 2)⟩)

/-! ## Association-list helpers (Python `dict` with insertion order) -/

/-- First-match lookup (`dict[k]` / `dict.get(k)`). -/
def alookup {κ α : Type} [DecidableEq κ] : List (κ × α) → κ → Option α
  | [], _ => none
  | (k, v) :: rest, key => if k = key then some v else alookup rest key

/-- `dict[k] = v`: update in place if present (position kept), else append. -/
def aset {κ α : Type} [DecidableEq κ] : List (κ × α) → κ → α → List (κ × α)
  | [], key, v => [(key, v)]
  | (k, w) :: rest, key, v =>
      if k = key then (k, v) :: rest else (k, w) :: aset rest key v

/-- Keys of an association list in order. -/
def akeys {κ α : Type} (l : List (κ × α)) : List κ := l.map Prod.fst

/-- Membership of a key. -/
def ahas {κ α : Type} [DecidableEq κ] (l : List (κ × α)) (key : κ) : Bool :=
  (alookup l key).isSome

/-! ## `_sanitize_fieldnames` (the Column Sanitizer)

Deduplicates trimmed raw header strings, appending `__<n>` to repeats, and
keeps a display map from each produced identifier back to the cleaned raw
string. -/

/-- The alias generated for the `k`-th occurrence (0-based) of a cleaned
header: `cleaned` itself for the first, `f"{cleaned}__{count}"` after. -/
def encodeAlias (cleaned : String) (k : ℕ) : String :=
  if k = 0 then cleaned else cleaned ++ "__" ++ natStr k

def sanitizeGo : List String → List (String × ℕ) →
    List String × List (String × String)
  | [], _ => ([], [])
  | raw :: rest, counts =>
      let cleaned := pyStrip raw
      if cleaned = "" then sanitizeGo rest counts
      else
        let k := (alookup counts cleaned).getD 0
        let ident := encodeAlias cleaned k
        let s := sanitizeGo rest (aset counts cleaned (k + 1))
        (ident :: s.1, (ident, cleaned) :: s.2)

/-- `_sanitize_fieldnames`: returns the sanitized identifier list and the
display map (identifier ↦ original cleaned header). -/
def sanitizeFieldnames (fieldnames : List String) :
    List String × List (String × String) :=
  sanitizeGo fieldnames []

/-! ## `_normalize_text`

NFKD-decomposes, drops combining marks, lower-cases, replaces non-`[a-z0-9]`
runs by single spaces and trims.  For the Latin-1 accented letters that occur
in the alias tables and realistic inputs, NFKD + combining-mark removal is
exactly accent stripping, which we implement directly. -/

/-- Accent stripping of one character (the NFKD base letter). -/
def stripAccentChar (c : Char) : Char :=
  if c = 'á' || c = 'à' || c = 'â' || c = 'ã' || c = 'ä' then 'a'
  else if c = 'é' || c = 'è' || c = 'ê' || c = 'ë' then 'e'
  else if c = 'í' || c = 'ì' || c = 'î' || c = 'ï' then 'i'
  else if c = 'ó' || c = 'ò' || c = 'ô' || c = 'õ' || c = 'ö' then 'o'
  else if c = 'ú' || c = 'ù' || c = 'û' || c = 'ü' then 'u'
  else if c = 'ç' then 'c'
  else if c = 'ñ' then 'n'
  else if c = 'Á' || c = 'À' || c = 'Â' || c = 'Ã' || c = 'Ä' then 'A'
  else if c = 'É' || c = 'È' || c = 'Ê' || c = 'Ë' then 'E'
  else if c = 'Í' || c = 'Ì' || c = 'Î' || c = 'Ï' then 'I'
  else if c = 'Ó' || c = 'Ò' || c = 'Ô' || c = 'Õ' || c = 'Ö' then 'O'
  else if c = 'Ú' || c = 'Ù' || c = 'Û' || c = 'Ü' then 'U'
  else if c = 'Ç' then 'C'
  else if c = 'Ñ' then 'N'
  else c

/-- A character surviving `re.sub(r"[^a-z0-9]+", " ", ...)`. -/
def isNormChar (c : Char) : Bool := isDigitChar c || (97 ≤ c.toNat && c.toNat ≤ 122)

/-- Split a character list into the maximal runs of characters satisfying
`keep` (separator runs collapse, leading/trailing separators drop). -/
def splitRunsBy (keep : Char → Bool) : List Char → List Char → List String
  | [], cur => if cur = [] then [] else [⟨cur.reverse⟩]
  | c :: rest, cur =>
      if keep c then splitRunsBy keep rest (c :: cur)
      else if cur = [] then splitRunsBy keep rest []
      else ⟨cur.reverse⟩ :: splitRunsBy keep rest []

/-- The tokens of `_normalize_text value` (its output split at the single
spaces). -/
def normTokens (s : String) : List String :=
  splitRunsBy isNormChar (s.data.map (fun c => toLowerChar (stripAccentChar c))) []

/-- `_normalize_text`. -/
def normalizeText (s : String) : String := String.intercalate " " (normTokens s)

/-- `str.split()` (whitespace-run splitting). -/
def wsTokens (s : String) : List String :=
  splitRunsBy (fun c => !(isSpaceChar c)) s.data []

/-- First-occurrence deduplication (used to model Python `set(...)` sizes and
`dict`/`Counter` key order). -/
def firstSeenAux : List String → List String → List String
  | [], _ => []
  | x :: xs, seen =>
      if x ∈ seen then firstSeenAux xs seen else x :: firstSeenAux xs (x :: seen)

def firstSeen (l : List String) : List String := firstSeenAux l []

/-- Executable `min` on ℚ (the lattice `min` of Mathlib is not definitionally
reducible; this one is, and equals it). -/
def qmin (a b : ℚ) : ℚ := if a ≤ b then a else b

/-- Executable `max` on ℚ. -/
def qmax (a b : ℚ) : ℚ := if a ≤ b then b else a

/-! ## `_score_header_match` (Alias Scorer, name matching) -/

/-- The loop body of `_score_header_match`: fold over the alias list carrying
the best score; an exact normalized match returns 1.0 immediately. -/
def scoreHeaderGo (h : String) (hToks : List String) :
    List String → ℚ → ℚ
  | [], best => best
  | a :: rest, best =>
      let aToks := firstSeen (wsTokens a)
      if aToks = [] then scoreHeaderGo h hToks rest best
      else if h = a then 1
      else if pyContains h a then scoreHeaderGo h hToks rest (qmax best (95/100))
      else if hToks = [] then scoreHeaderGo h hToks rest best
      else
        let overlapCount := (hToks.filter (fun t => t ∈ aToks)).length
        if overlapCount ≠ 0 then
          let coverage : ℚ := (overlapCount : ℚ) / (aToks.length : ℚ)
          let headerCoverage : ℚ := (overlapCount : ℚ) / (hToks.length : ℚ)
          let missingRatio : ℚ := 1 - coverage
          let score := coverage * (7/10) + headerCoverage * (3/10) - missingRatio * (4/10)
          scoreHeaderGo h hToks rest (qmax best (qmax score 0))
        else scoreHeaderGo h hToks rest best

/-- `_score_header_match normalized_header aliases`. -/
def scoreHeaderMatch (h : String) (aliases : List String) : ℚ :=
  if h = "" then 0 else scoreHeaderGo h (firstSeen (wsTokens h)) aliases 0

/-! ## Static tables -/

def BRAZILIAN_STATES : List String :=
  ["AC", "AL", "AM", "AP", "BA", "CE", "DF", "ES", "GO", "MA", "MG", "MS",
   "MT", "PA", "PB", "PE", "PI", "PR", "RJ", "RN", "RO", "RR", "RS", "SC",
   "SE", "SP", "TO"]

/-- `CSV_FIELD_ALIASES`, in source (insertion) order. -/
def CSV_FIELD_ALIASES : List (String × List String) :=
  [ ("nfe_id",
      ["nfe id", "nfe", "id nfe", "chave", "chave nf", "chave acesso",
       "chave de acesso", "numero nf", "numero nfe", "numero nota",
       "chave nota", "access key"]),
    ("data_emissao",
      ["data emissao", "data emissão", "data nf", "data nota", "emissao",
       "emissão", "emissao nf", "issue date"]),
    ("valor_total_nfe",
      ["valor total nfe", "valor total nota", "valor nf", "valor da nota",
       "total nf", "valor total documento", "total nota fiscal",
       "valor nf-e", "total nota", "valor total"]),
    ("emitente_nome",
      ["nome emitente", "emitente nome", "razao social emitente",
       "emitente razao social", "emitente razao", "empresa emitente",
       "fornecedor nome", "fornecedor", "supplier name"]),
    ("emitente_cnpj",
      ["cnpj emitente", "emitente cnpj", "cnpj fornecedor", "cnpj remetente",
       "emit cnpj"]),
    ("emitente_uf",
      ["uf emitente", "estado emitente", "uf origem", "origem uf"]),
    ("destinatario_nome",
      ["nome destinatario", "destinatario nome", "razao social destinatario",
       "destinatario razao", "nome cliente", "cliente nome", "comprador nome",
       "comprador", "cliente"]),
    ("destinatario_cnpj",
      ["cnpj destinatario", "destinatario cnpj", "cnpj cliente",
       "cnpj comprador", "cnpj destinatário"]),
    ("destinatario_uf",
      ["uf destinatario", "estado destinatario", "uf destino", "destino uf"]),
    ("produto_nome",
      ["descricao do produto", "descrição do produto", "descricao produto",
       "descricao item", "item", "produto", "servico", "descricao",
       "produto descricao", "produto servico", "item descricao"]),
    ("produto_ncm",
      ["ncm", "codigo ncm", "codigo ncm/sh", "ncm/sh", "ncm codigo", "ncm sh"]),
    ("produto_cfop",
      ["cfop", "codigo cfop", "cfop codigo"]),
    ("produto_qtd",
      ["quantidade", "qtd", "qtde", "qtd produto", "quant",
       "quantidade produto", "quantidade item", "qty"]),
    ("produto_valor_unit",
      ["valor unitario", "valor unitário", "preco unitario", "preço unitario",
       "valor unit", "valor unit", "unit price", "valor unitario item"]),
    ("produto_valor_total",
      ["valor total item", "valor total produto", "valor total servico",
       "valor total linha", "valor total", "total item", "valor item",
       "valor total mercadoria"]),
    ("produto_cst_icms",
      ["cst icms", "situacao tributaria icms", "cst", "cst produto",
       "cst icms produto"]),
    ("produto_base_calculo_icms",
      ["base calculo icms", "base de calculo icms", "base icms",
       "base calculo"]),
    ("produto_aliquota_icms",
      ["aliquota icms", "alíquota icms", "aliq icms", "aliquota"]),
    ("produto_valor_icms", ["valor icms", "icms valor", "total icms"]),
    ("produto_cst_pis", ["cst pis", "situacao tributaria pis", "pis cst"]),
    ("produto_valor_pis", ["valor pis", "pis valor", "total pis"]),
    ("produto_cst_cofins",
      ["cst cofins", "situacao tributaria cofins", "cofins cst"]),
    ("produto_valor_cofins", ["valor cofins", "cofins valor", "total cofins"]),
    ("produto_valor_iss", ["valor iss", "iss valor", "total iss", "issqn"]) ]

def CSV_NUMERIC_FIELDS : List String :=
  ["valor_total_nfe", "produto_qtd", "produto_valor_unit",
   "produto_valor_total", "produto_base_calculo_icms",
   "produto_aliquota_icms", "produto_valor_icms", "produto_valor_pis",
   "produto_valor_cofins", "produto_valor_iss"]

/-- `NUMERIC_FIELDS = tuple(sorted(CSV_NUMERIC_FIELDS))`. -/
def NUMERIC_FIELDS : List String :=
  ["produto_aliquota_icms", "produto_base_calculo_icms", "produto_qtd",
   "produto_valor_cofins", "produto_valor_icms", "produto_valor_iss",
   "produto_valor_pis", "produto_valor_total", "produto_valor_unit",
   "valor_total_nfe"]

def CATEGORICAL_FIELDS : List String :=
  ["emitente_nome", "emitente_cnpj", "emitente_uf", "destinatario_nome",
   "destinatario_cnpj", "destinatario_uf", "produto_nome", "produto_cfop",
   "produto_ncm"]

def VALUE_WEIGHTED_FIELDS : List String :=
  ["emitente_nome", "destinatario_nome", "emitente_uf", "destinatario_uf",
   "produto_nome", "produto_cfop"]

def MAX_CHART_ITEMS : ℕ := 6

/-! ## Value-pattern scorers -/

/-- A row of a parsed tabular document: sanitized column name ↦ cell. -/
abbrev Row := List (String × String)

/-- Python `round(q, prec)` (round-half-even), on the exact rational. -/
def pyRoundQ (prec : ℕ) (q : ℚ) : ℚ :=
  let m : ℚ := (10 : ℚ) ^ prec
  let y := q * m
  let f : ℤ := Int.floor y
  let d : ℚ := y - (f : ℚ)
  let r : ℤ :=
    if d < 1/2 then f else if d > 1/2 then f + 1
    else if f % 2 = 0 then f else f + 1
  (r : ℚ) / m

/-- Truthiness filter used by the scorers' `if value in (None, ""): continue`. -/
def presentValues (values : List (Option String)) : List String :=
  values.filterMap (fun v => match v with
    | none => none
    | some s => if s = "" then none else some s)

/-- `_score_numeric_column values header`. -/
def scoreNumericColumn (values : List (Option String)) (header : String) : ℚ :=
  let vals := presentValues values
  if vals.length = 0 then 0
  else
    let numeric := (vals.filter
      (fun s => parseSafeFloatStr s ≠ 0 ∨ s.data.any isDigitChar)).length
    let h := pyLower header
    let base : ℚ := (numeric : ℚ) / (vals.length : ℚ)
      + (if pyContains h "valor" then 1/5 else 0)
      + (if pyContains h "total" then 1/5 else 0)
      + (if pyContains h "unit" || pyContains h "unitario"
            || pyContains h "unidade" then 1/10 else 0)
      + (if pyContains h "qtd" || pyContains h "quant" then 1/10 else 0)
      - (if pyContains h "modelo" || pyContains h "serie"
            || pyContains h "natureza" || pyContains h "indicador"
         then 3/10 else 0)
    qmax 0 (qmin base 1)

/-- `_score_reasonable_amount values`. -/
def scoreReasonableAmount (values : List (Option String)) : ℚ :=
  let vals := presentValues values
  let decimalHint := (vals.filter
    (fun s => s.data.contains ',' || s.data.contains '.')).length
  let numericValues := (vals.map parseSafeFloatStr).filter (fun q => q ≠ 0)
  if numericValues.length = 0 then 0
  else
    let bounded := (numericValues.filter
      (fun q => 1/1000000 < |q| ∧ |q| < (10 : ℚ) ^ 11)).length
    let boundedScore : ℚ := (bounded : ℚ) / (numericValues.length : ℚ)
    let decimalScore : ℚ := (decimalHint : ℚ) / ((max values.length 1 : ℕ) : ℚ)
    qmin 1 (boundedScore * (7/10) + decimalScore * (3/10))

def isWordChar (c : Char) : Bool := isAlphaChar c || isDigitChar c || c = '_'

/-- Boundary-checked match of `\d{2}/\d{2}/\d{4}\b` at the head of `l`. -/
def dateSlashAt (l : List Char) : Bool :=
  match l with
  | a :: b :: s1 :: c :: d :: s2 :: e :: f :: g :: h :: rest =>
      isDigitChar a && isDigitChar b && s1 = '/' && isDigitChar c
        && isDigitChar d && s2 = '/' && isDigitChar e && isDigitChar f
        && isDigitChar g && isDigitChar h
        && (match rest with | [] => true | x :: _ => !(isWordChar x))
  | _ => false

/-- Boundary-checked match of `\d{4}-\d{2}-\d{2}\b` at the head of `l`. -/
def dateDashAt (l : List Char) : Bool :=
  match l with
  | a :: b :: c :: d :: s1 :: e :: f :: s2 :: g :: h :: rest =>
      isDigitChar a && isDigitChar b && isDigitChar c && isDigitChar d
        && s1 = '-' && isDigitChar e && isDigitChar f && s2 = '-'
        && isDigitChar g && isDigitChar h
        && (match rest with | [] => true | x :: _ => !(isWordChar x))
  | _ => false

def dateScan : List Char → Option Char → Bool
  | [], _ => false
  | c :: rest, prev =>
      ((match prev with | none => true | some p => !(isWordChar p))
        && (dateSlashAt (c :: rest) || dateDashAt (c :: rest)))
      || dateScan rest (some c)

/-- `re.search` of the date pattern `\b(\d{2}/\d{2}/\d{4}|\d{4}-\d{2}-\d{2})\b`. -/
def hasDateMatch (s : String) : Bool := dateScan s.data none

/-- `_score_date_column values`. -/
def scoreDateColumn (values : List (Option String)) : ℚ :=
  let vals := presentValues values
  if vals.length = 0 then 0
  else ((vals.filter hasDateMatch).length : ℚ) / (vals.length : ℚ)

/-- Generic digit-run scorer shared by the cfop/ncm/cnpj/access-key scorers. -/
def scoreDigitsBy (good : ℕ → Bool) (values : List (Option String)) : ℚ :=
  let vals := presentValues values
  if vals.length = 0 then 0
  else ((vals.filter (fun s => good (digitsOf s).length)).length : ℚ)
    / (vals.length : ℚ)

/-- `_score_cfop_column` (exactly 4 digits). -/
def scoreCfopColumn : List (Option String) → ℚ :=
  scoreDigitsBy (fun n => n = 4)

/-- `_score_ncm_column` (8 or 10 digits). -/
def scoreNcmColumn : List (Option String) → ℚ :=
  scoreDigitsBy (fun n => n = 8 || n = 10)

/-- `_score_cnpj_column` (at least 14 digits). -/
def scoreCnpjColumn : List (Option String) → ℚ :=
  scoreDigitsBy (fun n => 14 ≤ n)

/-- `_score_access_key_column` (44 ± 1 digits). -/
def scoreAccessKeyColumn : List (Option String) → ℚ :=
  scoreDigitsBy (fun n => n = 44 || n = 43 || n = 45)

/-- `_score_uf_column`. -/
def scoreUfColumn (values : List (Option String)) : ℚ :=
  let vals := presentValues values
  if vals.length = 0 then 0
  else ((vals.filter
      (fun s => pyUpper (pyStrip s) ∈ BRAZILIAN_STATES)).length : ℚ)
    / (vals.length : ℚ)

/-! ## `_infer_column_mapping` -/

/-- Per-field diagnostics entry (`{"column": ..., "score": ..., "matched_by": ...}`). -/
structure Diag where
  column : String
  score : ℚ
  matchedBy : String
deriving DecidableEq, Repr

/-- The mutable state of `_infer_column_mapping`: `mapping`, `diagnostics`
and `used_columns` (the set modelled as a duplicate-free list). -/
structure MapSt where
  mapping : List (String × String)
  diags : List (String × Diag)
  used : List String
deriving DecidableEq, Repr

def reusableFields : List String := ["valor_total_nfe"]

/-- `for column in columns: if skip: continue; ...; if score > best_score:`. -/
def bestCandidate (cols : List String) (skip : String → Bool)
    (score : String → ℚ) : Option String × ℚ :=
  cols.foldl
    (fun acc col =>
      if skip col then acc
      else
        let s := score col
        if s > acc.2 then (some col, s) else acc)
    (none, 0)

/-- First pass of `_infer_column_mapping`: name matching over
`CSV_FIELD_ALIASES`, acceptance threshold 0.65. -/
def aliasPass (cols : List String) (normH disp : String → String) :
    List (String × List String) → MapSt → MapSt
  | [], st => st
  | (field, aliases) :: rest, st =>
      let isReusable := reusableFields.contains field
      let skip : String → Bool := fun col => st.used.contains col && !isReusable
      let bc := bestCandidate cols skip (fun col => scoreHeaderMatch (normH col) aliases)
      match bc.1 with
      | some c =>
          if c ≠ "" ∧ bc.2 ≥ 65/100 then
            aliasPass cols normH disp rest
              { mapping := st.mapping ++ [(field, c)]
                diags := st.diags ++ [(field, ⟨disp c, pyRoundQ 3 bc.2, "alias"⟩)]
                used := if isReusable then st.used else st.used ++ [c] }
          else aliasPass cols normH disp rest st
      | none => aliasPass cols normH disp rest st

/-- `collect_values` closure. -/
def collectValues (rows : List Row) (col : String) : List (Option String) :=
  rows.map (fun r => alookup r col)

/-- The `inference_rules` table (value-driven inference for missing fields). -/
def inferenceRules : List (String × (String → List (Option String) → ℚ)) :=
  [ ("nfe_id", fun h vs =>
      scoreAccessKeyColumn vs * (7/10)
        + (if pyContains h "chave" || pyContains h "nfe" then 3/10 else 0)),
    ("data_emissao", fun _ vs => scoreDateColumn vs),
    ("valor_total_nfe", fun h vs =>
      scoreNumericColumn vs
          (if pyContains h "nota" || pyContains h "nf" then h ++ " total" else h)
        + scoreReasonableAmount vs * (3/5)
        - scoreAccessKeyColumn vs * (7/10)),
    ("produto_valor_total", fun h vs =>
      scoreNumericColumn vs
        (if pyContains h "item" || pyContains h "produto" then h ++ " item" else h)),
    ("produto_valor_unit", fun h vs => scoreNumericColumn vs (h ++ " unit")),
    ("produto_qtd", fun h vs => scoreNumericColumn vs (h ++ " qtd")),
    ("produto_cfop", fun _ vs => scoreCfopColumn vs),
    ("produto_ncm", fun _ vs => scoreNcmColumn vs),
    ("emitente_cnpj", fun _ vs => scoreCnpjColumn vs),
    ("destinatario_cnpj", fun _ vs => scoreCnpjColumn vs),
    ("emitente_uf", fun _ vs => scoreUfColumn vs),
    ("destinatario_uf", fun _ vs => scoreUfColumn vs) ]

/-- Second pass: value-pattern inference for fields missing from the mapping,
acceptance threshold 0.55. -/
def valuePass (rows : List Row) (cols : List String) (normH disp : String → String) :
    List (String × (String → List (Option String) → ℚ)) → MapSt → MapSt
  | [], st => st
  | (field, scorer) :: rest, st =>
      if ahas st.mapping field then valuePass rows cols normH disp rest st
      else
        let isReusable := reusableFields.contains field
        let skip : String → Bool := fun col => st.used.contains col && !isReusable
        let bc := bestCandidate cols skip
          (fun col => scorer (normH col) (collectValues rows col))
        match bc.1 with
        | some c =>
            if c ≠ "" ∧ bc.2 ≥ 55/100 then
              valuePass rows cols normH disp rest
                { mapping := st.mapping ++ [(field, c)]
                  diags := st.diags ++ [(field, ⟨disp c, pyRoundQ 3 bc.2, "values"⟩)]
                  used := if isReusable then st.used else st.used ++ [c] }
            else valuePass rows cols normH disp rest st
        | none => valuePass rows cols normH disp rest st

/-- The inner `for column in columns` loop of `_prefer_column`, with its
`break` after the first re-homing. -/
def preferFind (field : String) (pred : String → Bool) (cur : String)
    (normH disp : String → String) : List String → MapSt → MapSt
  | [], st => st
  | col :: rest, st =>
      if col = cur then preferFind field pred cur normH disp rest st
      else if !(pred (normH col)) then preferFind field pred cur normH disp rest st
      else if st.used.contains col && !(reusableFields.contains field) then
        preferFind field pred cur normH disp rest st
      else
        { mapping := aset st.mapping field col
          diags := aset st.diags field ⟨disp col, 1, "alias_adjustment"⟩
          used :=
            if reusableFields.contains field then st.used
            else (st.used.erase cur) ++ [col] }

/-- `_prefer_column`: re-homes an already-mapped field onto a column whose
header satisfies `pred`, recording provenance `alias_adjustment`, score 1.0. -/
def preferColumn (cols : List String) (normH disp : String → String)
    (field : String) (pred : String → Bool) (st : MapSt) : MapSt :=
  match alookup st.mapping field with
  | none => st
  | some cur =>
      if cur = "" then st
      else if pred (normH cur) then st
      else preferFind field pred cur normH disp cols st

def predVTotal (h : String) : Bool :=
  (pyContains h "valor" || pyContains h "total")
    && !(pyContains h "chave") && !(pyContains h "modelo")

def predPNome (h : String) : Bool :=
  (pyContains h "descricao" || pyContains h "produto servico"
      || (pyContains h "produto" && pyContains h "descricao"))
    && !(pyContains h "numero") && !(pyContains h "cod")

/-- `_infer_column_mapping rows display_map`: the Column Mapping and the
per-field diagnostics.  (`diagnostics` scores are stored rounded to 3 digits,
as in the source.) -/
def inferColumnMapping (rows : List Row) (displayMap : List (String × String)) :
    List (String × String) × List (String × Diag) :=
  if rows = [] then ([], [])
  else
    let cols := akeys displayMap
    let normH := fun c => normalizeText ((alookup displayMap c).getD c)
    let disp := fun c => (alookup displayMap c).getD c
    let st1 := aliasPass cols normH disp CSV_FIELD_ALIASES ⟨[], [], []⟩
    let st2 := valuePass rows cols normH disp inferenceRules st1
    let st3 := preferColumn cols normH disp "valor_total_nfe" predVTotal st2
    let st4 := preferColumn cols normH disp "produto_nome" predPNome st3
    (st4.mapping, st4.diags)

/-! ## `_aggregate_totals` -/

/-- `totals[k] = totals.get(k, 0.0) + v` (inserts the key even when the sum
stays zero). -/
def aAddQ (c : List (String × ℚ)) (k : String) (v : ℚ) : List (String × ℚ) :=
  aset c k ((alookup c k).getD 0 + v)

/-- `totals[k] = max(totals.get(k, 0.0), v)`. -/
def aMaxQ (c : List (String × ℚ)) (k : String) (v : ℚ) : List (String × ℚ) :=
  aset c k (qmax ((alookup c k).getD 0) v)

/-- `_aggregate_totals rows mapping`: the cross-row per-invoice totals.  With
both an invoice-id column and a line-total column the totals are sums of line
totals; if that leaves the dictionary empty and an invoice-total column is
mapped, the totals are maxima of nonzero invoice-total values. -/
def aggregateTotals (rows : List Row) (mapping : List (String × String)) :
    List (String × ℚ) :=
  let nfeCol := alookup mapping "nfe_id"
  let itemCol := alookup mapping "produto_valor_total"
  let valueCol := alookup mapping "valor_total_nfe"
  let t1 : List (String × ℚ) :=
    match nfeCol, itemCol with
    | some nc, some ic =>
        rows.foldl
          (fun acc row =>
            let nid := pyStrip ((alookup row nc).getD "")
            if nid = "" then acc
            else aAddQ acc nid (parseSafeFloat (alookup row ic)))
          []
    | _, _ => []
  if t1 = [] then
    match nfeCol, valueCol with
    | some nc, some vc =>
        rows.foldl
          (fun acc row =>
            let nid := pyStrip ((alookup row nc).getD "")
            if nid = "" then acc
            else
              let v := parseSafeFloat (alookup row vc)
              if v ≠ 0 then aMaxQ acc nid v else acc)
          []
    | _, _ => []
  else t1

/-! ## The Canonical Record and its builder -/

/-- `_guess_textual_value row candidates`: the first candidate column whose
value contains an alphabetic character. -/
def guessTextualValue (row : Row) : List String → Option String
  | [] => none
  | c :: rest =>
      match alookup row c with
      | some v => if containsAlpha v then some v else guessTextualValue row rest
      | none => guessTextualValue row rest

/-- One normalized output row (the duck-typed `entry` dictionary of
`_convert_tabular_rows`, given an explicit record type: textual canonical
fields are optional strings, monetary/quantity fields are rationals). -/
structure CanonicalRecord where
  nfe_id : Option String
  data_emissao : Option String
  valor_total_nfe : ℚ
  emitente_nome : Option String
  emitente_cnpj : Option String
  emitente_uf : Option String
  destinatario_nome : Option String
  destinatario_cnpj : Option String
  destinatario_uf : Option String
  produto_nome : Option String
  produto_ncm : Option String
  produto_cfop : Option String
  produto_cst_icms : Option String
  produto_base_calculo_icms : ℚ
  produto_aliquota_icms : ℚ
  produto_valor_icms : ℚ
  produto_cst_pis : Option String
  produto_valor_pis : ℚ
  produto_cst_cofins : Option String
  produto_valor_cofins : ℚ
  produto_valor_iss : ℚ
  produto_qtd : ℚ
  produto_valor_unit : ℚ
  produto_valor_total : ℚ
deriving DecidableEq, Repr

/-- `row.get(mapping.get(field, ""))`. -/
def rowField (row : Row) (mapping : List (String × String)) (field : String) :
    Option String :=
  alookup row ((alookup mapping field).getD "")

/-- `value or None` (empty strings demoted to `None`). -/
def optOrNone : Option String → Option String
  | some "" => none
  | v => v

/-- The per-row body of the `for row in rows` loop of `_convert_tabular_rows`:
builds one Canonical Record, applying the description/UF/invoice-id clean-ups
and the monetary fallbacks in source order. -/
def buildEntry (mapping : List (String × String)) (totals : List (String × ℚ))
    (textualCands : List String) (row : Row) : CanonicalRecord :=
  let get := fun f => rowField row mapping f
  let produtoNome0 := optOrNone (get "produto_nome")
  -- description fallback onto the first unmapped alphabetic column
  let produtoNome :=
    match produtoNome0 with
    | none => guessTextualValue row textualCands
    | some s =>
        if ¬ containsAlpha s then
          match guessTextualValue row textualCands with
          | some g => some g
          | none => some s
        else some s
  -- state codes upper-cased
  let emitUf := (optOrNone (get "emitente_uf")).map pyUpper
  let destUf := (optOrNone (get "destinatario_uf")).map pyUpper
  -- invoice id stripped, empty demoted to None
  let nfeId :=
    match optOrNone (get "nfe_id") with
    | none => none
    | some s => let t := pyStrip s; if t = "" then none else some t
  let vt0 := parseSafeFloat (get "valor_total_nfe")
  -- lines 1128-1139: replace an invoice total that is really the access key
  -- (shared column with nfe_id, or an implausible ≥ 1e12 value)
  let vt1 :=
    match nfeId with
    | some key =>
        if (alookup totals key).isSome
            ∧ (alookup mapping "valor_total_nfe" = alookup mapping "nfe_id"
                ∨ vt0 ≥ (10 : ℚ) ^ 12) then
          (alookup totals key).getD 0
        else vt0
    | none => vt0
  -- line 1141: zero invoice total falls back to the cross-row aggregate
  let vt2 :=
    match nfeId with
    | some key =>
        if vt1 = 0 ∧ (alookup totals key).isSome then (alookup totals key).getD 0
        else vt1
    | none => vt1
  -- lines 1144-1149: product-total fallback (row invoice total, then aggregate)
  let pvt0 := parseSafeFloat (get "produto_valor_total")
  let pvt :=
    if pvt0 = 0 then
      let fallbackValue := parseSafeFloat (get "valor_total_nfe")
      if fallbackValue ≠ 0 then fallbackValue
      else
        match nfeId with
        | some key => (alookup totals key).getD 0
        | none => 0
    else pvt0
  let qtd := parseSafeFloat (get "produto_qtd")
  let unit0 := parseSafeFloat (get "produto_valor_unit")
  -- lines 1151-1154: unit value derived from (updated) total / quantity
  let unit := if unit0 = 0 ∧ qtd ≠ 0 then pvt / qtd else unit0
  { nfe_id := nfeId
    data_emissao := optOrNone (get "data_emissao")
    valor_total_nfe := vt2
    emitente_nome := optOrNone (get "emitente_nome")
    emitente_cnpj := maskCnpj (get "emitente_cnpj")
    emitente_uf := emitUf
    destinatario_nome := optOrNone (get "destinatario_nome")
    destinatario_cnpj := maskCnpj (get "destinatario_cnpj")
    destinatario_uf := destUf
    produto_nome := produtoNome
    produto_ncm := optOrNone (get "produto_ncm")
    produto_cfop := optOrNone (get "produto_cfop")
    produto_cst_icms := optOrNone (get "produto_cst_icms")
    produto_base_calculo_icms := parseSafeFloat (get "produto_base_calculo_icms")
    produto_aliquota_icms := parseSafeFloat (get "produto_aliquota_icms")
    produto_valor_icms := parseSafeFloat (get "produto_valor_icms")
    produto_cst_pis := optOrNone (get "produto_cst_pis")
    produto_valor_pis := parseSafeFloat (get "produto_valor_pis")
    produto_cst_cofins := optOrNone (get "produto_cst_cofins")
    produto_valor_cofins := parseSafeFloat (get "produto_valor_cofins")
    produto_valor_iss := parseSafeFloat (get "produto_valor_iss")
    produto_qtd := qtd
    produto_valor_unit := unit
    produto_valor_total := pvt }

/-! ## The Semantic Analyzer (`_SemanticAnalyzer`)

The `observe` loop updates per-field accumulators that are independent of each
other; we model each accumulator as a function of the record list.  (The
`observe` guard `value in (None, "")` on numeric fields never fires because the
builder always supplies floats for them; the timeline/date accumulators and
`finalize`'s chart/insight strings are outside every claim and are not
modelled.) -/

/-- Numeric-field accessor (the `entry.get(field)` of the observe loop for
`NUMERIC_FIELDS`). -/
def recNumeric (field : String) (r : CanonicalRecord) : ℚ :=
  if field = "produto_aliquota_icms" then r.produto_aliquota_icms
  else if field = "produto_base_calculo_icms" then r.produto_base_calculo_icms
  else if field = "produto_qtd" then r.produto_qtd
  else if field = "produto_valor_cofins" then r.produto_valor_cofins
  else if field = "produto_valor_icms" then r.produto_valor_icms
  else if field = "produto_valor_iss" then r.produto_valor_iss
  else if field = "produto_valor_pis" then r.produto_valor_pis
  else if field = "produto_valor_total" then r.produto_valor_total
  else if field = "produto_valor_unit" then r.produto_valor_unit
  else if field = "valor_total_nfe" then r.valor_total_nfe
  else 0

/-- Categorical-field accessor. -/
def recCat (field : String) (r : CanonicalRecord) : Option String :=
  if field = "emitente_nome" then r.emitente_nome
  else if field = "emitente_cnpj" then r.emitente_cnpj
  else if field = "emitente_uf" then r.emitente_uf
  else if field = "destinatario_nome" then r.destinatario_nome
  else if field = "destinatario_cnpj" then r.destinatario_cnpj
  else if field = "destinatario_uf" then r.destinatario_uf
  else if field = "produto_nome" then r.produto_nome
  else if field = "produto_cfop" then r.produto_cfop
  else if field = "produto_ncm" then r.produto_ncm
  else none

/-- The record's weight: `entry.get("produto_valor_total") or
entry.get("valor_total_nfe") or 0.0` (Python `or` on floats: zero is falsy),
then `parse_safe_float` (the identity on floats). -/
def semWeight (r : CanonicalRecord) : ℚ :=
  if r.produto_valor_total ≠ 0 then r.produto_valor_total
  else if r.valor_total_nfe ≠ 0 then r.valor_total_nfe
  else 0

/-- Running sum accumulator `self.numeric_totals[field] += value`. -/
def semTotal (f : CanonicalRecord → ℚ) (l : List CanonicalRecord) : ℚ :=
  l.foldl (fun a r => a + f r) 0

/-- Running minimum `if current_min is None or value < current_min`. -/
def semMin (f : CanonicalRecord → ℚ) (l : List CanonicalRecord) : Option ℚ :=
  l.foldl
    (fun a r =>
      match a with
      | none => some (f r)
      | some m => if f r < m then some (f r) else some m)
    none

/-- Running maximum. -/
def semMax (f : CanonicalRecord → ℚ) (l : List CanonicalRecord) : Option ℚ :=
  l.foldl
    (fun a r =>
      match a with
      | none => some (f r)
      | some m => if f r > m then some (f r) else some m)
    none

/-- The truthy labels of a categorical field, in record order
(`if not raw_value: continue; label = str(raw_value)`). -/
def catLabels (g : CanonicalRecord → Option String) (l : List CanonicalRecord) :
    List String :=
  l.filterMap (fun r =>
    match g r with
    | none => none
    | some v => if v = "" then none else some v)

/-- `Counter` increment (`self.category_counts[field][label] += 1`): key order
is first-seen insertion order. -/
def counterAdd (c : List (String × ℕ)) (lab : String) : List (String × ℕ) :=
  match alookup c lab with
  | some n => aset c lab (n + 1)
  | none => c ++ [(lab, 1)]

/-- The frequency counter of a categorical field. -/
def semCounter (g : CanonicalRecord → Option String)
    (l : List CanonicalRecord) : List (String × ℕ) :=
  (catLabels g l).foldl counterAdd []

/-- The (label, weight) observations of a value-weighted field. -/
def weightPairs (g : CanonicalRecord → Option String)
    (l : List CanonicalRecord) : List (String × ℚ) :=
  l.filterMap (fun r =>
    match g r with
    | none => none
    | some v => if v = "" then none else some (v, semWeight r))

/-- `defaultdict(float)` weighted accumulation. -/
def wAdd (c : List (String × ℚ)) (p : String × ℚ) : List (String × ℚ) :=
  match alookup c p.1 with
  | some w => aset c p.1 (w + p.2)
  | none => c ++ [(p.1, p.2)]

/-- `self.category_weighted_totals[field]`. -/
def semWeightedTotals (g : CanonicalRecord → Option String)
    (l : List CanonicalRecord) : List (String × ℚ) :=
  (weightPairs g l).foldl wAdd []

/-- Total weight attributed to one label by a list of (label, weight)
observations. -/
def wsum (pairs : List (String × ℚ)) (lab : String) : ℚ :=
  ((pairs.filter (fun p => decide (p.1 = lab))).map Prod.snd).sum

/-- Stable insertion into a descending-sorted list (equal keys keep their
existing order, the new element going after none of them — it precedes
later-inserted equals, matching Python's stable sorts). -/
def insertDescBy {α : Type} (key : α → ℚ) (x : α) : List α → List α
  | [] => [x]
  | y :: ys => if key y > key x then y :: insertDescBy key x ys else x :: y :: ys

/-- Stable descending sort by a rational key: the model of Python's
`sorted(..., key=..., reverse=True)` and of `heapq.nlargest`. -/
def stableSortDescBy {α : Type} (key : α → ℚ) (l : List α) : List α :=
  l.foldr (insertDescBy key) []

/-- `Counter.most_common(n)`: count-descending, ties in insertion
(first-seen) order. -/
def mostCommon (n : ℕ) (c : List (String × ℕ)) : List (String × ℕ) :=
  (stableSortDescBy (fun p => (p.2 : ℚ)) c).take n

/-- `_top_weighted` ordering step:
`sorted(totals.items(), key=item[1], reverse=True)[:MAX_CHART_ITEMS]` with the
output values rounded to 2 digits. -/
def topWeighted (totals : List (String × ℚ)) : List (String × ℚ) :=
  ((stableSortDescBy (fun p => p.2) totals).take MAX_CHART_ITEMS).map
    (fun p => (p.1, pyRoundQ 2 p.2))

/-- The `semantic_summary` dictionary produced by `finalize` (chart
suggestions, insights and the timeline are not modelled: no claim mentions
them). -/
structure SemSummary where
  recordCount : ℕ
  columnCount : ℕ
  numericTotals : List (String × ℚ)
  numericRanges : List (String × (ℚ × ℚ))
  uniqueCounts : List (String × ℕ)
  topCategories : List (String × List (String × ℕ))
  valueDistribution : List (String × List (String × ℚ))
deriving DecidableEq, Repr

/-- `finalize`'s `semantic_summary` over the observed record list. -/
def semSummary (columnCount : ℕ) (l : List CanonicalRecord) : SemSummary :=
  { recordCount := l.length
    columnCount := columnCount
    numericTotals :=
      if l = [] then []
      else NUMERIC_FIELDS.filterMap (fun f =>
        let t := semTotal (recNumeric f) l
        if t = 0 then none else some (f, pyRoundQ 4 t))
    numericRanges :=
      if l = [] then []
      else NUMERIC_FIELDS.filterMap (fun f =>
        match semMin (recNumeric f) l, semMax (recNumeric f) l with
        | some mn, some mx => some (f, (pyRoundQ 4 mn, pyRoundQ 4 mx))
        | _, _ => none)
    uniqueCounts := CATEGORICAL_FIELDS.filterMap (fun f =>
      let c := semCounter (recCat f) l
      if c = [] then none else some (f, c.length))
    topCategories := CATEGORICAL_FIELDS.filterMap (fun f =>
      let c := semCounter (recCat f) l
      if c = [] then none else some (f, mostCommon MAX_CHART_ITEMS c))
    valueDistribution := VALUE_WEIGHTED_FIELDS.filterMap (fun f =>
      let t := semWeightedTotals (recCat f) l
      if t = [] then none else some (f, topWeighted t)) }

/-! ## `_convert_tabular_rows` -/

/-- The per-file diagnostics bundle (`meta`), restricted to the keys the
pipeline writes for tabular documents.  The `processing_stats` block as well
as `finalize`'s visualization/insight lists are untouched by every claim and
are not carried. -/
structure ConvertMeta where
  source : String
  rowCount : ℕ
  columnMapping : List (String × String)
  detectionConfidence : List (String × ℚ)
  unusedColumns : List String
  inferredTotals : List (String × ℚ)
  matchedColumns : List (String × String)
  missingFields : List String
  hasStructuredTable : Bool
  hasTextOnly : Bool
  analysisScope : String
  summary : Option SemSummary
deriving DecidableEq, Repr

/-- The `meta` produced by `_convert_tabular_rows` on an empty row list. -/
def emptyConvertMeta (sourceName : String) : ConvertMeta :=
  { source := sourceName
    rowCount := 0
    columnMapping := []
    detectionConfidence := []
    unusedColumns := []
    inferredTotals := []
    matchedColumns := []
    missingFields := []
    hasStructuredTable := false
    hasTextOnly := false
    analysisScope := "full_document"
    summary := none }

/-- `_convert_tabular_rows rows display_map source_name`: infers the Column
Mapping, aggregates cross-row totals, builds one Canonical Record per row and
assembles the diagnostics/semantic-summary bundle. -/
def convertTabularRows (rows : List Row) (displayMap : List (String × String))
    (sourceName : String) : List CanonicalRecord × ConvertMeta :=
  if rows = [] then ([], emptyConvertMeta sourceName)
  else
    let md := inferColumnMapping rows displayMap
    let mapping := md.1
    let diags := md.2
    let totals := aggregateTotals rows mapping
    let cols := akeys displayMap
    let disp := fun c => (alookup displayMap c).getD c
    let mappedCols := mapping.map Prod.snd
    let unusedCols := (cols.filter (fun c => c ∉ mappedCols)).map disp
    let textualCands := cols.filter (fun c => c ∉ mappedCols)
    let recs := rows.map (buildEntry mapping totals textualCands)
    let meta : ConvertMeta :=
      { source := sourceName
        rowCount := rows.length
        columnMapping := mapping.map (fun p => (p.1, disp p.2))
        detectionConfidence := diags.map (fun p => (p.1, p.2.score))
        unusedColumns := unusedCols
        inferredTotals := totals
        matchedColumns := diags.map (fun p => (p.1, p.2.column))
        missingFields :=
          (CSV_FIELD_ALIASES.map Prod.fst).filter (fun f => ¬ ahas mapping f)
        hasStructuredTable := true
        hasTextOnly := false
        analysisScope := "full_document"
        summary := some (semSummary displayMap.length recs) }
    (recs, meta)

/-! ## Line splitting and the `csv.reader` model

The reader is modelled for dialects with `quotechar='"'`, `doublequote=True`
and a given `delimiter`/`skipinitialspace`; quoted fields spanning several
physical lines (absent from every input a claim instantiates) are not
modelled. -/

/-- `str.splitlines()` (universal-newline splitting on `\n`, `\r\n`, `\r`). -/
def splitCharLines : List Char → List Char → List String
  | [], cur => if cur.isEmpty then [] else [⟨cur.reverse⟩]
  | '\r' :: '\n' :: rest, cur => ⟨cur.reverse⟩ :: splitCharLines rest []
  | '\n' :: rest, cur => ⟨cur.reverse⟩ :: splitCharLines rest []
  | '\r' :: rest, cur => ⟨cur.reverse⟩ :: splitCharLines rest []
  | c :: rest, cur => splitCharLines rest (c :: cur)

def pyLines (text : String) : List String := splitCharLines text.data []

/-- `str.split('\n')` (keeps empty segments, used by the sniffer). -/
def segsOnNl : List Char → List Char → List String
  | [], cur => [⟨cur.reverse⟩]
  | '\n' :: rest, cur => ⟨cur.reverse⟩ :: segsOnNl rest []
  | c :: rest, cur => segsOnNl rest (c :: cur)

/-- The `csv.reader` field automaton for one physical line.  Arguments:
fuel (structural, one unit per consumed character), remaining input, current
field (reversed), finished fields, inside-quotes flag, at-field-start flag. -/
def csvGo (delim : Char) (skipInit : Bool) :
    ℕ → List Char → List Char → List String → Bool → Bool → List String
  | _, [], cur, acc, _, _ => acc ++ [⟨cur.reverse⟩]
  | 0, _ :: _, cur, acc, _, _ => acc ++ [⟨cur.reverse⟩]
  | fuel + 1, c :: rest, cur, acc, true, _ =>
      if c = '"' then
        match rest with
        | '"' :: rest2 => csvGo delim skipInit fuel rest2 ('"' :: cur) acc true false
        | _ => csvGo delim skipInit fuel rest cur acc false false
      else csvGo delim skipInit fuel rest (c :: cur) acc true false
  | fuel + 1, c :: rest, cur, acc, false, fieldStart =>
      if c = delim then
        csvGo delim skipInit fuel rest [] (acc ++ [⟨cur.reverse⟩]) false true
      else if fieldStart && skipInit && c = ' ' then
        csvGo delim skipInit fuel rest cur acc false true
      else if fieldStart && c = '"' && cur.isEmpty then
        csvGo delim skipInit fuel rest cur acc true false
      else csvGo delim skipInit fuel rest (c :: cur) acc false false

/-- One `csv.reader` row from one line (an empty line yields `[]`). -/
def csvParseLine (delim : Char) (skipInit : Bool) (l : List Char) : List String :=
  if l.isEmpty then [] else csvGo delim skipInit (l.length + 1) l [] [] false true

/-- All raw `csv.reader` rows of a text. -/
def csvReadAll (delim : Char) (skipInit : Bool) (text : String) :
    List (List String) :=
  (pyLines text).map (fun line => csvParseLine delim skipInit line.data)

/-! ## `csv.Sniffer` model (CPython `csv.py`)

`sniff` falls through `_guess_quote_and_delimiter` (a no-op on the quote-free
samples every claim instantiates) to `_guess_delimiter`, the per-character
frequency/consistency vote.  Because each candidate character's frequency
table is independent of the others and dictionary key order is the fixed
0..126 ASCII enumeration, the accumulated `charFrequency`/`modes` state is
computed here character-by-character over the lines processed so far — the
same values the imperative loop holds at each iteration. -/

/-- The per-character frequency-of-frequencies table over a line prefix
(`charFrequency[char]`), keys in first-appearance order. -/
def metaFreqOf (c : Char) (lines : List String) : List (ℕ × ℕ) :=
  lines.foldl
    (fun meta line =>
      let f := pyCountChar line c
      match alookup meta f with
      | some n => aset meta f (n + 1)
      | none => meta ++ [(f, 1)])
    []

/-- `modes[char]`: the modal frequency with its count adjusted downward by
the other counts (so it can go negative, hence `ℤ`). -/
def modeOf (items : List (ℕ × ℕ)) : Option (ℕ × ℤ) :=
  match items with
  | [] => none
  | [(f, n)] => if f = 0 then none else some (f, (n : ℤ))
  | p :: q :: rest =>
      let all := p :: q :: rest
      let best := all.foldl (fun b x => if x.2 > b.2 then x else b) p
      let totalCount := (all.map Prod.snd).sum
      some (best.1, 2 * (best.2 : ℤ) - (totalCount : ℤ))

/-- `modes` over the 7-bit ASCII alphabet, in its enumeration order. -/
def sniffModes (lines : List String) : List (Char × (ℕ × ℤ)) :=
  (List.range 127).filterMap (fun n =>
    let c := Char.ofNat n
    (modeOf (metaFreqOf c lines)).map (fun m => (c, m)))

/-- The consistency thresholds 1.00, 0.99, …, 0.90 swept by the source. -/
def sniffLevels : List ℚ := (List.range 11).map (fun k => 1 - (k : ℚ) / 100)

/-- The delimiter candidates at the first consistency level producing any. -/
def findDelims (modes : List (Char × (ℕ × ℤ))) (total : ℚ)
    (restrict : Option (List Char)) : List ℚ → List (Char × (ℕ × ℤ))
  | [] => []
  | lv :: rest =>
      let cands := modes.filter (fun p =>
        decide (0 < p.2.1) && decide (0 < p.2.2)
          && decide ((p.2.2 : ℚ) / total ≥ lv)
          && (match restrict with | none => true | some rs => decide (p.1 ∈ rs)))
      if cands = [] then findDelims modes total restrict rest else cands

/-- Non-overlapping count of the two-character pattern `a b` (`str.count`). -/
def countPairIn (a b : Char) : List Char → ℕ
  | x :: y :: rest =>
      if x = a ∧ y = b then 1 + countPairIn a b rest
      else countPairIn a b (y :: rest)
  | _ => 0

/-- `skipinitialspace = data[0].count(d) == data[0].count("%c " % d)`. -/
def sniffSkipInit (d : Char) (line0 : String) : Bool :=
  pyCountChar line0 d = countPairIn d ' ' line0.data

def sniffPreferred : List Char := [',', '\t', ';', ' ', ':']

/-- Resolution when several delimiters survive: the `preferred` list first,
then the lexicographically largest `((freq, count), char)` item. -/
def resolveDelims (delims : List (Char × (ℕ × ℤ))) (line0 : String) :
    Option (Char × Bool) :=
  match sniffPreferred.find? (fun d => ahas delims d) with
  | some d => some (d, sniffSkipInit d line0)
  | none =>
      let better := fun (p q : Char × (ℕ × ℤ)) =>
        q.2.1 < p.2.1 ∨ (q.2.1 = p.2.1 ∧ (q.2.2 < p.2.2
          ∨ (q.2.2 = p.2.2 ∧ q.1.toNat ≤ p.1.toNat)))
      match delims with
      | [] => none
      | p :: rest =>
          let best := rest.foldl (fun b x => if better x b then x else b) p
          some (best.1, sniffSkipInit best.1 line0)

/-- The chunked scan of `_guess_delimiter`: arguments are fuel, the processed
prefix boundary `start` and the 1-based iteration count.  (Once two or more
candidates exist the remaining chunks can no longer change the outcome — the
consistency loop only runs while `delims` is empty — so resolution happens
immediately, as the source does after its loop drains.) -/
def sniffChunkLoop (restrict : Option (List Char)) (data : List String)
    (chunkLen : ℕ) : ℕ → ℕ → ℕ → Option (Char × Bool)
  | 0, _, _ => none
  | fuel + 1, start, iter =>
      if start < data.length then
        let processed := data.take (start + chunkLen)
        let modes := sniffModes processed
        let total : ℚ := ((min (chunkLen * iter) data.length : ℕ) : ℚ)
        let delims := findDelims modes total restrict sniffLevels
        match delims with
        | [] => sniffChunkLoop restrict data chunkLen fuel (start + chunkLen) (iter + 1)
        | [(d, _)] => some (d, sniffSkipInit d (data.headD ""))
        | _ => resolveDelims delims (data.headD "")
      else none

/-- `csv.Sniffer().sniff(sample, delimiters=restrict)`: the delimiter and
`skipinitialspace` of the guessed dialect, `none` for `csv.Error`. -/
def sniffDialect (restrict : Option (List Char)) (sample : String) :
    Option (Char × Bool) :=
  let data := (segsOnNl sample.data []).filter (fun s => s ≠ "")
  if data = [] then none
  else
    let chunkLen := min 10 data.length
    sniffChunkLoop restrict data chunkLen (data.length + 1) 0 1

/-! ### `csv.Sniffer.has_header` -/

/-- `int(s)` success (sign + decimal digits; the underscore-grouping forms do
not arise in any instance). -/
def pyIntOk (s : String) : Bool :=
  match (pyStrip s).data with
  | [] => false
  | c :: rest =>
      let ds := if c = '+' ∨ c = '-' then rest else c :: rest
      ¬ ds.isEmpty ∧ ds.all isDigitChar

/-- Digit block with at most one dot and at least one digit. -/
def floatMantissaOk (l : List Char) : Bool :=
  l.all (fun c => isDigitChar c || c = '.') && l.count '.' ≤ 1
    && l.any isDigitChar

/-- `float(s)` success (sign, mantissa, optional exponent; `inf`/`nan`
spellings do not arise in any instance). -/
def pyFloatOk (s : String) : Bool :=
  match (pyStrip s).data with
  | [] => false
  | c :: rest =>
      let body := if c = '+' ∨ c = '-' then rest else c :: rest
      let mant := body.takeWhile (fun x => x ≠ 'e' ∧ x ≠ 'E')
      let expo := body.dropWhile (fun x => x ≠ 'e' ∧ x ≠ 'E')
      floatMantissaOk mant &&
        (match expo with
         | [] => true
         | _ :: e1 =>
             match e1 with
             | [] => false
             | d :: ds =>
                 let eds := if d = '+' ∨ d = '-' then ds else d :: ds
                 ¬ eds.isEmpty ∧ eds.all isDigitChar)

/-- `complex(s)` success (float forms plus a trailing `j` imaginary form). -/
def pyComplexOk (s : String) : Bool :=
  pyFloatOk s ||
    (match (pyStrip s).data.getLast? with
     | some 'j' => floatMantissaOk ((pyStrip s).data.dropLast)
     | _ => false)

/-- The cell "type" `has_header` assigns: a numeric type from the
`[int, float, complex]` cast chain, else the cell length. -/
inductive PyCellType where
  | intT
  | floatT
  | complexT
  | lenT (n : ℕ)
deriving DecidableEq, Repr

def cellTypeOf (s : String) : PyCellType :=
  if pyIntOk s then .intT
  else if pyFloatOk s then .floatT
  else if pyComplexOk s then .complexT
  else .lenT s.length

/-- Per-column type state: an entry of `columnTypes` (initially `None`-valued,
deleted on inconsistency). -/
inductive ColSt where
  | undetermined
  | typed (t : PyCellType)
  | deleted
deriving DecidableEq

def colStStep (st : ColSt) (t : PyCellType) : ColSt :=
  match st with
  | .deleted => .deleted
  | .undetermined => .typed t
  | .typed c => if t = c then .typed c else .deleted

/-- The header vote of one column. -/
def colVote (headerCell : String) (st : ColSt) : ℤ :=
  match st with
  | .deleted => 0
  | .undetermined => 1        -- `None(header[col])` raises TypeError → +1
  | .typed (.lenT n) => if headerCell.length ≠ n then 1 else -1
  | .typed .intT => if pyIntOk headerCell then -1 else 1
  | .typed .floatT => if pyFloatOk headerCell then -1 else 1
  | .typed .complexT => if pyComplexOk headerCell then -1 else 1

/-- `csv.Sniffer().has_header(sample)`: `none` models a propagating
`csv.Error` from the inner `sniff`. -/
def hasHeaderModel (sample : String) : Option Bool :=
  match sniffDialect none sample with
  | none => none
  | some (delim, skipInit) =>
      match csvReadAll delim skipInit sample with
      | [] => none
      | header :: body =>
          let columns := header.length
          let usable := (body.take 21).filter (fun r => r.length = columns)
          let votes : ℤ :=
            ((List.range columns).map (fun i =>
              let st := usable.foldl
                (fun st row => colStStep st (cellTypeOf (row.getD i ""))) .undetermined
              colVote (header.getD i "") st)).sum
          some (0 < votes)

/-! ## `_detect_csv_delimiter` -/

def detectCsvDelimiter (sampleText : String) : Char :=
  let sampleLines := (pyLines sampleText).take 50
  let sample := String.intercalate "\n" sampleLines
  let commas := pyCountChar sample ','
  let semis := pyCountChar sample ';'
  let tabs := pyCountChar sample '\t'
  let pipes := pyCountChar sample '|'
  match sniffDialect (some [',', ';', '|', '\t']) sample with
  | some (c, _) =>
      if c = ',' then
        if semis ≥ max 1 sampleLines.length ∧ (semis : ℚ) ≥ (commas : ℚ) / (12/10)
        then ';' else c
      else c
  | none =>
      let counters : List (Char × ℕ) :=
        [(',', commas), (';', semis), ('\t', tabs), ('|', pipes)]
      let best := counters.foldl (fun b p => if p.2 > b.2 then p else b) (',', commas)
      if best.2 = 0 then ',' else best.1

/-! ## `_looks_numeric`, `_is_data_like_row`, `_detect_header_row_index` -/

def looksNumeric (s : String) : Bool :=
  let t := pyStrip s
  if t = "" then false
  else
    let l := t.data.filter (fun c =>
      ¬ (c = '.' ∨ isSpaceChar c ∨ c = ',' ∨ c = '-'))
    ¬ l.isEmpty ∧ l.all isDigitChar

def isDataLikeRow (row : List String) : Bool :=
  if row.isEmpty then false
  else
    let numericCells := (row.filter looksNumeric).length
    if (numericCells : ℚ) / ((max row.length 1 : ℕ) : ℚ) ≥ 1/2 then true
    else row.any (fun cell => 10 ≤ (digitsOf cell).length)

/-- The header-candidate score of one row (weights 0.6 / 0.3 / 0.1 / −0.4,
an extra −0.5 when no cell is alphabetic, −0.4 when the row looks like data). -/
def headerScore (row : List String) : ℚ :=
  let total := row.length
  let alphaRatio : ℚ := ((row.filter containsAlpha).length : ℚ) / ((max total 1 : ℕ) : ℚ)
  let numericRatio : ℚ := ((row.filter looksNumeric).length : ℚ) / ((max total 1 : ℕ) : ℚ)
  let uniq : ℚ :=
    ((firstSeen (row.filterMap (fun cell =>
        if pyStrip cell ≠ "" then some (pyLower (pyStrip cell)) else none))).length : ℚ)
      / ((max total 1 : ℕ) : ℚ)
  let punct : ℚ :=
    ((row.filter (fun cell => pyContains cell ":" || pyContains cell "-")).length : ℚ)
      / ((max total 1 : ℕ) : ℚ)
  let base := alphaRatio * (3/5) + uniq * (3/10) + punct * (1/10)
    - numericRatio * (2/5)
  let s1 := if alphaRatio = 0 then base - 1/2 else base
  if isDataLikeRow row then s1 - 2/5 else s1

/-- The best-candidate fold of `_detect_header_row_index` (`score >
best_score` with `best_score` starting at 0.0), generic in the score so the
claim-side selection rule can reuse it. -/
def scoringFold (score : List String → ℚ) :
    List (ℕ × List String) → Option ℕ → ℚ → Option ℕ × ℚ
  | [], bi, bs => (bi, bs)
  | (i, row) :: rest, bi, bs =>
      if row.isEmpty then scoringFold score rest bi bs
      else
        let s := score row
        if s > bs then scoringFold score rest (some i) s
        else scoringFold score rest bi bs

/-- The pure scoring selection (the part of `_detect_header_row_index` after
the sniffer pre-check): first 5 rows, acceptance floor 0.2. -/
def scoringPick (rows : List (List String)) : Option ℕ :=
  let p := scoringFold headerScore (rows.take 5).enum none 0
  match p.1 with
  | some i => if p.2 ≥ 1/5 then some i else none
  | none => none

/-- Closed form of `scoringFold`: the running maximum of the non-empty
candidates' scores (seeded with the incoming best), and — when it strictly
improves on the seed — the first candidate attaining it. -/
def pickChar (score : List String → ℚ) (l : List (ℕ × List String))
    (bi : Option ℕ) (bs : ℚ) : Option ℕ × ℚ :=
  let cands := l.filter (fun p => !p.2.isEmpty)
  let M := (cands.map (fun p => score p.2)).foldr max bs
  (if bs < M then
      (cands.find? (fun p => decide (score p.2 = M))).map Prod.fst
    else bi, M)

/-- The `csv.Sniffer().has_header` pre-check (lines 402-411): when the stdlib
vote says the sample has a header and the first two rows are not both
data-like, row 0 is selected outright. -/
def sniffPreselect (rows : List (List String)) : Bool :=
  let sample := String.intercalate "\n" ((rows.take 20).map (String.intercalate ";"))
  match hasHeaderModel sample with
  | some true =>
      ¬ (1 < rows.length ∧ isDataLikeRow (rows.getD 0 [])
          ∧ isDataLikeRow (rows.getD 1 []))
  | _ => false

/-- `_detect_header_row_index`. -/
def detectHeaderRowIndex (rows : List (List String)) : Option ℕ :=
  if rows.isEmpty then none
  else if sniffPreselect rows then some 0
  else scoringPick rows

/-- `_generate_synthetic_headers`. -/
def generateSyntheticHeaders (width : ℕ) : List String :=
  (List.range width).map (fun i => "column_" ++ natStr (i + 1))

/-! ## `_read_csv_rows` -/

/-- The `structure_meta` dictionary (`data_rows` is absent on the empty-text
branch, hence optional). -/
structure StructureMeta where
  delimiter : Char
  headerIndex : Option ℕ
  syntheticHeader : Bool
  metadataRows : ℕ
  columnCount : ℕ
  totalRowsRead : ℕ
  dataRows : Option ℕ
deriving DecidableEq, Repr

/-- Result of `_read_csv_rows`.  `malformedPair` is the branch at line 472
(`return [], {}`): a 2-tuple escapes a function annotated — and unpacked by
both callers — as a 3-tuple, so the callers' unpack raises `ValueError`. -/
inductive ReadCsvOut where
  | ok (rows : List Row) (display : List (String × String)) (meta : StructureMeta)
  | malformedPair
deriving DecidableEq, Repr

/-- The assembly stage of `_read_csv_rows` after the raw rows were parsed and
filtered (header detection, sanitizing, padding/truncation, non-empty-row
filter). -/
def readCsvAssemble (delim : Char) (rawRows : List (List String)) :
    List Row × List (String × String) × StructureMeta :=
  let headerIdx := detectHeaderRowIndex rawRows
  let hd :=
    match headerIdx with
    | none =>
        (generateSyntheticHeaders ((rawRows.map List.length).foldr max 0), rawRows)
    | some i => (rawRows.getD i [], rawRows.drop (i + 1))
  let header := hd.1
  let dataRows := hd.2
  let s0 := sanitizeFieldnames header
  let s1 :=
    if s0.1 = [] then
      let width :=
        if dataRows ≠ [] then (dataRows.map List.length).foldr max 0
        else header.length
      sanitizeFieldnames (generateSyntheticHeaders width)
    else s0
  let fieldnames := s1.1
  let displayMap := s1.2
  let columnCount := fieldnames.length
  let rows : List Row := dataRows.filterMap (fun rawRow =>
    if rawRow.isEmpty then none
    else
      let nr :=
        if rawRow.length < columnCount then
          rawRow ++ List.replicate (columnCount - rawRow.length) ""
        else rawRow.take columnCount
      let rowDict := (fieldnames.zip nr).map (fun p => (p.1, pyStrip p.2))
      if rowDict.any (fun p => p.2 ≠ "") then some rowDict else none)
  (rows, displayMap,
    { delimiter := delim
      headerIndex := headerIdx
      syntheticHeader := headerIdx.isNone
      metadataRows := headerIdx.getD 0
      columnCount := columnCount
      totalRowsRead := rawRows.length
      dataRows := some rows.length })

/-- `_read_csv_rows text`. -/
def readCsvRows (text : String) : ReadCsvOut :=
  if text = "" then
    .ok [] []
      { delimiter := ','
        headerIndex := none
        syntheticHeader := true
        metadataRows := 0
        columnCount := 0
        totalRowsRead := 0
        dataRows := none }
  else
    let delim := detectCsvDelimiter text
    let rawRows := (csvReadAll delim true text).filterMap (fun row =>
      if row.isEmpty then none
      else
        let cleaned := row.map pyStrip
        if cleaned.any (fun c => c ≠ "") then some cleaned else none)
    if rawRows = [] then .malformedPair
    else
      let a := readCsvAssemble delim rawRows
      .ok a.1 a.2.1 a.2.2

/-! ## `_parse_csv` -/

/-- The `(data, error, meta)` triple of a successful `_parse_csv` call,
with the `structure` entry of `meta` carried separately. -/
structure CsvResult where
  data : List CanonicalRecord
  error : Option String
  meta : ConvertMeta
  structureMeta : Option StructureMeta
deriving DecidableEq, Repr

/-- `_parse_csv` over decoded text: `Except.error` models the `ValueError`
escaping the `rows, display_map, structure_meta = _read_csv_rows(text)`
unpack on the malformed 2-tuple branch. -/
def parseCsvText (name : String) (text : String) : Except String CsvResult :=
  match readCsvRows text with
  | .malformedPair => .error "not enough values to unpack (expected 3, got 2)"
  | .ok rows displayMap sm =>
      if rows = [] then
        .ok ⟨[], some "Nenhuma linha encontrada no CSV.", emptyConvertMeta name, some sm⟩
      else
        let dm := convertTabularRows rows displayMap name
        .ok ⟨dm.1, none, dm.2, some sm⟩

/-! ## `_split_table_cells` and the Unstructured-Text Table Reconstructor -/

/-- `str.rstrip()`. -/
def pyRstrip (s : String) : String := ⟨(s.data.reverse.dropWhile isSpaceChar).reverse⟩

/-- Split on one character, keeping empty segments. -/
def splitOnCharL (d : Char) : List Char → List Char → List String
  | [], cur => [⟨cur.reverse⟩]
  | c :: rest, cur =>
      if c = d then ⟨cur.reverse⟩ :: splitOnCharL d rest []
      else splitOnCharL d rest (c :: cur)

/-- `re.split(r"\s{2,}", ...)`: split at maximal runs of at least two
whitespace characters (fuelled: `dropWhile` shortens the input). -/
def splitWs2Aux : ℕ → List Char → List Char → List String
  | 0, l, cur => [⟨cur.reverse ++ l⟩]
  | _ + 1, [], cur => [⟨cur.reverse⟩]
  | fuel + 1, c :: rest, cur =>
      if isSpaceChar c then
        match rest with
        | d :: _ =>
            if isSpaceChar d then
              ⟨cur.reverse⟩ :: splitWs2Aux fuel (rest.dropWhile isSpaceChar) []
            else splitWs2Aux fuel rest (c :: cur)
        | [] => splitWs2Aux fuel rest (c :: cur)
      else splitWs2Aux fuel rest (c :: cur)

def splitWs2 (l : List Char) : List String := splitWs2Aux (l.length + 1) l []

/-- Trim the pieces and drop the empty ones. -/
def cleanCells (pieces : List String) : List String :=
  pieces.filterMap (fun c => let t := pyStrip c; if t = "" then none else some t)

/-- `_split_table_cells line`. -/
def splitTableCells (line : String) : List String :=
  let stripped := pyStrip line
  if stripped = "" then []
  else if stripped.data.contains ';' && 2 ≤ pyCountChar stripped ';' then
    cleanCells (splitOnCharL ';' stripped.data [])
  else if stripped.data.contains '|' && 2 ≤ pyCountChar stripped '|' then
    cleanCells (splitOnCharL '|' stripped.data [])
  else if stripped.data.contains '\t' then
    cleanCells (splitOnCharL '\t' stripped.data [])
  else cleanCells (splitWs2 stripped.data)

/-- `dict(zip(ks, vs))` (later duplicates overwrite in place). -/
def pyDictZip (ks vs : List String) : Row :=
  (ks.zip vs).foldl (fun d p => aset d p.1 p.2) []

/-- The inner row-collection loop of `_extract_structured_rows_from_text`:
skips no-cell lines, breaks below `max 2 (header-1)` cells, truncates/pads to
the header width.  Returns the rows and the index where the run stopped
(`none` = ran to the end of the document). -/
def collectRows (headerCells : List String) :
    List (ℕ × String) → List Row × Option ℕ
  | [] => ([], none)
  | (i, line) :: rest =>
      let cells := splitTableCells line
      if cells.isEmpty then collectRows headerCells rest
      else if cells.length < max 2 (headerCells.length - 1) then ([], some i)
      else
        let adj :=
          if cells.length > headerCells.length then cells.take headerCells.length
          else cells ++ List.replicate (headerCells.length - cells.length) ""
        let row := pyDictZip headerCells adj
        let rs := collectRows headerCells rest
        (row :: rs.1, rs.2)

/-- One candidate table: header cells, recovered rows, start/end line
indices. -/
structure TextTable where
  header : List String
  rows : List Row
  startLine : ℕ
  endLine : ℕ
deriving DecidableEq, Repr

/-- The outer scan of `_extract_structured_rows_from_text`: candidate headers
are lines with ≥ 3 cells, at least one alphabetic; after a table with ≥ 1 row
is found the scan resumes at its end index (header candidates inside the run
are never revisited). -/
def scanTables (totalLen : ℕ) : ℕ → List (ℕ × String) → List TextTable
  | 0, _ => []
  | _ + 1, [] => []
  | fuel + 1, (i, line) :: rest =>
      let headerCells := splitTableCells line
      if headerCells.length < 3 ∨ ¬ headerCells.any containsAlpha then
        scanTables totalLen fuel rest
      else
        let cr := collectRows headerCells rest
        let rows := cr.1
        let idx2 := cr.2.getD totalLen
        if 1 ≤ rows.length then
          ⟨headerCells, rows, i, idx2⟩ ::
            scanTables totalLen fuel (rest.filter (fun p => ¬ p.1 < idx2))
        else scanTables totalLen fuel rest

/-- The nonempty stripped-right lines `_extract_structured_rows_from_text`
scans. -/
def tableLines (text : String) : List String :=
  (pyLines text).filterMap (fun l =>
    if pyStrip l = "" then none else some (pyRstrip l))

/-- All candidate tables of a text. -/
def candidateTables (text : String) : List TextTable :=
  let lines := tableLines text
  scanTables lines.length (lines.length + 1) lines.enum

/-- `max(candidate_tables, key=len(rows))`: the first longest candidate. -/
def bestTable (c : TextTable) (rest : List TextTable) : TextTable :=
  rest.foldl (fun b t => if t.rows.length > b.rows.length then t else b) c

/-- `_prepare_generic_rows rows`. -/
def prepareGenericRows (rows : List Row) : List Row × List (String × String) :=
  if rows = [] then ([], [])
  else
    let orderedColumns := rows.foldl
      (fun acc row => row.foldl
        (fun acc2 p => if p.1 ≠ "" ∧ p.1 ∉ acc2 then acc2 ++ [p.1] else acc2)
        acc)
      []
    let sf := sanitizeFieldnames orderedColumns
    let sanitized := sf.1
    let displayMap := sf.2
    let keyMap := orderedColumns.zip sanitized
    let normalizedRows := rows.map (fun row =>
      row.foldl
        (fun nr p =>
          match alookup keyMap p.1 with
          | none => nr
          | some al => aset nr al (pyStrip p.2))
        [])
    (normalizedRows, displayMap)

/-- The `table_meta` dictionary. -/
structure TableInfo where
  header : List String
  startLine : ℕ
  endLine : ℕ
  rowCount : ℕ
deriving DecidableEq, Repr

/-- `_extract_structured_rows_from_text text`: the longest candidate table
found by the greedy scan, `none` when there is none. -/
def extractStructuredRowsFromText (text : String) :
    Option (List Row × List (String × String) × TableInfo) :=
  match candidateTables text with
  | [] => none
  | c :: rest =>
      let best := bestTable c rest
      let pg := prepareGenericRows best.rows
      some (pg.1, pg.2,
        ⟨best.header, best.startLine, best.endLine, best.rows.length⟩)

/-! ## Regex-based metadata extraction (`_infer_metadata_from_text`) -/

/-- Case-insensitive literal match; returns the remaining input. -/
def matchCi : List Char → List Char → Option (List Char)
  | [], l => some l
  | _ :: _, [] => none
  | p :: ps, c :: rest => if toLowerChar c = p then matchCi ps rest else none

/-- `[:\-]?`. -/
def optPunct (l : List Char) : List Char :=
  match l with
  | x :: xs => if x = ':' ∨ x = '-' then xs else l
  | [] => l

/-- `\s+` (at least one whitespace character, consumed greedily). -/
def ws1 : List Char → Option (List Char)
  | [] => none
  | c :: rest =>
      if isSpaceChar c then some (rest.dropWhile isSpaceChar) else none

/-- `re.search(r"(\d{44})", ...)`: the first 44-digit window. -/
def find44 : List Char → Option String
  | [] => none
  | c :: rest =>
      if ((c :: rest).take 44).length = 44
          && ((c :: rest).take 44).all isDigitChar then
        some ⟨(c :: rest).take 44⟩
      else find44 rest

/-- Generic first-position scanner for the positional matchers below. -/
def scanFor {α : Type} (f : List Char → Option α) : List Char → Option α
  | [] => none
  | c :: rest =>
      match f (c :: rest) with
      | some s => some s
      | none => scanFor f rest

/-- `CFOP\s*[:\-]?\s*(\d{4})` (case-insensitive) at one position. -/
def cfopAt (l : List Char) : Option String :=
  match matchCi ['c', 'f', 'o', 'p'] l with
  | none => none
  | some r =>
      let r3 := (optPunct (r.dropWhile isSpaceChar)).dropWhile isSpaceChar
      if (r3.take 4).length = 4 && (r3.take 4).all isDigitChar then
        some ⟨r3.take 4⟩
      else none

/-- `NCM\s*[:\-]?\s*(\d{8})` (case-insensitive) at one position. -/
def ncmAt (l : List Char) : Option String :=
  match matchCi ['n', 'c', 'm'] l with
  | none => none
  | some r =>
      let r3 := (optPunct (r.dropWhile isSpaceChar)).dropWhile isSpaceChar
      if (r3.take 8).length = 8 && (r3.take 8).all isDigitChar then
        some ⟨r3.take 8⟩
      else none

/-- The `\s*[:\-]?\s*([\d\.,]+)` tail of the total pattern. -/
def totalTailAt (r : List Char) : Option String :=
  let r2 := (optPunct (r.dropWhile isSpaceChar)).dropWhile isSpaceChar
  let ds := r2.takeWhile (fun c => isDigitChar c || c = '.' || c = ',')
  if ds.isEmpty then none else some ⟨ds⟩

/-- `Valor\s+Total(?:\s+da\s+NF-?e|)\s*[:\-]?\s*([\d\.,]+)` (case-insensitive)
at one position: the optional `da NF-e` arm is tried first, as the regex
engine does. -/
def totalAt (l : List Char) : Option String :=
  match matchCi ['v', 'a', 'l', 'o', 'r'] l with
  | none => none
  | some r1 =>
      match ws1 r1 with
      | none => none
      | some r2 =>
          match matchCi ['t', 'o', 't', 'a', 'l'] r2 with
          | none => none
          | some r3 =>
              let branchA : Option String :=
                match ws1 r3 with
                | none => none
                | some rA =>
                    match matchCi ['d', 'a'] rA with
                    | none => none
                    | some rB =>
                        match ws1 rB with
                        | none => none
                        | some rC =>
                            match matchCi ['n', 'f'] rC with
                            | none => none
                            | some rD =>
                                let rE := match rD with | '-' :: xs => xs | _ => rD
                                match matchCi ['e'] rE with
                                | none => none
                                | some rF => totalTailAt rF
              match branchA with
              | some s => some s
              | none => totalTailAt r3

/-- The CNPJ pattern (case-insensitive) at one position: the literal `CNPJ`,
optional spacing and punctuation, then a 14-to-18-character greedy run of
digits, dots, hyphens and slashes (the captured group). -/
def cnpjAt (l : List Char) : Option (List Char) :=
  match matchCi ['c', 'n', 'p', 'j'] l with
  | none => none
  | some r =>
      let r3 := (optPunct (r.dropWhile isSpaceChar)).dropWhile isSpaceChar
      let run := r3.takeWhile (fun c =>
        isDigitChar c || c = '.' || c = '-' || c = '/')
      if 14 ≤ run.length then some (run.take 18) else none

/-- First CNPJ match in a line, with the match's start index. -/
def findCnpjPos : ℕ → List Char → Option (ℕ × List Char)
  | _, [] => none
  | i, c :: rest =>
      match cnpjAt (c :: rest) with
      | some g => some (i, g)
      | none => findCnpjPos (i + 1) rest

/-- `str.strip(":- ")`. -/
def stripSetL (cs : List Char) (l : List Char) : List Char :=
  ((l.dropWhile (fun c => c ∈ cs)).reverse.dropWhile (fun c => c ∈ cs)).reverse

/-- The per-line CNPJ/party-name loop (first candidate = issuer, second =
recipient, then `break`); names are the text before the match, or the
previous line when that is empty. -/
def cnpjLoop (allLines : List String) :
    List (ℕ × String) → List String →
    Option (String × String) → Option (String × String) →
    Option (String × String) × Option (String × String)
  | [], _, e, d => (e, d)
  | (idx, line) :: rest, seen, e, d =>
      match findCnpjPos 0 line.data with
      | none => cnpjLoop allLines rest seen e d
      | some (st, grp) =>
          let dstr : String := ⟨grp.filter isDigitChar⟩
          if dstr ∈ seen then cnpjLoop allLines rest seen e d
          else
            let seen2 := seen ++ [dstr]
            let name0 : String := ⟨stripSetL [':', '-', ' '] (line.data.take st)⟩
            let name := if name0 = "" ∧ 0 < idx then allLines.getD (idx - 1) "" else name0
            if seen2.length = 1 then cnpjLoop allLines rest seen2 (some (dstr, name)) d
            else (e, some (dstr, name))

/-- `\bUF\s*[:\-]?\s*([A-Z]{2})\b` (case-insensitive) at one position:
capture (upper-cased), remaining input and the last matched character. -/
def ufAt (l : List Char) : Option (String × List Char × Char) :=
  match matchCi ['u', 'f'] l with
  | none => none
  | some r =>
      let r3 := (optPunct (r.dropWhile isSpaceChar)).dropWhile isSpaceChar
      match r3 with
      | a :: b :: rest =>
          if isAlphaChar a && isAlphaChar b
              && (match rest with | [] => true | x :: _ => !(isWordChar x)) then
            some (⟨[toUpperChar a, toUpperChar b]⟩, rest, b)
          else none
      | _ => none

/-- `re.findall` of the UF pattern (non-overlapping, boundary-checked). -/
def ufScanAux : ℕ → List Char → Option Char → List String
  | 0, _, _ => []
  | _ + 1, [], _ => []
  | fuel + 1, c :: rest, prev =>
      let boundary := match prev with | none => true | some p => !(isWordChar p)
      match (if boundary then ufAt (c :: rest) else none) with
      | some (cap, rem, lastC) => cap :: ufScanAux fuel rem (some lastC)
      | none => ufScanAux fuel rest (some c)

def ufScan (l : List Char) : List String := ufScanAux (l.length + 1) l none

/-- The metadata dictionary of `_infer_metadata_from_text`. -/
structure TextMetadata where
  nfe_id : Option String
  emitente_nome : Option String
  emitente_cnpj : Option String
  emitente_uf : Option String
  destinatario_nome : Option String
  destinatario_cnpj : Option String
  destinatario_uf : Option String
  valor_total_nfe : Option String
  cfop : Option String
  ncm : Option String
deriving DecidableEq, Repr

/-- `_infer_metadata_from_text text`. -/
def inferMetadataFromText (text : String) : TextMetadata :=
  let lines := (pyLines text).filterMap (fun l =>
    let t := pyStrip l
    if t = "" then none else some t)
  let joined := String.intercalate "\n" lines
  let jd := joined.data
  let (e, d) := cnpjLoop lines lines.enum [] none none
  let ufs := ufScan jd
  { nfe_id := find44 jd
    emitente_nome := e.bind (fun p => if p.2 = "" then none else some p.2)
    emitente_cnpj := e.map Prod.fst
    emitente_uf := ufs.head?
    destinatario_nome := d.bind (fun p => if p.2 = "" then none else some p.2)
    destinatario_cnpj := d.map Prod.fst
    destinatario_uf := (ufs.drop 1).head?
    valor_total_nfe := scanFor totalAt jd
    cfop := scanFor cfopAt jd
    ncm := scanFor ncmAt jd }

/-- `_extract_currency`. -/
def extractCurrency : Option String → Option ℚ
  | none => none
  | some raw =>
      if raw = "" then none
      else
        let n := ((pyStrip raw).data.filter (fun c => c ≠ '.')).map
          (fun c => if c = ',' then '.' else c)
        pyFloatSimple n

/-- `_summarize_text_document`: exactly one low-confidence record from the
regex metadata. -/
def summarizeEntry (metadata : TextMetadata) (valorTotal : Option ℚ)
    (sourceName : String) : CanonicalRecord :=
  let vtTruthy := match valorTotal with | some v => decide (v ≠ 0) | none => false
  { nfe_id := metadata.nfe_id
    data_emissao := none
    valor_total_nfe := valorTotal.getD 0
    emitente_nome := metadata.emitente_nome
    emitente_cnpj := maskCnpj metadata.emitente_cnpj
    emitente_uf := metadata.emitente_uf
    destinatario_nome := metadata.destinatario_nome
    destinatario_cnpj := maskCnpj metadata.destinatario_cnpj
    destinatario_uf := metadata.destinatario_uf
    produto_nome := some ("Resumo " ++ sourceName)
    produto_ncm := metadata.ncm
    produto_cfop := metadata.cfop
    produto_cst_icms := none
    produto_base_calculo_icms := 0
    produto_aliquota_icms := 0
    produto_valor_icms := 0
    produto_cst_pis := none
    produto_valor_pis := 0
    produto_cst_cofins := none
    produto_valor_cofins := 0
    produto_valor_iss := 0
    produto_qtd := if vtTruthy then 1 else 0
    produto_valor_unit := valorTotal.getD 0
    produto_valor_total := valorTotal.getD 0 }

/-- `_summarize_text_document text source_name`: the single record, the
semantic summary over it (its analyzer sees the 24 entry keys as columns) and
the extracted metadata (the `extracted_fields` diagnostics). -/
def summarizeTextDocument (sourceName text : String) :
    CanonicalRecord × SemSummary × TextMetadata :=
  let metadata := inferMetadataFromText text
  let valorTotal := extractCurrency metadata.valor_total_nfe
  let entry := summarizeEntry metadata valorTotal sourceName
  (entry, semSummary 24 [entry], metadata)

/-- The `meta` of the two text-path outcomes. -/
inductive TextMeta where
  | tabular (m : ConvertMeta) (t : TableInfo)
  | textOnly (extracted : TextMetadata) (summary : SemSummary)
deriving DecidableEq, Repr

def TextMeta.hasTextOnly : TextMeta → Bool
  | .tabular m _ => m.hasTextOnly
  | .textOnly _ _ => true

/-- `_parse_tabular_text text source_name` (`none` models the `[], {}` return
when no table was recovered). -/
def parseTabularText (sourceName text : String) :
    Option (List CanonicalRecord × ConvertMeta × TableInfo) :=
  match extractStructuredRowsFromText text with
  | none => none
  | some (rows, displayMap, tinfo) =>
      if rows = [] then none
      else
        let dm := convertTabularRows rows displayMap sourceName
        some (dm.1,
          { dm.2 with hasStructuredTable := true, hasTextOnly := false },
          tinfo)

/-- The text-document pipeline shared by `_parse_pdf` / `_parse_ocr` once
text is in hand: recovered table if any, else the single-record summary. -/
def parseOcrText (sourceName text : String) :
    List CanonicalRecord × TextMeta :=
  match parseTabularText sourceName text with
  | some (data, meta, tinfo) => (data, .tabular meta tinfo)
  | none =>
      let st := summarizeTextDocument sourceName text
      ([st.1], .textOnly st.2.2 st.2.1)

/-! ## The Concurrent File Orchestrator (`extract_documents`)

Files are modelled by their observable content: the decoded text for the
`csv`/`ocr` paths the claims exercise, a raising read for a supported but
unreadable file, an unsupported extension, or an archive whose open raises
`BadZipFile`.  (Well-formed archives recurse into members; no claim
instantiates one, and the amended C8 statement excludes archives.) -/

def SUPPORTED_KINDS : List (String × String) :=
  [("xml", "NFE_XML"), ("csv", "CSV"), ("json", "CSV"), ("pdf", "PDF"),
   ("ocr", "OCR_TEXT")]

inductive FileData where
  /-- a `.csv` file whose bytes decode to `text` (the decode ladder cannot
  fail: its last rung ignores errors) -/
  | csvFile (text : String)
  /-- a `.ocr` file read as `text` -/
  | ocrFile (text : String)
  /-- a supported, non-archive extension whose byte/text read raises `msg`
  (caught by `_handle_single_file`'s `try`) -/
  | readFailure (ext : String) (msg : String)
  /-- an extension outside `SUPPORTED_KINDS` -/
  | unsupportedFile (ext : String)
  /-- a `.zip` whose `ZipFile(path)` open raises `BadZipFile(msg)` — nothing
  in `_handle_zip`/`_process_path` catches it -/
  | badZip (msg : String)
deriving DecidableEq, Repr

structure PyFile where
  name : String
  size : ℕ
  data : FileData
deriving DecidableEq, Repr

/-- The per-file `meta`. -/
inductive DocMeta where
  | empty
  | csvMeta (m : ConvertMeta) (s : Option StructureMeta)
  | textMeta (m : TextMeta)
deriving DecidableEq, Repr

/-- The `ImportedDoc` output record. -/
structure ImportedDoc where
  kind : String
  name : String
  size : ℕ
  status : String
  dataRecords : Option (List CanonicalRecord)
  text : Option String
  error : Option String
  meta : DocMeta
deriving DecidableEq, Repr

/-- `_handle_single_file` (total: every branch of its `try` body either
returns or has its exception caught and turned into an `error` document). -/
def handleSingleFile (f : PyFile) : ImportedDoc :=
  match f.data with
  | .unsupportedFile _ =>
      { kind := "UNSUPPORTED", name := f.name, size := f.size,
        status := "unsupported", dataRecords := none, text := none,
        error := some "Formato nao suportado.", meta := .empty }
  | .csvFile text =>
      match parseCsvText f.name text with
      | .error msg =>
          { kind := "CSV", name := f.name, size := f.size, status := "error",
            dataRecords := none, text := none, error := some msg,
            meta := .empty }
      | .ok r =>
          { kind := "CSV", name := f.name, size := f.size,
            status := if r.data = [] then "error" else "parsed",
            dataRecords := if r.data = [] then none else some r.data,
            text := none, error := r.error,
            meta := .csvMeta r.meta r.structureMeta }
  | .ocrFile text =>
      let pr := parseOcrText f.name text
      let recs := pr.1
      let tm := pr.2
      { kind := "OCR_TEXT", name := f.name, size := f.size,
        status := if recs = [] then "error" else "parsed",
        dataRecords := if recs = [] then none else some recs,
        text := some text, error := none, meta := .textMeta tm }
  | .readFailure ext msg =>
      { kind := (alookup SUPPORTED_KINDS ext).getD "UNSUPPORTED",
        name := f.name, size := f.size, status := "error",
        dataRecords := none, text := none, error := some msg, meta := .empty }
  | .badZip _ =>
      -- unreachable through `_process_path` (archives are routed to
      -- `_handle_zip`); kept total
      { kind := "UNSUPPORTED", name := f.name, size := f.size,
        status := "unsupported", dataRecords := none, text := none,
        error := some "Formato nao suportado.", meta := .empty }

/-- `_process_path`: archives go to `_handle_zip` (whose open raises,
uncaught, for a corrupt archive), everything else to `_handle_single_file`. -/
def processPath (f : PyFile) : Except String (List ImportedDoc) :=
  match f.data with
  | .badZip msg => .error msg
  | _ => .ok [handleSingleFile f]

/-- `extract_documents` without a progress callback: the thread-pool path
submits every file, then awaits the results in submission order (re-sorting
by index is the identity) and flattens; a worker exception re-raises from the
first failing `future.result()`.  The sequential path is the same fold. -/
def extractDocuments (files : List PyFile) : Except String (List ImportedDoc) :=
  if files.length = 0 then .ok []
  else if 1 < files.length then
    (files.mapM processPath).map List.flatten
  else
    (files.mapM processPath).map List.flatten

/-- `f.data`'s archive flag (`_get_extension(path) == "zip"`). -/
def isArchive (f : PyFile) : Bool :=
  match f.data with
  | .badZip _ => true
  | _ => false

/-! ## Claim-side definitions

These follow the CLAIMS' words (not the source) and exist only to be compared
with the source-side definitions above, for the refinement-style claims. -/

/-- Modelled from claim C5's words: the header-candidate score
"alphabetic-cell fraction × 0.6 + uniqueness × 0.3 + punctuation density ×
0.1 − numeric-looking fraction × 0.4, with data-like rows penalized" — i.e.
without the source's additional −0.5 penalty for rows with no alphabetic
cell. -/
def claimHeaderScore (row : List String) : ℚ :=
  let total := row.length
  let alphaRatio : ℚ := ((row.filter containsAlpha).length : ℚ) / ((max total 1 : ℕ) : ℚ)
  let numericRatio : ℚ := ((row.filter looksNumeric).length : ℚ) / ((max total 1 : ℕ) : ℚ)
  let uniq : ℚ :=
    ((firstSeen (row.filterMap (fun cell =>
        if pyStrip cell ≠ "" then some (pyLower (pyStrip cell)) else none))).length : ℚ)
      / ((max total 1 : ℕ) : ℚ)
  let punct : ℚ :=
    ((row.filter (fun cell => pyContains cell ":" || pyContains cell "-")).length : ℚ)
      / ((max total 1 : ℕ) : ℚ)
  let base := alphaRatio * (3/5) + uniq * (3/10) + punct * (1/10)
    - numericRatio * (2/5)
  if isDataLikeRow row then base - 2/5 else base

/-- Modelled from claim C5's words: "header detection selects as the header
exactly the highest-scoring row among the first 5 rows … provided that best
score is at least the acceptance floor 0.2". -/
def claimHeaderChoice (rows : List (List String)) : Option ℕ :=
  let p := scoringFold claimHeaderScore (rows.take 5).enum none 0
  match p.1 with
  | some i => if p.2 ≥ 1/5 then some i else none
  | none => none

/-- The amended selection rule for C5, stated as an argmax: among the
non-empty rows of the first 5, the first index attaining the maximal source
score, provided that maximum reaches the 0.2 floor. -/
def specChoice (rows : List (List String)) : Option ℕ :=
  let cands := (rows.take 5).enum.filter (fun p => !p.2.isEmpty)
  let best := (cands.map (fun p => headerScore p.2)).foldr qmax 0
  if 1/5 ≤ best then
    (cands.find? (fun p => decide (headerScore p.2 = best))).map Prod.fst
  else none

/-- Modelled from claim C6's words: the length of the longest
header-plus-compatible-rows run starting at ANY line of the document (a
header-like line of ≥ 3 cells with an alphabetic cell, followed by the
source's compatible-row run). -/
def claimAllRunLengths (lines : List String) : List ℕ :=
  (List.range lines.length).map (fun i =>
    let cells := splitTableCells (lines.getD i "")
    if cells.length < 3 ∨ ¬ cells.any containsAlpha then 0
    else (collectRows cells (lines.enum.drop (i + 1))).1.length)

/-- The longest claim-side run length. -/
def claimLongestRun (lines : List String) : ℕ :=
  (claimAllRunLengths lines).foldr max 0

/-- The row count of the longest greedily-found candidate table. -/
def maxTableRows (l : List TextTable) : ℕ :=
  (l.map (fun t => t.rows.length)).foldr max 0

/-- Reserved-separator test for the Column Sanitizer claims: does the string
contain the `__` suffix separator? -/
def hasDoubleUnderscore (s : String) : Bool := isInfixL ['_', '_'] s.data

/-! ## Concrete instances used by the counterexamples and witnesses -/

/-- Scenario A's CSV text (header and one data row). -/
def scenarioAText : String :=
  "nfe_id,valor_total_nfe,produto_nome,produto_cfop\nNFE123,1500,Produto A,5102\n"

/-- A one-column display map whose header is the shared alias
`valor total`. -/
def oneColDm : List (String × String) := [("valor total", "valor total")]

def oneColRows : List Row := [[("valor total", "10")]]

/-- C3 instance: invoice-id / invoice-total / quantity / unit columns, no
line-total column (the junk rows push the invoice-total column's
value-pattern score below 0.55 so `produto_valor_total` stays unmapped). -/
def c3Dm : List (String × String) :=
  [("chave de acesso", "chave de acesso"), ("valor nf", "valor nf"),
   ("quantidade", "quantidade"), ("valor unitario", "valor unitario")]

def c3Junk : Row :=
  [("chave de acesso", "A"), ("valor nf", "x"), ("quantidade", "1"),
   ("valor unitario", "1")]

def c3Rows : List Row :=
  [("chave de acesso", "A"), ("valor nf", "100"), ("quantidade", "2"),
     ("valor unitario", "50")] ::
  [("chave de acesso", "A"), ("valor nf", "250"), ("quantidade", "3"),
     ("valor unitario", "70")] ::
  List.replicate 6 c3Junk

/-- C5 instance: both rows carry punctuation-only cells (no alphabetic
character), so the claim-side score is 0.4 but the source subtracts its 0.5
no-alpha penalty. -/
def c5rows : List (List String) := [["1:", "2:", "3:"], ["4:", "5:", "6:"]]

/-- C6 instance: a 5-cell header line, a 4-cell line, then three 3-cell
lines.  The greedy scan closes a 1-row table at line 0 and a 2-row table at
line 2; the longest run anywhere starts at line 1 with 3 rows. -/
def c6Text : String := "h1;h2;h3;h4;h5\na;b;c;d\nx;y;z\nx;y;z\nx;y;z"

/-- An all-empty Canonical Record (for the analyzer instances). -/
def blankRec : CanonicalRecord :=
  { nfe_id := none, data_emissao := none, valor_total_nfe := 0,
    emitente_nome := none, emitente_cnpj := none, emitente_uf := none,
    destinatario_nome := none, destinatario_cnpj := none,
    destinatario_uf := none, produto_nome := none, produto_ncm := none,
    produto_cfop := none, produto_cst_icms := none,
    produto_base_calculo_icms := 0, produto_aliquota_icms := 0,
    produto_valor_icms := 0, produto_cst_pis := none, produto_valor_pis := 0,
    produto_cst_cofins := none, produto_valor_cofins := 0,
    produto_valor_iss := 0, produto_qtd := 0, produto_valor_unit := 0,
    produto_valor_total := 0 }

def recLabA : CanonicalRecord := { blankRec with produto_nome := some "A" }

def recLabB : CanonicalRecord := { blankRec with produto_nome := some "B" }

def goodCsvFile : PyFile := ⟨"a.csv", 10, .csvFile scenarioAText⟩

def corruptZipFile : PyFile := ⟨"b.zip", 5, .badZip "File is not a zip file"⟩

/-- C7 amended-witness instances: two records sharing label "A" with
different weights, one record with label "B". -/
def recWA1 : CanonicalRecord :=
  { blankRec with produto_nome := some "A", produto_valor_total := 10 }

def recWA2 : CanonicalRecord :=
  { blankRec with produto_nome := some "A", produto_valor_total := 20 }

def recWB : CanonicalRecord :=
  { blankRec with produto_nome := some "B", produto_valor_total := 15 }

/-- C3 amended-witness instance: mapped line-total parses to 0, mapped
invoice-total is non-numeric, invoice id hits the aggregate table. -/
def c3wMap : List (String × String) :=
  [("produto_valor_total", "pt"), ("valor_total_nfe", "vt"), ("nfe_id", "id")]

def c3wTotals : List (String × ℚ) := [("K1", 250)]

def c3wRow : Row := [("pt", "0"), ("vt", "abc"), ("id", "K1")]

/-- The cleaned headers the Column Sanitizer keeps (trimmed, empties
dropped), in input order. -/
def keptHeaders (fieldnames : List String) : List String :=
  fieldnames.filterMap (fun s =>
    let c := pyStrip s
    if c = "" then none else some c)

/-- Number of entries keyed by the (single) reusable field
`valor_total_nfe`; only such mapping entries may share a column with
another field. -/
def vtCount {α : Type} (m : List (String × α)) : ℕ :=
  (m.filter (fun p => decide (p.1 = "valor_total_nfe"))).length

/-- The per-entry diagnostics discipline of `_infer_column_mapping`: an
`alias` entry was accepted at or above 0.65, a `values` entry at or above
0.55, and an `alias_adjustment` entry (from `_prefer_column`) carries the
fixed score 1.0. -/
@[reducible] def diagOk (d : Diag) : Prop :=
  (d.matchedBy = "alias" ∧ 65/100 ≤ d.score) ∨
  (d.matchedBy = "values" ∧ 55/100 ≤ d.score) ∨
  (d.matchedBy = "alias_adjustment" ∧ d.score = 1)

/-- Loop invariant of `_infer_column_mapping` over its mutable state. -/
@[reducible] def mapInv (cols : List String) (st : MapSt) : Prop :=
  st.mapping.length ≤ st.used.length + vtCount st.mapping ∧
  vtCount st.mapping ≤ 1 ∧
  st.used.Nodup ∧ st.used ⊆ cols ∧
  akeys st.mapping = akeys st.diags ∧
  ∀ p ∈ st.diags, diagOk p.2

/-! # Theorems settling the claims -/

set_option maxRecDepth 200000

/-- C10: a tax-id value is masked (first 8 digits, the fixed `****` mask, the
last 2 digits) exactly when it holds at least 14 digits; any value with fewer
than 14 digits is returned completely unchanged. -/
theorem C10_mask_cnpj (s : String) :
    ((digitsOf s).length < 14 → maskCnpj (some s) = some s) ∧
    (14 ≤ (digitsOf s).length →
      maskCnpj (some s) =
        some (String.mk ((digitsOf s).take 8) ++ "****"
          ++ String.mk ((digitsOf s).drop ((digitsOf s).length - 2)))) := by
  constructor
  · intro h
    by_cases hs : s = ""
    · simp [maskCnpj, hs]
    · simp [maskCnpj, hs, h]
  · intro h
    have hs : s ≠ "" := by
      intro he
      rw [he] at h
      exact absurd h (by decide)
    simp only [maskCnpj, if_neg hs]
    rw [if_neg (by omega)]

/-- Witness for C10 at a 14-digit tax id and a 7-digit value. -/
theorem C10_mask_cnpj_witness :
    maskCnpj (some "12.345.678/0001-95") = some "12345678****95" ∧
    maskCnpj (some "1234567") = some "1234567" := by
  constructor
  · rw [(C10_mask_cnpj "12.345.678/0001-95").2 (by decide)]
    decide
  · exact (C10_mask_cnpj "1234567").1 (by decide)

/-- C2 (code bug): a delimited text whose every cell is empty reaches the
`return [], {}` branch of `_read_csv_rows` (line 472) — a 2-tuple escaping a
function whose annotation and callers expect a 3-tuple — so `_parse_csv`'s
unpack raises `ValueError` instead of returning the empty-diagnostics bundle;
`_handle_single_file` catches it and reports `error` with an *empty* meta.
A header-only input, by contrast, does produce the documented bundle. -/
theorem C2_empty_table_code_bug :
    readCsvRows ",,\n" = ReadCsvOut.malformedPair ∧
    (handleSingleFile ⟨"x.csv", 3, .csvFile ",,\n"⟩).status = "error" ∧
    (handleSingleFile ⟨"x.csv", 3, .csvFile ",,\n"⟩).meta = DocMeta.empty ∧
    (handleSingleFile ⟨"x.csv", 3, .csvFile ",,\n"⟩).dataRecords = none ∧
    parseCsvText "y.csv" "a,b,c\n" =
      Except.ok ⟨[], some "Nenhuma linha encontrada no CSV.",
        emptyConvertMeta "y.csv", some ⟨',', some 0, false, 0, 3, 1, some 0⟩⟩ := by
  refine ⟨?_, ?_, ?_, ?_, ?_⟩ <;> with_unfolding_all rfl

/-- C1 counterexample: with the single raw column `valor total` (an exact
alias of both the invoice-total and the line-total fields), the inferred
mapping holds two canonical fields — more than the number of raw columns —
because `valor_total_nfe` is exempt from the one-column-per-field rule. -/
theorem C1_counterexample :
    (inferColumnMapping oneColRows oneColDm).1 =
      [("valor_total_nfe", "valor total"), ("produto_valor_total", "valor total")] ∧
    oneColDm.length = 1 ∧
    ¬ ((inferColumnMapping oneColRows oneColDm).1.length ≤ oneColDm.length) := by
  have h1 : (inferColumnMapping oneColRows oneColDm).1 =
      [("valor_total_nfe", "valor total"), ("produto_valor_total", "valor total")] := by
    with_unfolding_all rfl
  refine ⟨h1, rfl, ?_⟩
  rw [h1]
  decide

/-- C3 counterexample: on `c3Rows` the line-total column is unmapped, the
first row's quantity × unit value is defined (2 × 50), a per-invoice
aggregate exists (max invoice total 250), yet the derived line total is the
row's own invoice-total value 100, not the aggregate. -/
theorem C3_counterexample :
    ((convertTabularRows c3Rows c3Dm "t.csv").1.head?.map
        (fun r => r.produto_valor_total)) = some 100 ∧
    alookup (aggregateTotals c3Rows (inferColumnMapping c3Rows c3Dm).1) "A"
      = some 250 ∧
    ahas (inferColumnMapping c3Rows c3Dm).1 "produto_valor_total" = false ∧
    ((convertTabularRows c3Rows c3Dm "t.csv").1.head?.map
        (fun r => (r.produto_qtd, r.produto_valor_unit))) = some (2, 50) ∧
    (100 : ℚ) ≠ 250 := by
  refine ⟨by with_unfolding_all rfl, by with_unfolding_all rfl,
    by with_unfolding_all rfl, by with_unfolding_all rfl, by norm_num⟩

/-- C4 counterexample: in Scenario A the reported mapping confidence for
`produto_nome` is 0.95 (substring alias match — `produto nome` is not itself
an alias), not the claimed 1.0. -/
theorem C4_counterexample :
    (parseCsvText "a.csv" scenarioAText).toOption.bind
      (fun r => alookup r.meta.detectionConfidence "produto_nome")
      = some (19/20) ∧
    (19/20 : ℚ) ≠ 1 := by
  exact ⟨by with_unfolding_all rfl, by norm_num⟩

/-- C4 (amended): Scenario A produces exactly one Canonical Record with
`produto_nome = "Produto A"`, `produto_cfop = "5102"`,
`valor_total_nfe = 1500`, confidence 1.0 for `valor_total_nfe` and 0.95 for
`produto_nome`. -/
theorem C4_scenario_a :
    (parseCsvText "a.csv" scenarioAText).toOption.map
        (fun r =>
          (r.data.map (fun x =>
            (x.nfe_id, x.produto_nome, x.produto_cfop, x.valor_total_nfe)),
           alookup r.meta.detectionConfidence "valor_total_nfe",
           alookup r.meta.detectionConfidence "produto_nome"))
      = some ([(some "NFE123", some "Produto A", some "5102", (1500 : ℚ))],
          some 1, some (19/20)) := by
  with_unfolding_all rfl

/-- C5 counterexample: on two rows of punctuation-only cells the claim-side
rule (no −0.5 no-alphabetic penalty) selects row 0 with score 0.4, while the
source's detector accepts no row and falls back to synthetic headers. -/
theorem C5_counterexample :
    detectHeaderRowIndex c5rows = none ∧
    claimHeaderChoice c5rows = some 0 ∧
    detectHeaderRowIndex c5rows ≠ claimHeaderChoice c5rows := by
  refine ⟨by with_unfolding_all rfl, by with_unfolding_all rfl, ?_⟩
  intro h
  rw [show detectHeaderRowIndex c5rows = none from by with_unfolding_all rfl,
    show claimHeaderChoice c5rows = some 0 from by with_unfolding_all rfl] at h
  exact Option.noConfusion h

/-- C6 counterexample: on `c6Text` the reconstructor emits 2 records (the
greedy scan's best table), while the longest header-plus-compatible-rows run
found anywhere in the document has 3 rows (it starts inside the first
greedily-consumed run). -/
theorem C6_counterexample :
    (parseOcrText "t.ocr" c6Text).1.length = 2 ∧
    claimLongestRun (tableLines c6Text) = 3 ∧
    (parseOcrText "t.ocr" c6Text).1.length ≠ claimLongestRun (tableLines c6Text) := by
  refine ⟨by with_unfolding_all rfl, by with_unfolding_all rfl, ?_⟩
  rw [show (parseOcrText "t.ocr" c6Text).1.length = 2 from by with_unfolding_all rfl,
    show claimLongestRun (tableLines c6Text) = 3 from by with_unfolding_all rfl]
  decide

/-- C7 counterexample: swapping two records with distinct labels of equal
count and weight — a permutation, so every per-label multiset of
(value, weight) observations is preserved — changes the top-category and
weighted-value lists (the tie order follows first-seen input order). -/
theorem C7_counterexample :
    [recLabA, recLabB].Perm [recLabB, recLabA] ∧
    (semSummary 2 [recLabA, recLabB]).topCategories ≠
      (semSummary 2 [recLabB, recLabA]).topCategories ∧
    (semSummary 2 [recLabA, recLabB]).valueDistribution ≠
      (semSummary 2 [recLabB, recLabA]).valueDistribution := by
  refine ⟨List.Perm.swap _ _ _, ?_, ?_⟩ <;> with_unfolding_all decide

/-- C8 counterexample: a batch holding a corrupt archive aborts wholesale —
`extract_documents` propagates the `BadZipFile` raised inside the worker, so
the sibling file's result is never returned (failure is not isolated). -/
theorem C8_counterexample :
    extractDocuments [goodCsvFile, corruptZipFile] =
      Except.error "File is not a zip file" := by
  with_unfolding_all rfl

/-- C9 counterexample: a header list that already contains the suffixed form
`a__1` collides with the suffix generated for the repeated header `a` — the
output identifiers are not pairwise distinct. -/
theorem C9_counterexample :
    (sanitizeFieldnames ["a", "a", "a__1"]).1 = ["a", "a__1", "a__1"] ∧
    ¬ (sanitizeFieldnames ["a", "a", "a__1"]).1.Nodup := by
  refine ⟨by with_unfolding_all rfl, ?_⟩
  rw [show (sanitizeFieldnames ["a", "a", "a__1"]).1 = ["a", "a__1", "a__1"]
    from by with_unfolding_all rfl]
  decide

/-! ## Decimal-digit infrastructure (for the Column Sanitizer proof) -/

theorem natDigitsAux_irrel (f1 : ℕ) : ∀ (f2 m : ℕ), m < f1 → m < f2 →
    natDigitsAux f1 m = natDigitsAux f2 m := by
  induction f1 with
  | zero => intro f2 m h1 _; omega
  | succ f1' ih =>
      intro f2 m h1 h2
      match f2, h2 with
      | f2' + 1, _ =>
        simp only [natDigitsAux]
        by_cases hm : m < 10
        · simp [hm]
        · simp only [hm, if_false]
          have hpos : 0 < m := by omega
          have hdiv : m / 10 < m := Nat.div_lt_self hpos (by omega)
          rw [ih f2' (m / 10) (by omega) (by omega)]

theorem natDigits_eq (n : ℕ) :
    natDigits n =
      if n < 10 then [digitChar n]
      else natDigits (n / 10) ++ [digitChar (n % 10)] := by
  have hstep : natDigitsAux (n + 1) n =
      if n < 10 then [digitChar n]
      else natDigitsAux n (n / 10) ++ [digitChar (n % 10)] := rfl
  by_cases hn : n < 10
  · rw [if_pos hn]
    show natDigitsAux (n + 1) n = _
    rw [hstep, if_pos hn]
  · have hdiv : n / 10 < n := Nat.div_lt_self (by omega) (by omega)
    rw [if_neg hn]
    show natDigitsAux (n + 1) n = _
    rw [hstep, if_neg hn]
    congr 1
    exact natDigitsAux_irrel n (n / 10 + 1) (n / 10) (by omega) (by omega)

theorem digitChar_isDigit {m : ℕ} (h : m < 10) : isDigitChar (digitChar m) = true := by
  interval_cases m <;> decide

theorem digitChar_inj {m n : ℕ} (hm : m < 10) (hn : n < 10)
    (h : digitChar m = digitChar n) : m = n := by
  have : ∀ a, a < 10 → ∀ b, b < 10 → digitChar a = digitChar b → a = b := by decide
  exact this m hm n hn h

theorem natDigits_ne_nil (n : ℕ) : natDigits n ≠ [] := by
  rw [natDigits_eq]
  by_cases hn : n < 10 <;> simp [hn]

theorem natDigits_digits (n : ℕ) : ∀ c ∈ natDigits n, isDigitChar c = true := by
  induction n using Nat.strong_induction_on with
  | _ n ih =>
      intro c hc
      rw [natDigits_eq] at hc
      by_cases hn : n < 10
      · simp only [hn, if_true, List.mem_singleton] at hc
        subst hc
        exact digitChar_isDigit hn
      · simp only [hn, if_false, List.mem_append, List.mem_singleton] at hc
        rcases hc with hc | hc
        · exact ih (n / 10) (Nat.div_lt_self (by omega) (by omega)) c hc
        · subst hc
          exact digitChar_isDigit (Nat.mod_lt n (by omega))

theorem natDigits_inj : ∀ {m n : ℕ}, natDigits m = natDigits n → m = n := by
  intro m
  induction m using Nat.strong_induction_on with
  | _ m ih =>
      intro n h
      rw [natDigits_eq m, natDigits_eq n] at h
      by_cases hm : m < 10 <;> by_cases hn : n < 10
      · rw [if_pos hm, if_pos hn] at h
        injection h with h1 _
        exact digitChar_inj hm hn h1
      · exfalso
        rw [if_pos hm, if_neg hn] at h
        have h2 : 0 < (natDigits (n / 10)).length :=
          List.length_pos.mpr (natDigits_ne_nil _)
        have hlen : (1 : ℕ) = (natDigits (n / 10)).length + 1 := by
          simpa [List.length_append] using congrArg List.length h
        omega
      · exfalso
        rw [if_neg hm, if_pos hn] at h
        have h2 : 0 < (natDigits (m / 10)).length :=
          List.length_pos.mpr (natDigits_ne_nil _)
        have hlen : (natDigits (m / 10)).length + 1 = 1 := by
          simpa [List.length_append] using congrArg List.length h
        omega
      · rw [if_neg hm, if_neg hn] at h
        have h2 := List.append_inj' h (by rfl)
        have hdiv := ih (m / 10) (Nat.div_lt_self (by omega) (by omega)) h2.1
        have hmod := digitChar_inj (Nat.mod_lt m (by omega)) (Nat.mod_lt n (by omega))
          (by simpa using h2.2)
        omega

/-! ## Infix / separator lemmas for the Column Sanitizer -/

theorem startsWithL_self_append (pat r : List Char) :
    startsWithL pat (pat ++ r) = true := by
  induction pat with
  | nil => rfl
  | cons c cs ih => simp [startsWithL, ih]

theorem isInfixL_of_startsWith {pat l : List Char}
    (h : startsWithL pat l = true) : isInfixL pat l = true := by
  cases l with
  | nil =>
      cases pat with
      | nil => rfl
      | cons c cs => simp [startsWithL] at h
  | cons c r => simp [isInfixL, h]

theorem isInfixL_middle (a pat b : List Char) :
    isInfixL pat (a ++ (pat ++ b)) = true := by
  induction a with
  | nil => exact isInfixL_of_startsWith (startsWithL_self_append pat b)
  | cons x a' ih =>
      rw [List.cons_append,
        show isInfixL pat (x :: (a' ++ (pat ++ b)))
            = (startsWithL pat (x :: (a' ++ (pat ++ b)))
              || isInfixL pat (a' ++ (pat ++ b)))
          from rfl,
        ih]
      simp

theorem isInfixL_tail {pat : List Char} {x : Char} {rest : List Char}
    (h : isInfixL pat (x :: rest) = false) : isInfixL pat rest = false := by
  rw [show isInfixL pat (x :: rest)
      = (startsWithL pat (x :: rest) || isInfixL pat rest) from rfl] at h
  exact (Bool.or_eq_false_iff.mp h).2

theorem startsWith_head_false {pat : List Char} {x : Char} {rest : List Char}
    (h : isInfixL pat (x :: rest) = false) :
    startsWithL pat (x :: rest) = false := by
  rw [show isInfixL pat (x :: rest)
      = (startsWithL pat (x :: rest) || isInfixL pat rest) from rfl] at h
  exact (Bool.or_eq_false_iff.mp h).1

/-- The core separator-splitting lemma: `c ++ "__" ++ digits` determines `c`
and `digits` when `c` is free of `__` and the digit block is a nonempty run
of decimal digits. -/
theorem sepSplit_inj :
    ∀ (c1 : List Char) (c2 d1 d2 : List Char),
      isInfixL ['_', '_'] c1 = false → isInfixL ['_', '_'] c2 = false →
      d1 ≠ [] → (∀ x ∈ d1, isDigitChar x = true) →
      d2 ≠ [] → (∀ x ∈ d2, isDigitChar x = true) →
      c1 ++ '_' :: '_' :: d1 = c2 ++ '_' :: '_' :: d2 →
      c1 = c2 ∧ d1 = d2 := by
  intro c1
  induction c1 with
  | nil =>
      intro c2 d1 d2 _ h2 _ g1 _ g2 he
      cases c2 with
      | nil =>
          refine ⟨rfl, ?_⟩
          simpa using he
      | cons y c2' =>
          exfalso
          simp only [List.nil_append, List.cons_append, List.cons.injEq] at he
          obtain ⟨hy, he2⟩ := he
          cases c2' with
          | nil =>
              simp only [List.nil_append, List.cons.injEq] at he2
              obtain ⟨_, he3⟩ := he2
              have hm : ('_' : Char) ∈ d1 := by rw [he3]; exact List.mem_cons_self _ _
              exact absurd (g1 '_' hm) (by decide)
          | cons z c2'' =>
              simp only [List.cons_append, List.cons.injEq] at he2
              obtain ⟨hz, _⟩ := he2
              rw [← hy, ← hz] at h2
              have hst : startsWithL ['_', '_'] ('_' :: '_' :: (c2'' ++ '_' :: '_' :: d2))
                  = true := by simp [startsWithL]
              rw [show isInfixL ['_', '_'] ('_' :: '_' :: c2'')
                  = (startsWithL ['_', '_'] ('_' :: '_' :: c2'')
                    || isInfixL ['_', '_'] ('_' :: c2'')) from rfl] at h2
              have : startsWithL ['_', '_'] ('_' :: '_' :: c2'') = true := by
                simp [startsWithL]
              rw [this] at h2
              simp at h2
  | cons x c1' ih =>
      intro c2 d1 d2 h1 h2 g0 g1 g3 g2 he
      cases c2 with
      | nil =>
          exfalso
          simp only [List.cons_append, List.nil_append, List.cons.injEq] at he
          obtain ⟨hx, he2⟩ := he
          cases c1' with
          | nil =>
              simp only [List.nil_append, List.cons.injEq] at he2
              obtain ⟨_, he3⟩ := he2
              have hm : ('_' : Char) ∈ d2 := by rw [← he3]; exact List.mem_cons_self _ _
              exact absurd (g2 '_' hm) (by decide)
          | cons z c1'' =>
              simp only [List.cons_append, List.cons.injEq] at he2
              obtain ⟨hz, _⟩ := he2
              rw [hx, hz] at h1
              rw [show isInfixL ['_', '_'] ('_' :: '_' :: c1'')
                  = (startsWithL ['_', '_'] ('_' :: '_' :: c1'')
                    || isInfixL ['_', '_'] ('_' :: c1'')) from rfl] at h1
              have : startsWithL ['_', '_'] ('_' :: '_' :: c1'') = true := by
                simp [startsWithL]
              rw [this] at h1
              simp at h1
      | cons y c2' =>
          simp only [List.cons_append, List.cons.injEq] at he
          obtain ⟨hxy, he2⟩ := he
          have := ih c2' d1 d2 (isInfixL_tail h1) (isInfixL_tail h2) g0 g1 g3 g2 he2
          exact ⟨by rw [hxy, this.1], this.2⟩

theorem stringDataInj {a b : String} (h : a.data = b.data) : a = b := by
  cases a
  cases b
  exact congrArg String.mk h

/-- Injectivity of the generated identifiers on `(cleaned, occurrence)` pairs,
for cleaned headers free of the reserved `__` separator. -/
theorem encodeAlias_inj (c1 c2 : String) (k1 k2 : ℕ)
    (h1 : hasDoubleUnderscore c1 = false) (h2 : hasDoubleUnderscore c2 = false)
    (he : encodeAlias c1 k1 = encodeAlias c2 k2) : c1 = c2 ∧ k1 = k2 := by
  have dataOf : ∀ (c : String) (k : ℕ),
      (c ++ "__" ++ natStr k).data = c.data ++ '_' :: '_' :: natDigits k := by
    intro c k
    rw [String.data_append, String.data_append]
    show c.data ++ ['_', '_'] ++ natDigits k = _
    rw [List.append_assoc]
    rfl
  match k1, k2 with
  | 0, 0 =>
      simp only [encodeAlias, if_true] at he
      exact ⟨by simpa using he, rfl⟩
  | 0, j + 1 =>
      exfalso
      simp [encodeAlias] at he
      have hd := congrArg String.data he
      rw [dataOf] at hd
      have : isInfixL ['_', '_'] c1.data = true := by
        rw [hd]
        have := isInfixL_middle c2.data ['_', '_'] (natDigits (j + 1))
        simpa using this
      rw [hasDoubleUnderscore] at h1
      rw [h1] at this
      exact Bool.noConfusion this
  | i + 1, 0 =>
      exfalso
      simp [encodeAlias] at he
      have hd := congrArg String.data he
      rw [dataOf] at hd
      have : isInfixL ['_', '_'] c2.data = true := by
        rw [← hd]
        have := isInfixL_middle c1.data ['_', '_'] (natDigits (i + 1))
        simpa using this
      rw [hasDoubleUnderscore] at h2
      rw [h2] at this
      exact Bool.noConfusion this
  | i + 1, j + 1 =>
      simp [encodeAlias] at he
      have hd := congrArg String.data he
      rw [dataOf, dataOf] at hd
      have hs := sepSplit_inj c1.data c2.data (natDigits (i + 1)) (natDigits (j + 1))
        h1 h2 (natDigits_ne_nil _) (natDigits_digits _) (natDigits_ne_nil _)
        (natDigits_digits _) hd
      refine ⟨stringDataInj hs.1, ?_⟩
      have := natDigits_inj hs.2
      omega

/-- C3 (amended): when the mapped line-total value of a row parses to zero
(in particular when the column is absent), the Canonical Record Builder sets
the product total by this ordered fallback: first the row's own mapped
invoice-total value when it parses to a nonzero number, otherwise the
cross-row per-invoice aggregate keyed by the row's cleaned invoice
identifier when present, else 0.  The aggregate is consulted only after the
row's own invoice-total column, refuting the claim's final sentence. -/
theorem C3_product_total_fallback (mapping : List (String × String))
    (totals : List (String × ℚ)) (cands : List String) (row : Row)
    (h0 : parseSafeFloat (rowField row mapping "produto_valor_total") = 0) :
    (buildEntry mapping totals cands row).produto_valor_total =
      if parseSafeFloat (rowField row mapping "valor_total_nfe") ≠ 0 then
        parseSafeFloat (rowField row mapping "valor_total_nfe")
      else
        match (match optOrNone (rowField row mapping "nfe_id") with
               | none => none
               | some s =>
                   let t := pyStrip s
                   if t = "" then none else some t) with
        | some key => (alookup totals key).getD 0
        | none => 0 := by
  dsimp only [buildEntry]
  rw [if_pos h0]

/-- Witness for the C3 theorem: the line total parses to 0, the row's
invoice-total cell is non-numeric, so the aggregate 250 is used. -/
theorem C3_product_total_fallback_witness :
    parseSafeFloat (rowField c3wRow c3wMap "produto_valor_total") = 0 ∧
    (buildEntry c3wMap c3wTotals [] c3wRow).produto_valor_total = 250 := by
  have h0 : parseSafeFloat (rowField c3wRow c3wMap "produto_valor_total") = 0 := by
    with_unfolding_all rfl
  refine ⟨h0, ?_⟩
  rw [C3_product_total_fallback c3wMap c3wTotals [] c3wRow h0]
  with_unfolding_all rfl

/-! ## Association-list lemmas -/

theorem alookup_aset_self {κ α : Type} [DecidableEq κ]
    (l : List (κ × α)) (k : κ) (v : α) : alookup (aset l k v) k = some v := by
  induction l with
  | nil => simp [aset, alookup]
  | cons p rest ih =>
      by_cases hp : p.1 = k
      · simp [aset, alookup, hp]
      · cases p with
        | mk a b => simp_all [aset, alookup, hp]

theorem alookup_aset_ne {κ α : Type} [DecidableEq κ]
    (l : List (κ × α)) (k k' : κ) (v : α) (h : k' ≠ k) :
    alookup (aset l k v) k' = alookup l k' := by
  induction l with
  | nil =>
      simp only [aset, alookup]
      rw [if_neg (fun he => h he.symm)]
  | cons p rest ih =>
      cases p with
      | mk a b =>
          by_cases hp : a = k
          · subst hp
            have hne : ¬ a = k' := fun he => h he.symm
            simp only [aset, if_pos rfl, alookup, if_neg hne]
          · simp only [aset, if_neg hp, alookup]
            by_cases ha : a = k'
            · simp [ha]
            · simp [ha, ih]

/-! ## Column Sanitizer: the amended C9 facts -/

theorem sanitizeGo_not_mem (l : List String) :
    ∀ (counts : List (String × ℕ)) (c : String) (j : ℕ),
      (∀ s ∈ l, hasDoubleUnderscore (pyStrip s) = false) →
      hasDoubleUnderscore c = false →
      j < (alookup counts c).getD 0 →
      encodeAlias c j ∉ (sanitizeGo l counts).1 := by
  induction l with
  | nil =>
      intro counts c j _ _ _
      simp [sanitizeGo]
  | cons r rest ih =>
      intro counts c j hpre hc hj
      have hr : hasDoubleUnderscore (pyStrip r) = false :=
        hpre r (List.mem_cons_self _ _)
      have hrest : ∀ s ∈ rest, hasDoubleUnderscore (pyStrip s) = false :=
        fun s hs => hpre s (List.mem_cons_of_mem _ hs)
      by_cases hcl : pyStrip r = ""
      · simp only [sanitizeGo, hcl, if_pos rfl]
        exact ih counts c j hrest hc hj
      · simp only [sanitizeGo, if_neg hcl, List.mem_cons, not_or]
        constructor
        · intro heq
          have hinj := encodeAlias_inj c (pyStrip r) j
            ((alookup counts (pyStrip r)).getD 0) hc hr heq
          rcases hinj with ⟨hceq, hkeq⟩
          rw [hceq] at hj
          omega
        · by_cases hcc : c = pyStrip r
          · apply ih _ c j hrest hc
            rw [hcc, alookup_aset_self]
            rw [hcc] at hj
            simp only [Option.getD_some]
            omega
          · apply ih _ c j hrest hc
            rw [alookup_aset_ne _ _ _ _ hcc]
            exact hj

theorem sanitizeGo_nodup (l : List String) :
    ∀ (counts : List (String × ℕ)),
      (∀ s ∈ l, hasDoubleUnderscore (pyStrip s) = false) →
      (sanitizeGo l counts).1.Nodup := by
  induction l with
  | nil => intro counts _; simp [sanitizeGo]
  | cons r rest ih =>
      intro counts hpre
      have hr : hasDoubleUnderscore (pyStrip r) = false :=
        hpre r (List.mem_cons_self _ _)
      have hrest : ∀ s ∈ rest, hasDoubleUnderscore (pyStrip s) = false :=
        fun s hs => hpre s (List.mem_cons_of_mem _ hs)
      by_cases hcl : pyStrip r = ""
      · simp only [sanitizeGo, hcl, if_pos rfl]
        exact ih counts hrest
      · simp only [sanitizeGo, if_neg hcl, List.nodup_cons]
        refine ⟨?_, ih _ hrest⟩
        apply sanitizeGo_not_mem rest _ _ _ hrest hr
        rw [alookup_aset_self]
        simp only [Option.getD_some]
        omega

theorem sanitizeGo_length (l : List String) :
    ∀ counts, (sanitizeGo l counts).1.length = (keptHeaders l).length := by
  induction l with
  | nil => intro counts; simp [sanitizeGo, keptHeaders]
  | cons r rest ih =>
      intro counts
      by_cases hcl : pyStrip r = ""
      · simp only [sanitizeGo, hcl, if_pos rfl, keptHeaders, List.filterMap_cons]
        simpa [hcl, keptHeaders] using ih counts
      · simp only [sanitizeGo, if_neg hcl, keptHeaders, List.filterMap_cons, hcl]
        simpa [hcl, keptHeaders] using ih (aset counts (pyStrip r)
          (((alookup counts (pyStrip r)).getD 0) + 1))

theorem sanitizeGo_display (l : List String) :
    ∀ counts,
      (∀ s ∈ l, hasDoubleUnderscore (pyStrip s) = false) →
      ∀ p ∈ (sanitizeGo l counts).1.zip (keptHeaders l),
        alookup (sanitizeGo l counts).2 p.1 = some p.2 := by
  induction l with
  | nil =>
      intro counts _ p hp
      simp [sanitizeGo] at hp
  | cons r rest ih =>
      intro counts hpre p hp
      have hr : hasDoubleUnderscore (pyStrip r) = false :=
        hpre r (List.mem_cons_self _ _)
      have hrest : ∀ s ∈ rest, hasDoubleUnderscore (pyStrip s) = false :=
        fun s hs => hpre s (List.mem_cons_of_mem _ hs)
      by_cases hcl : pyStrip r = ""
      · simp only [sanitizeGo, hcl, if_pos rfl] at hp ⊢
        rw [show keptHeaders (r :: rest) = keptHeaders rest from by
          simp [keptHeaders, hcl]] at hp
        exact ih counts hrest p hp
      · simp only [sanitizeGo, if_neg hcl] at hp ⊢
        rw [show keptHeaders (r :: rest) = pyStrip r :: keptHeaders rest from by
          simp [keptHeaders, hcl]] at hp
        rw [List.zip_cons_cons, List.mem_cons] at hp
        rcases hp with hp | hp
        · rw [hp]
          simp [alookup]
        · have hmem := List.of_mem_zip hp
          have hne : p.1 ≠ encodeAlias (pyStrip r) ((alookup counts (pyStrip r)).getD 0) := by
            intro he
            have hnm := sanitizeGo_not_mem rest
              (aset counts (pyStrip r) (((alookup counts (pyStrip r)).getD 0) + 1))
              (pyStrip r) ((alookup counts (pyStrip r)).getD 0) hrest hr
              (by rw [alookup_aset_self]; simp only [Option.getD_some]; omega)
            rw [← he] at hnm
            exact hnm hmem.1
          have hne' : ¬ (encodeAlias (pyStrip r) ((alookup counts (pyStrip r)).getD 0) = p.1) :=
            fun he => hne he.symm
          simp only [alookup, if_neg hne']
          exact ih _ hrest p hp

/-- C9 (amended): provided no header contains the reserved `__` suffix
separator after trimming, the Column Sanitizer's identifiers are pairwise
distinct, one per kept (trimmed, non-empty) header in order of first
appearance, and the display map sends the i-th identifier back to the i-th
kept header. -/
theorem C9_sanitizer (fieldnames : List String)
    (hdu : ∀ s ∈ fieldnames, hasDoubleUnderscore (pyStrip s) = false) :
    (sanitizeFieldnames fieldnames).1.Nodup ∧
    (sanitizeFieldnames fieldnames).1.length = (keptHeaders fieldnames).length ∧
    ∀ p ∈ (sanitizeFieldnames fieldnames).1.zip (keptHeaders fieldnames),
      alookup (sanitizeFieldnames fieldnames).2 p.1 = some p.2 := by
  refine ⟨sanitizeGo_nodup fieldnames [] hdu, sanitizeGo_length fieldnames [], ?_⟩
  exact sanitizeGo_display fieldnames [] hdu

/-! ## Column-Mapping invariants: the amended C1 facts -/

theorem nodupSubsetLength (l1 l2 : List String) (h : l1.Nodup) (hs : l1 ⊆ l2) :
    l1.length ≤ l2.length := by
  have h1 : l1.length = l1.toFinset.card := (List.toFinset_card_of_nodup h).symm
  have h2 : l1.toFinset ⊆ l2.toFinset := by
    intro a ha
    rw [List.mem_toFinset] at ha ⊢
    exact hs ha
  calc l1.length = l1.toFinset.card := h1
    _ ≤ l2.toFinset.card := Finset.card_le_card h2
    _ ≤ l2.length := l2.toFinset_card_le

theorem mem_aset {κ α : Type} [DecidableEq κ]
    (l : List (κ × α)) (k : κ) (v : α) :
    ∀ p ∈ aset l k v, p ∈ l ∨ p = (k, v) := by
  induction l with
  | nil =>
      intro p hp
      simp only [aset, List.mem_singleton] at hp
      right; exact hp
  | cons q rest ih =>
      intro p hp
      cases q with
      | mk a b =>
          by_cases ha : a = k
          · simp only [aset, if_pos ha] at hp
            rcases List.mem_cons.mp hp with hp | hp
            · right; rw [hp, ha]
            · left; exact List.mem_cons_of_mem _ hp
          · simp only [aset, if_neg ha] at hp
            rcases List.mem_cons.mp hp with hp | hp
            · left; rw [hp]; exact List.mem_cons_self _ _
            · rcases ih p hp with h | h
              · left; exact List.mem_cons_of_mem _ h
              · right; exact h

theorem length_aset_of_mem {κ α : Type} [DecidableEq κ]
    (l : List (κ × α)) (k : κ) (v : α) (h : k ∈ akeys l) :
    (aset l k v).length = l.length := by
  induction l with
  | nil => simp [akeys] at h
  | cons q rest ih =>
      cases q with
      | mk a b =>
          by_cases ha : a = k
          · simp [aset, ha]
          · have h' : k ∈ akeys rest := by
              simp only [akeys, List.map_cons, List.mem_cons] at h
              rcases h with h | h
              · exact absurd h.symm ha
              · exact h
            simp [aset, ha, ih h']

theorem akeys_aset_of_mem {κ α : Type} [DecidableEq κ]
    (l : List (κ × α)) (k : κ) (v : α) (h : k ∈ akeys l) :
    akeys (aset l k v) = akeys l := by
  induction l with
  | nil => simp [akeys] at h
  | cons q rest ih =>
      cases q with
      | mk a b =>
          by_cases ha : a = k
          · simp [aset, ha, akeys]
          · have h' : k ∈ akeys rest := by
              simp only [akeys, List.map_cons, List.mem_cons] at h
              rcases h with h | h
              · exact absurd h.symm ha
              · exact h
            simp only [aset, if_neg ha, akeys, List.map_cons]
            exact congrArg (fun t => a :: t) (ih h')

theorem vtCount_cons {α : Type} (a : String) (b : α) (l : List (String × α)) :
    vtCount ((a, b) :: l)
      = vtCount l + (if a = "valor_total_nfe" then 1 else 0) := by
  by_cases hk : a = "valor_total_nfe" <;> simp [vtCount, List.filter_cons, hk]

theorem vtCount_append_single {α : Type} (m : List (String × α)) (f : String) (c : α) :
    vtCount (m ++ [(f, c)])
      = vtCount m + (if f = "valor_total_nfe" then 1 else 0) := by
  by_cases hk : f = "valor_total_nfe" <;>
    simp [vtCount, List.filter_append, List.filter_cons, hk]

theorem vtCount_aset_of_mem {α : Type} (l : List (String × α)) (k : String) (v : α)
    (h : k ∈ akeys l) : vtCount (aset l k v) = vtCount l := by
  induction l with
  | nil => simp [akeys] at h
  | cons q rest ih =>
      cases q with
      | mk a b =>
          by_cases ha : a = k
          · simp only [aset, if_pos ha, vtCount_cons]
          · have h' : k ∈ akeys rest := by
              simp only [akeys, List.map_cons, List.mem_cons] at h
              rcases h with h | h
              · exact absurd h.symm ha
              · exact h
            simp only [aset, if_neg ha, vtCount_cons, ih h']

theorem vtCount_zero_of_not_lookup {α : Type} (m : List (String × α))
    (h : alookup m "valor_total_nfe" = none) : vtCount m = 0 := by
  induction m with
  | nil => simp [vtCount]
  | cons q rest ih =>
      cases q with
      | mk a b =>
          simp only [alookup] at h
          by_cases ha : a = "valor_total_nfe"
          · rw [if_pos ha] at h; exact absurd h (by simp)
          · rw [if_neg ha] at h
            rw [vtCount_cons, if_neg ha, ih h]

theorem bestCandidate_mem (cols : List String) (skip : String → Bool)
    (score : String → ℚ) (c : String)
    (h : (bestCandidate cols skip score).1 = some c) :
    c ∈ cols ∧ skip c = false := by
  have go : ∀ (l : List String) (acc : Option String × ℚ),
      (l.foldl
        (fun acc col =>
          if skip col then acc
          else
            let s := score col
            if s > acc.2 then (some col, s) else acc) acc).1 = some c →
      (c ∈ l ∧ skip c = false) ∨ acc.1 = some c := by
    intro l
    induction l with
    | nil => intro acc h; right; exact h
    | cons col rest ih =>
        intro acc h
        rw [List.foldl_cons] at h
        rcases ih _ h with h1 | h1
        · exact Or.inl ⟨List.mem_cons_of_mem _ h1.1, h1.2⟩
        · by_cases hs : skip col
          · rw [if_pos hs] at h1; right; exact h1
          · rw [if_neg hs] at h1
            by_cases hgt : score col > acc.2
            · rw [if_pos hgt] at h1
              have hc : col = c := by
                have : some col = some c := h1
                exact Option.some.inj this
              refine Or.inl ⟨?_, ?_⟩
              · rw [← hc]; exact List.mem_cons_self _ _
              · rw [← hc]; simpa using hs
            · rw [if_neg hgt] at h1; right; exact h1
  rcases go cols (none, 0) h with h1 | h1
  · exact h1
  · exact absurd h1 (by simp)

theorem mem_akeys_of_lookup {κ α : Type} [DecidableEq κ]
    (l : List (κ × α)) (k : κ) (v : α) (h : alookup l k = some v) :
    k ∈ akeys l := by
  induction l with
  | nil => simp [alookup] at h
  | cons q rest ih =>
      cases q with
      | mk a b =>
          simp only [alookup] at h
          by_cases ha : a = k
          · simp [akeys, ha]
          · rw [if_neg ha] at h
            simp only [akeys, List.map_cons, List.mem_cons]
            exact Or.inr (ih h)

theorem pyRoundQ3_mono (q t : ℚ) (ti : ℤ) (ht : t * 1000 = (ti : ℚ))
    (h : t ≤ q) : t ≤ pyRoundQ 3 q := by
  unfold pyRoundQ
  dsimp only
  have hpos : (0 : ℚ) < 10 ^ (3 : ℕ) := by norm_num
  rw [le_div_iff hpos]
  have h1000 : ((10 : ℚ) ^ (3 : ℕ)) = 1000 := by norm_num
  rw [h1000, ht]
  have hy : (ti : ℚ) ≤ q * 10 ^ (3 : ℕ) := by
    rw [← ht, h1000]
    nlinarith
  have hf : ti ≤ Int.floor (q * 10 ^ (3 : ℕ)) := Int.le_floor.mpr hy
  have hr : ti ≤ (if q * 10 ^ (3:ℕ) - (↑(Int.floor (q * 10 ^ (3:ℕ))) : ℚ) < 1/2
      then Int.floor (q * 10 ^ (3:ℕ))
      else if q * 10 ^ (3:ℕ) - (↑(Int.floor (q * 10 ^ (3:ℕ))) : ℚ) > 1/2
        then Int.floor (q * 10 ^ (3:ℕ)) + 1
        else if Int.floor (q * 10 ^ (3:ℕ)) % 2 = 0
          then Int.floor (q * 10 ^ (3:ℕ))
          else Int.floor (q * 10 ^ (3:ℕ)) + 1) := by
    split
    · exact hf
    · split
      · omega
      · split
        · exact hf
        · omega
  exact_mod_cast hr

theorem not_mem_of_contains_false (l : List String) (c : String)
    (h : l.contains c = false) : c ∉ l := by
  intro hm
  rw [List.contains_eq_any_beq] at h
  have : l.any (fun x => c == x) = true := by
    rw [List.any_eq_true]
    exact ⟨c, hm, by simp⟩
  rw [h] at this
  exact absurd this (by simp)

theorem mapStep_inv (cols : List String) (field c : String) (d : Diag)
    (st : MapSt) (hinv : mapInv cols st) (hmem : c ∈ cols)
    (hskip : (st.used.contains c && !(reusableFields.contains field)) = false)
    (hd : diagOk d)
    (hbudget : vtCount st.mapping
      + (if field = "valor_total_nfe" then 1 else 0) ≤ 1) :
    mapInv cols
      ⟨st.mapping ++ [(field, c)], st.diags ++ [(field, d)],
        if reusableFields.contains field then st.used else st.used ++ [c]⟩ := by
  obtain ⟨hlen, hvt, hnd, hsub, hkeys, hdg⟩ := hinv
  have hkmap : ∀ (x : List (String × String)) (y : List (String × Diag)),
      x.map Prod.fst = y.map Prod.fst →
      akeys (x ++ [(field, c)]) = akeys (y ++ [(field, d)]) := by
    intro x y hxy
    show (x ++ [(field, c)]).map Prod.fst = (y ++ [(field, d)]).map Prod.fst
    rw [List.map_append, List.map_append, hxy]
    rfl
  have hdiag : ∀ p ∈ st.diags ++ [(field, d)], diagOk p.2 := by
    intro p hp
    rcases List.mem_append.mp hp with hp | hp
    · exact hdg p hp
    · rw [List.mem_singleton] at hp
      rw [hp]
      exact hd
  by_cases hru : reusableFields.contains field = true
  · have hfield : field = "valor_total_nfe" := by
      simpa [reusableFields] using hru
    rw [if_pos hfield] at hbudget
    refine ⟨?_, ?_, ?_, ?_, hkmap _ _ hkeys, hdiag⟩
    · show (st.mapping ++ [(field, c)]).length
        ≤ (if reusableFields.contains field then st.used
            else st.used ++ [c]).length + vtCount (st.mapping ++ [(field, c)])
      rw [if_pos hru, List.length_append, vtCount_append_single, if_pos hfield]
      simp only [List.length_singleton]
      omega
    · show vtCount (st.mapping ++ [(field, c)]) ≤ 1
      rw [vtCount_append_single, if_pos hfield]
      omega
    · show (if reusableFields.contains field then st.used
          else st.used ++ [c]).Nodup
      rw [if_pos hru]
      exact hnd
    · show (if reusableFields.contains field then st.used
          else st.used ++ [c]) ⊆ cols
      rw [if_pos hru]
      exact hsub
  · have hru' : reusableFields.contains field = false := by
      simpa using hru
    have hfield : field ≠ "valor_total_nfe" := by
      intro he
      rw [he] at hru'
      simp [reusableFields] at hru'
    rw [if_neg hfield] at hbudget
    have hcont : st.used.contains c = false := by
      rw [hru'] at hskip
      simpa using hskip
    have hcnot : c ∉ st.used := not_mem_of_contains_false _ _ hcont
    refine ⟨?_, ?_, ?_, ?_, hkmap _ _ hkeys, hdiag⟩
    · show (st.mapping ++ [(field, c)]).length
        ≤ (if reusableFields.contains field then st.used
            else st.used ++ [c]).length + vtCount (st.mapping ++ [(field, c)])
      rw [if_neg hru, List.length_append, List.length_append,
        vtCount_append_single, if_neg hfield]
      simp only [List.length_singleton]
      omega
    · show vtCount (st.mapping ++ [(field, c)]) ≤ 1
      rw [vtCount_append_single, if_neg hfield]
      omega
    · show (if reusableFields.contains field then st.used
          else st.used ++ [c]).Nodup
      rw [if_neg hru, List.nodup_append]
      refine ⟨hnd, List.nodup_singleton c, ?_⟩
      intro a ha hb
      rw [List.mem_singleton] at hb
      rw [hb] at ha
      exact hcnot ha
    · show (if reusableFields.contains field then st.used
          else st.used ++ [c]) ⊆ cols
      rw [if_neg hru]
      intro a ha
      rcases List.mem_append.mp ha with ha | ha
      · exact hsub ha
      · rw [List.mem_singleton] at ha
        rw [ha]
        exact hmem

theorem aliasPass_inv (cols : List String) (normH disp : String → String) :
    ∀ (pending : List (String × List String)) (st : MapSt),
      mapInv cols st →
      vtCount st.mapping + vtCount pending ≤ 1 →
      mapInv cols (aliasPass cols normH disp pending st) := by
  intro pending
  induction pending with
  | nil => intro st hinv _; exact hinv
  | cons fa rest ih =>
      intro st hinv hcnt
      cases fa with
      | mk field aliases =>
          rw [vtCount_cons] at hcnt
          simp only [aliasPass]
          split
          · rename_i c hc
            split
            · rename_i hacc
              have hmem := bestCandidate_mem cols _ _ c hc
              apply ih
              · apply mapStep_inv cols field c _ st hinv hmem.1 hmem.2
                · left
                  refine ⟨rfl, ?_⟩
                  exact pyRoundQ3_mono _ _ 650 (by norm_num) hacc.2
                · omega
              · rw [vtCount_append_single]
                omega
            · apply ih _ hinv
              omega
          · apply ih _ hinv
            omega


theorem valuePass_inv (rows : List Row) (cols : List String)
    (normH disp : String → String) :
    ∀ (pending : List (String × (String → List (Option String) → ℚ)))
      (st : MapSt), mapInv cols st →
      mapInv cols (valuePass rows cols normH disp pending st) := by
  intro pending
  induction pending with
  | nil => intro st hinv; exact hinv
  | cons fa rest ih =>
      intro st hinv
      cases fa with
      | mk field scorer =>
          simp only [valuePass]
          split
          · exact ih st hinv
          · rename_i hah
            split
            · rename_i c hc
              split
              · rename_i hacc
                have hmem := bestCandidate_mem cols _ _ c hc
                apply ih
                apply mapStep_inv cols field c _ st hinv hmem.1 hmem.2
                · right; left
                  refine ⟨rfl, ?_⟩
                  exact pyRoundQ3_mono _ _ 550 (by norm_num) hacc.2
                · by_cases hf : field = "valor_total_nfe"
                  · rw [if_pos hf]
                    have hnone : alookup st.mapping "valor_total_nfe" = none := by
                      rw [← hf]
                      cases hcase : alookup st.mapping field with
                      | none => rfl
                      | some v =>
                          exfalso
                          apply hah
                          simp [ahas, hcase]
                    rw [vtCount_zero_of_not_lookup _ hnone]
                  · rw [if_neg hf]
                    have := hinv.2.1
                    omega
              · exact ih st hinv
            · exact ih st hinv

theorem preferFind_inv (cols : List String) (normH disp : String → String)
    (field : String) (pred : String → Bool) (cur : String) :
    ∀ (l : List String) (st : MapSt), l ⊆ cols → mapInv cols st →
      field ∈ akeys st.mapping →
      mapInv cols (preferFind field pred cur normH disp l st) := by
  intro l
  induction l with
  | nil => intro st _ hinv _; exact hinv
  | cons col rest ih =>
      intro st hsubl hinv hfmem
      have hsubrest : rest ⊆ cols := fun a ha => hsubl (List.mem_cons_of_mem _ ha)
      have hcol : col ∈ cols := hsubl (List.mem_cons_self _ _)
      simp only [preferFind]
      split
      · exact ih st hsubrest hinv hfmem
      · split
        · exact ih st hsubrest hinv hfmem
        · split
          · exact ih st hsubrest hinv hfmem
          · rename_i h1 h2 h3
            obtain ⟨hlen, hvt, hnd, hsub, hkeys, hdg⟩ := hinv
            have hfd : field ∈ akeys st.diags := by
              rw [← hkeys]; exact hfmem
            refine ⟨?_, ?_, ?_, ?_, ?_, ?_⟩
            · show (aset st.mapping field col).length
                ≤ (if reusableFields.contains field then st.used
                    else (st.used.erase cur) ++ [col]).length
                  + vtCount (aset st.mapping field col)
              rw [length_aset_of_mem _ _ _ hfmem, vtCount_aset_of_mem _ _ _ hfmem]
              by_cases hru : reusableFields.contains field = true
              · rw [if_pos hru]
                exact hlen
              · rw [if_neg hru, List.length_append]
                by_cases hcur : cur ∈ st.used
                · have := List.length_erase_of_mem hcur
                  simp only [List.length_singleton]
                  omega
                · rw [List.erase_of_not_mem hcur]
                  simp only [List.length_singleton]
                  omega
            · show vtCount (aset st.mapping field col) ≤ 1
              rw [vtCount_aset_of_mem _ _ _ hfmem]
              exact hvt
            · show (if reusableFields.contains field then st.used
                  else (st.used.erase cur) ++ [col]).Nodup
              by_cases hru : reusableFields.contains field = true
              · rw [if_pos hru]
                exact hnd
              · have hru' : reusableFields.contains field = false := by
                  simpa using hru
                have hcolnot : st.used.contains col = false := by
                  cases hcc : st.used.contains col
                  · rfl
                  · exfalso
                    apply h3
                    rw [hcc, hru']
                    rfl
                have hcnot : col ∉ st.used := not_mem_of_contains_false _ _ hcolnot
                rw [if_neg hru, List.nodup_append]
                refine ⟨hnd.erase cur, List.nodup_singleton col, ?_⟩
                intro a ha hb
                rw [List.mem_singleton] at hb
                rw [hb] at ha
                exact hcnot (List.erase_subset _ _ ha)
            · show (if reusableFields.contains field then st.used
                  else (st.used.erase cur) ++ [col]) ⊆ cols
              by_cases hru : reusableFields.contains field = true
              · rw [if_pos hru]
                exact hsub
              · rw [if_neg hru]
                intro a ha
                rcases List.mem_append.mp ha with ha | ha
                · exact hsub (List.erase_subset _ _ ha)
                · rw [List.mem_singleton] at ha
                  rw [ha]
                  exact hcol
            · show akeys (aset st.mapping field col)
                = akeys (aset st.diags field ⟨disp col, 1, "alias_adjustment"⟩)
              rw [akeys_aset_of_mem _ _ _ hfmem, akeys_aset_of_mem _ _ _ hfd]
              exact hkeys
            · intro p hp
              rcases mem_aset _ _ _ p hp with hp | hp
              · exact hdg p hp
              · rw [hp]
                right; right
                exact ⟨rfl, rfl⟩

theorem preferColumn_inv (cols : List String) (normH disp : String → String)
    (field : String) (pred : String → Bool) (st : MapSt)
    (hinv : mapInv cols st) :
    mapInv cols (preferColumn cols normH disp field pred st) := by
  simp only [preferColumn]
  split
  · exact hinv
  · rename_i cur hcur
    split
    · exact hinv
    · split
      · exact hinv
      · exact preferFind_inv cols normH disp field pred cur cols st
          (fun a ha => ha) hinv (mem_akeys_of_lookup _ _ _ hcur)

theorem inferColumnMapping_inv (rows : List Row)
    (displayMap : List (String × String)) :
    mapInv (akeys displayMap)
      (preferColumn (akeys displayMap)
        (fun c => normalizeText ((alookup displayMap c).getD c))
        (fun c => (alookup displayMap c).getD c) "produto_nome" predPNome
        (preferColumn (akeys displayMap)
          (fun c => normalizeText ((alookup displayMap c).getD c))
          (fun c => (alookup displayMap c).getD c) "valor_total_nfe" predVTotal
          (valuePass rows (akeys displayMap)
            (fun c => normalizeText ((alookup displayMap c).getD c))
            (fun c => (alookup displayMap c).getD c) inferenceRules
            (aliasPass (akeys displayMap)
              (fun c => normalizeText ((alookup displayMap c).getD c))
              (fun c => (alookup displayMap c).getD c) CSV_FIELD_ALIASES
              ⟨[], [], []⟩)))) := by
  apply preferColumn_inv
  apply preferColumn_inv
  apply valuePass_inv
  apply aliasPass_inv
  · exact ⟨by simp [vtCount], by simp [vtCount], List.nodup_nil,
      by simp, rfl, by simp⟩
  · decide

/-- C1 (amended): for every input, the Column Mapping carries at most one
more entry than there are raw columns (equality of fields and columns can be
exceeded only by the single reusable field `valor_total_nfe`, which may
share a column with another field, refuting the claimed bound of exactly
the column count); every mapping entry has a diagnostics entry, and every
diagnostics entry was accepted at or above its threshold: 0.65 for
name(alias) matches, 0.55 for value-pattern matches, with `_prefer_column`
re-homings recorded as alias-adjustment entries pinned to score 1.0. -/
theorem C1_mapping_invariants (rows : List Row)
    (displayMap : List (String × String)) :
    (inferColumnMapping rows displayMap).1.length ≤ displayMap.length + 1 ∧
    akeys (inferColumnMapping rows displayMap).1
      = akeys (inferColumnMapping rows displayMap).2 ∧
    ∀ p ∈ (inferColumnMapping rows displayMap).2, diagOk p.2 := by
  by_cases hr : rows = []
  · simp [inferColumnMapping, hr, akeys]
  · have hcols : (akeys displayMap).length = displayMap.length := by
      simp [akeys]
    obtain ⟨hlen, hvt, hnd, hsub, hkeys, hdg⟩ := inferColumnMapping_inv rows displayMap
    have hul := nodupSubsetLength _ _ hnd hsub
    simp only [inferColumnMapping, if_neg hr]
    refine ⟨?_, hkeys, hdg⟩
    omega

/-- Witness for C9 at a concrete header list with a repeat. -/
theorem C9_sanitizer_witness :
    (∀ s ∈ ["Valor", "Valor", "NCM"], hasDoubleUnderscore (pyStrip s) = false) ∧
    (sanitizeFieldnames ["Valor", "Valor", "NCM"]).1.Nodup ∧
    (sanitizeFieldnames ["Valor", "Valor", "NCM"]).1.length
      = (keptHeaders ["Valor", "Valor", "NCM"]).length := by
  have h := C9_sanitizer ["Valor", "Valor", "NCM"] (by decide)
  exact ⟨by decide, h.1, h.2.1⟩

/-! ## Semantic-Analyzer stability: the amended C7 facts -/

theorem mem_firstSeenAux : ∀ (l seen : List String) (a : String),
    a ∈ firstSeenAux l seen ↔ a ∈ l ∧ a ∉ seen := by
  intro l
  induction l with
  | nil => intro seen a; simp [firstSeenAux]
  | cons x xs ih =>
      intro seen a
      simp only [firstSeenAux]
      by_cases hx : x ∈ seen
      · rw [if_pos hx, ih]
        constructor
        · rintro ⟨h1, h2⟩
          exact ⟨List.mem_cons_of_mem _ h1, h2⟩
        · rintro ⟨h1, h2⟩
          rcases List.mem_cons.mp h1 with h1 | h1
          · exact absurd (h1 ▸ hx) h2
          · exact ⟨h1, h2⟩
      · rw [if_neg hx]
        constructor
        · intro h
          rcases List.mem_cons.mp h with h | h
          · subst h
            exact ⟨List.mem_cons_self _ _, hx⟩
          · rw [ih] at h
            refine ⟨List.mem_cons_of_mem _ h.1, ?_⟩
            intro hs
            exact h.2 (List.mem_cons_of_mem _ hs)
        · rintro ⟨h1, h2⟩
          rcases List.mem_cons.mp h1 with h1 | h1
          · subst h1
            exact List.mem_cons_self _ _
          · by_cases hax : a = x
            · subst hax
              exact List.mem_cons_self _ _
            · apply List.mem_cons_of_mem
              rw [ih]
              refine ⟨h1, ?_⟩
              intro hs
              rcases List.mem_cons.mp hs with hs | hs
              · exact hax hs
              · exact h2 hs

theorem firstSeenAux_nodup : ∀ (l seen : List String),
    (firstSeenAux l seen).Nodup := by
  intro l
  induction l with
  | nil => intro seen; simp [firstSeenAux]
  | cons x xs ih =>
      intro seen
      simp only [firstSeenAux]
      by_cases hx : x ∈ seen
      · rw [if_pos hx]
        exact ih seen
      · rw [if_neg hx, List.nodup_cons]
        refine ⟨?_, ih _⟩
        intro hmem
        rw [mem_firstSeenAux] at hmem
        exact hmem.2 (List.mem_cons_self _ _)

theorem firstSeen_nodup (l : List String) : (firstSeen l).Nodup :=
  firstSeenAux_nodup l []

theorem mem_firstSeen (l : List String) (a : String) :
    a ∈ firstSeen l ↔ a ∈ l := by
  rw [firstSeen, mem_firstSeenAux]
  simp

theorem firstSeenAux_append_mem : ∀ (l seen : List String) (x : String),
    (x ∈ seen ∨ x ∈ l) →
    firstSeenAux (l ++ [x]) seen = firstSeenAux l seen := by
  intro l
  induction l with
  | nil =>
      intro seen x hx
      rcases hx with hx | hx
      · simp [firstSeenAux, hx]
      · simp at hx
  | cons y ys ih =>
      intro seen x hx
      simp only [List.cons_append, firstSeenAux]
      by_cases hy : y ∈ seen
      · rw [if_pos hy, if_pos hy]
        apply ih
        rcases hx with hx | hx
        · exact Or.inl hx
        · rcases List.mem_cons.mp hx with hx | hx
          · exact Or.inl (hx ▸ hy)
          · exact Or.inr hx
      · rw [if_neg hy, if_neg hy]
        congr 1
        apply ih
        rcases hx with hx | hx
        · exact Or.inl (List.mem_cons_of_mem _ hx)
        · rcases List.mem_cons.mp hx with hx | hx
          · exact Or.inl (hx ▸ List.mem_cons_self _ _)
          · exact Or.inr hx

theorem firstSeenAux_append_notMem : ∀ (l seen : List String) (x : String),
    x ∉ seen → x ∉ l →
    firstSeenAux (l ++ [x]) seen = firstSeenAux l seen ++ [x] := by
  intro l
  induction l with
  | nil =>
      intro seen x hx _
      simp [firstSeenAux, hx]
  | cons y ys ih =>
      intro seen x hxs hxl
      have hxy : x ≠ y := fun he => hxl (he ▸ List.mem_cons_self _ _)
      have hxys : x ∉ ys := fun hm => hxl (List.mem_cons_of_mem _ hm)
      simp only [List.cons_append, firstSeenAux]
      by_cases hy : y ∈ seen
      · rw [if_pos hy, if_pos hy]
        exact ih seen x hxs hxys
      · rw [if_neg hy, if_neg hy, List.cons_append]
        congr 1
        refine ih (y :: seen) x ?_ hxys
        intro hm
        rcases List.mem_cons.mp hm with hm | hm
        · exact hxy hm
        · exact hxs hm

theorem firstSeen_append_mem (l : List String) (x : String) (hx : x ∈ l) :
    firstSeen (l ++ [x]) = firstSeen l :=
  firstSeenAux_append_mem l [] x (Or.inr hx)

theorem firstSeen_append_notMem (l : List String) (x : String) (hx : x ∉ l) :
    firstSeen (l ++ [x]) = firstSeen l ++ [x] :=
  firstSeenAux_append_notMem l [] x (by simp) hx

theorem alookup_map_form_mem {α : Type} (ks : List String) (f : String → α)
    (lab : String) (h : lab ∈ ks) :
    alookup (ks.map fun k => (k, f k)) lab = some (f lab) := by
  induction ks with
  | nil => simp at h
  | cons k rest ih =>
      simp only [List.map_cons, alookup]
      by_cases hk : k = lab
      · rw [if_pos hk, hk]
      · rw [if_neg hk]
        apply ih
        rcases List.mem_cons.mp h with h | h
        · exact absurd h.symm hk
        · exact h

theorem alookup_map_form_notMem {α : Type} (ks : List String) (f : String → α)
    (lab : String) (h : lab ∉ ks) :
    alookup (ks.map fun k => (k, f k)) lab = none := by
  induction ks with
  | nil => rfl
  | cons k rest ih =>
      have hk : k ≠ lab := fun he => h (he ▸ List.mem_cons_self _ _)
      simp only [List.map_cons, alookup, if_neg hk]
      exact ih (fun hm => h (List.mem_cons_of_mem _ hm))

theorem aset_map_form {α : Type} (ks : List String) (f : String → α)
    (lab : String) (v : α) (hmem : lab ∈ ks) (hnd : ks.Nodup) :
    aset (ks.map fun k => (k, f k)) lab v
      = ks.map (fun k => (k, if k = lab then v else f k)) := by
  induction ks with
  | nil => simp at hmem
  | cons k rest ih =>
      rw [List.nodup_cons] at hnd
      simp only [List.map_cons, aset]
      by_cases hk : k = lab
      · subst hk
        rw [if_pos rfl, if_pos rfl]
        congr 1
        apply (List.map_congr_left ?_).symm
        intro a ha
        have hak : ¬ a = k := fun he => hnd.1 (he ▸ ha)
        rw [if_neg hak]
      · rw [if_neg hk, if_neg hk]
        congr 1
        apply ih ?_ hnd.2
        rcases List.mem_cons.mp hmem with hm | hm
        · exact absurd hm.symm hk
        · exact hm

theorem counter_char : ∀ labs : List String,
    labs.foldl counterAdd []
      = (firstSeen labs).map (fun lab => (lab, labs.count lab)) := by
  intro labs
  induction labs using List.reverseRecOn with
  | nil => rfl
  | append_singleton init lab ih =>
      rw [List.foldl_append, List.foldl_cons, List.foldl_nil, ih]
      by_cases hmem : lab ∈ init
      · rw [firstSeen_append_mem _ _ hmem]
        have hfs : lab ∈ firstSeen init := (mem_firstSeen _ _).mpr hmem
        simp only [counterAdd, alookup_map_form_mem _ _ _ hfs]
        rw [aset_map_form _ _ _ _ hfs (firstSeen_nodup _)]
        apply List.map_congr_left
        intro a ha
        rw [List.count_append]
        by_cases hal : a = lab
        · subst hal
          simp [List.count_cons]
        · have : ¬ lab = a := fun he => hal he.symm
          simp [List.count_cons, this, hal]
      · rw [firstSeen_append_notMem _ _ hmem]
        have hfs : lab ∉ firstSeen init :=
          fun h => hmem ((mem_firstSeen _ _).mp h)
        simp only [counterAdd, alookup_map_form_notMem _ _ _ hfs]
        rw [List.map_append]
        congr 1
        · apply List.map_congr_left
          intro a ha
          have hal : ¬ lab = a := fun he => hfs (he ▸ ha)
          rw [List.count_append]
          simp [List.count_cons, hal]
        · simp only [List.map_cons, List.map_nil]
          rw [List.count_append, List.count_eq_zero.mpr hmem]
          simp [List.count_cons]

theorem wsum_append_single (pairs : List (String × ℚ)) (p : String × ℚ)
    (lab : String) :
    wsum (pairs ++ [p]) lab
      = wsum pairs lab + (if p.1 = lab then p.2 else 0) := by
  by_cases hp : p.1 = lab <;>
    simp [wsum, List.filter_append, List.filter_cons, hp]

theorem weighted_char : ∀ pairs : List (String × ℚ),
    pairs.foldl wAdd []
      = (firstSeen (pairs.map Prod.fst)).map
          (fun lab => (lab, wsum pairs lab)) := by
  intro pairs
  induction pairs using List.reverseRecOn with
  | nil => rfl
  | append_singleton init p ih =>
      rw [List.foldl_append, List.foldl_cons, List.foldl_nil, ih,
        List.map_append]
      by_cases hmem : p.1 ∈ init.map Prod.fst
      · rw [show List.map (Prod.fst (α := String) (β := ℚ)) [p] = [p.1] from rfl,
          firstSeen_append_mem _ _ hmem]
        have hfs : p.1 ∈ firstSeen (init.map Prod.fst) :=
          (mem_firstSeen _ _).mpr hmem
        simp only [wAdd, alookup_map_form_mem _ _ _ hfs]
        rw [aset_map_form _ _ _ _ hfs (firstSeen_nodup _)]
        apply List.map_congr_left
        intro a ha
        rw [wsum_append_single]
        by_cases hal : a = p.1
        · rw [if_pos hal, hal, if_pos rfl]
        · rw [if_neg hal, if_neg (fun he => hal he.symm), add_zero]
      · rw [show List.map (Prod.fst (α := String) (β := ℚ)) [p] = [p.1] from rfl,
          firstSeen_append_notMem _ _ hmem]
        have hfs : p.1 ∉ firstSeen (init.map Prod.fst) :=
          fun h => hmem ((mem_firstSeen _ _).mp h)
        simp only [wAdd, alookup_map_form_notMem _ _ _ hfs]
        rw [List.map_append]
        congr 1
        · apply List.map_congr_left
          intro a ha
          have hal : ¬ p.1 = a := fun he => hfs (he ▸ ha)
          rw [wsum_append_single, if_neg hal, add_zero]
        · have hz : wsum init p.1 = 0 := by
            have : init.filter (fun q => decide (q.1 = p.1)) = [] := by
              rw [List.filter_eq_nil_iff]
              intro q hq
              simp only [decide_eq_true_eq]
              intro he
              exact hmem (he ▸ List.mem_map_of_mem Prod.fst hq)
            simp [wsum, this]
          simp only [List.map_cons, List.map_nil]
          rw [wsum_append_single, hz, if_pos rfl, zero_add]

theorem semCounter_stable (g : CanonicalRecord → Option String)
    (l1 l2 : List CanonicalRecord) (hp : l1.Perm l2)
    (hfs : firstSeen (catLabels g l1) = firstSeen (catLabels g l2)) :
    semCounter g l1 = semCounter g l2 := by
  have hperm : (catLabels g l1).Perm (catLabels g l2) := hp.filterMap _
  show (catLabels g l1).foldl counterAdd [] = (catLabels g l2).foldl counterAdd []
  rw [counter_char, counter_char, hfs]
  apply List.map_congr_left
  intro a _
  rw [hperm.count_eq]

theorem semWeightedTotals_stable (g : CanonicalRecord → Option String)
    (l1 l2 : List CanonicalRecord) (hp : l1.Perm l2)
    (hfs : firstSeen ((weightPairs g l1).map Prod.fst)
      = firstSeen ((weightPairs g l2).map Prod.fst)) :
    semWeightedTotals g l1 = semWeightedTotals g l2 := by
  have hperm : (weightPairs g l1).Perm (weightPairs g l2) := hp.filterMap _
  show (weightPairs g l1).foldl wAdd [] = (weightPairs g l2).foldl wAdd []
  rw [weighted_char, weighted_char, hfs]
  apply List.map_congr_left
  intro a _
  show (a, wsum (weightPairs g l1) a) = (a, wsum (weightPairs g l2) a)
  have hf : ((weightPairs g l1).filter (fun p => decide (p.1 = a))).Perm
      ((weightPairs g l2).filter (fun p => decide (p.1 = a))) :=
    hperm.filter _
  have hs : (((weightPairs g l1).filter (fun p => decide (p.1 = a))).map
        Prod.snd).sum
      = (((weightPairs g l2).filter (fun p => decide (p.1 = a))).map
        Prod.snd).sum :=
    (hf.map Prod.snd).sum_eq
  simp only [wsum]
  rw [hs]

theorem semTotal_perm (f : CanonicalRecord → ℚ) (l1 l2 : List CanonicalRecord)
    (hp : l1.Perm l2) : semTotal f l1 = semTotal f l2 :=
  hp.foldl_eq' (fun x _ y _ z => by show z + f x + f y = z + f y + f x; ring) 0

theorem semMin_perm (f : CanonicalRecord → ℚ) (l1 l2 : List CanonicalRecord)
    (hp : l1.Perm l2) : semMin f l1 = semMin f l2 := by
  have hstep : ∀ (a m : ℚ), (if a < m then some a else some m) = some (min a m) := by
    intro a m
    rcases lt_trichotomy a m with h | h | h
    · rw [if_pos h, min_eq_left (le_of_lt h)]
    · rw [h, if_neg (lt_irrefl _), min_self]
    · rw [if_neg (by linarith), min_eq_right (by linarith)]
  apply hp.foldl_eq'
  intro x _ y _ z
  cases z with
  | none =>
      show (if f y < f x then some (f y) else some (f x))
        = (if f x < f y then some (f x) else some (f y))
      rw [hstep, hstep, min_comm]
  | some m =>
      show (match (if f x < m then some (f x) else some m) with
              | none => some (f y)
              | some m => if f y < m then some (f y) else some m)
        = (match (if f y < m then some (f y) else some m) with
              | none => some (f x)
              | some m => if f x < m then some (f x) else some m)
      rw [hstep, hstep]
      show (if f y < min (f x) m then some (f y) else some (min (f x) m))
        = (if f x < min (f y) m then some (f x) else some (min (f y) m))
      rw [hstep, hstep, min_left_comm]

theorem semMax_perm (f : CanonicalRecord → ℚ) (l1 l2 : List CanonicalRecord)
    (hp : l1.Perm l2) : semMax f l1 = semMax f l2 := by
  have hstep : ∀ (a m : ℚ), (if a > m then some a else some m) = some (max a m) := by
    intro a m
    rcases lt_trichotomy a m with h | h | h
    · rw [if_neg (by simpa using le_of_lt h), max_eq_right (le_of_lt h)]
    · rw [h, if_neg (lt_irrefl _), max_self]
    · rw [if_pos h, max_eq_left (le_of_lt h)]
  apply hp.foldl_eq'
  intro x _ y _ z
  cases z with
  | none =>
      show (if f y > f x then some (f y) else some (f x))
        = (if f x > f y then some (f x) else some (f y))
      rw [hstep, hstep, max_comm]
  | some m =>
      show (match (if f x > m then some (f x) else some m) with
              | none => some (f y)
              | some m => if f y > m then some (f y) else some m)
        = (match (if f y > m then some (f y) else some m) with
              | none => some (f x)
              | some m => if f x > m then some (f x) else some m)
      rw [hstep, hstep]
      show (if f y > max (f x) m then some (f y) else some (max (f x) m))
        = (if f x > max (f y) m then some (f x) else some (max (f y) m))
      rw [hstep, hstep, max_left_comm]

theorem mem_insertDescBy {α : Type} (key : α → ℚ) (x : α) :
    ∀ (l : List α) (a : α), a ∈ insertDescBy key x l → a = x ∨ a ∈ l := by
  intro l
  induction l with
  | nil =>
      intro a ha
      simp only [insertDescBy, List.mem_singleton] at ha
      left; exact ha
  | cons y ys ih =>
      intro a ha
      simp only [insertDescBy] at ha
      by_cases h : key y > key x
      · rw [if_pos h] at ha
        rcases List.mem_cons.mp ha with ha | ha
        · right
          rw [ha]
          exact List.mem_cons_self _ _
        · rcases ih a ha with ha | ha
          · left; exact ha
          · right; exact List.mem_cons_of_mem _ ha
      · rw [if_neg h] at ha
        rcases List.mem_cons.mp ha with ha | ha
        · left; exact ha
        · right; exact ha

theorem insertDescBy_pairwise {α : Type} (key : α → ℚ) (x : α) :
    ∀ l : List α, l.Pairwise (fun a b => key b ≤ key a) →
      (insertDescBy key x l).Pairwise (fun a b => key b ≤ key a) := by
  intro l
  induction l with
  | nil =>
      intro _
      simp [insertDescBy]
  | cons y ys ih =>
      intro hp
      rw [List.pairwise_cons] at hp
      simp only [insertDescBy]
      by_cases h : key y > key x
      · rw [if_pos h, List.pairwise_cons]
        refine ⟨?_, ih hp.2⟩
        intro a ha
        rcases mem_insertDescBy key x _ a ha with ha | ha
        · rw [ha]
          exact le_of_lt h
        · exact hp.1 a ha
      · rw [if_neg h, List.pairwise_cons]
        refine ⟨?_, List.pairwise_cons.mpr hp⟩
        intro a ha
        rcases List.mem_cons.mp ha with ha | ha
        · rw [ha]
          exact not_lt.mp h
        · exact le_trans (hp.1 a ha) (not_lt.mp h)

theorem stableSortDescBy_pairwise {α : Type} (key : α → ℚ) (l : List α) :
    (stableSortDescBy key l).Pairwise (fun a b => key b ≤ key a) := by
  induction l with
  | nil => simp [stableSortDescBy]
  | cons x xs ih => exact insertDescBy_pairwise key x _ ih

theorem pyRoundQ_mono (prec : ℕ) (a b : ℚ) (h : a ≤ b) :
    pyRoundQ prec a ≤ pyRoundQ prec b := by
  unfold pyRoundQ
  dsimp only
  have hm : (0 : ℚ) < 10 ^ prec := by positivity
  have hy : a * 10 ^ prec ≤ b * 10 ^ prec := by nlinarith
  have hfab : Int.floor (a * 10 ^ prec) ≤ Int.floor (b * 10 ^ prec) :=
    Int.floor_le_floor hy
  gcongr
  by_cases hlt : Int.floor (a * 10 ^ prec) < Int.floor (b * 10 ^ prec)
  · split_ifs <;> omega
  · have heq : Int.floor (a * 10 ^ prec) = Int.floor (b * 10 ^ prec) :=
      le_antisymm hfab (not_lt.mp hlt)
    rw [heq]
    split_ifs <;> first
      | omega
      | (exfalso; linarith)

theorem filter_insertDescBy {α : Type} (key : α → ℚ) (x : α) (v : ℚ) :
    ∀ S : List α,
      (insertDescBy key x S).filter (fun z => decide (key z = v))
        = (x :: S).filter (fun z => decide (key z = v)) := by
  intro S
  induction S with
  | nil => rfl
  | cons y ys ih =>
      simp only [insertDescBy]
      by_cases h : key y > key x
      · rw [if_pos h]
        by_cases hy : key y = v
        · by_cases hx : key x = v
          · exfalso
            rw [hy, hx] at h
            exact lt_irrefl v h
          · simp only [List.filter_cons, hy, hx, decide_eq_true_eq,
              if_pos rfl, if_neg hx] at ih ⊢
            rw [ih]
            simp [hx]
        · by_cases hx : key x = v
          · simp only [List.filter_cons, hy, hx, decide_eq_true_eq] at ih ⊢
            rw [ih]
            simp [hy, hx]
          · simp only [List.filter_cons, hy, hx, decide_eq_true_eq] at ih ⊢
            rw [ih]
            simp [hy, hx]
      · rw [if_neg h]

theorem stableSortDescBy_filter {α : Type} (key : α → ℚ) (v : ℚ) :
    ∀ L : List α,
      (stableSortDescBy key L).filter (fun z => decide (key z = v))
        = L.filter (fun z => decide (key z = v)) := by
  intro L
  induction L with
  | nil => rfl
  | cons a l ih =>
      show (insertDescBy key a (stableSortDescBy key l)).filter
          (fun z => decide (key z = v))
        = (a :: l).filter (fun z => decide (key z = v))
      rw [filter_insertDescBy, List.filter_cons, List.filter_cons, ih]

/-- C7 (amended): the Semantic Summary's numeric totals and ranges are equal
under EVERY permutation of the Canonical Records; the top-category and
value-distribution lists are equal under a permutation whenever it also
preserves the corresponding field's first-seen label order (plain
permutations do not suffice — any permutation preserves every per-label
multiset of weighted observations, yet can reorder tied entries); both top
lists are sorted by descending value; and the sorts behind
`Counter.most_common` and `_top_weighted` are stable: entries tied at any
value keep exactly their input (first-seen counter) order. -/
theorem C7_summary_stability (n : ℕ) (l1 l2 : List CanonicalRecord)
    (hp : l1.Perm l2) :
    (semSummary n l1).numericTotals = (semSummary n l2).numericTotals ∧
    (semSummary n l1).numericRanges = (semSummary n l2).numericRanges ∧
    ((∀ f ∈ CATEGORICAL_FIELDS,
        firstSeen (catLabels (recCat f) l1)
          = firstSeen (catLabels (recCat f) l2)) →
      (semSummary n l1).topCategories = (semSummary n l2).topCategories) ∧
    ((∀ f ∈ VALUE_WEIGHTED_FIELDS,
        firstSeen ((weightPairs (recCat f) l1).map Prod.fst)
          = firstSeen ((weightPairs (recCat f) l2).map Prod.fst)) →
      (semSummary n l1).valueDistribution
        = (semSummary n l2).valueDistribution) ∧
    (∀ p ∈ (semSummary n l1).topCategories,
      p.2.Pairwise (fun a b => ((b.2 : ℚ)) ≤ ((a.2 : ℚ)))) ∧
    (∀ p ∈ (semSummary n l1).valueDistribution,
      p.2.Pairwise (fun a b => b.2 ≤ a.2)) ∧
    (∀ (c : List (String × ℕ)) (v : ℚ),
      (stableSortDescBy (fun q => (q.2 : ℚ)) c).filter
          (fun q => decide ((q.2 : ℚ) = v))
        = c.filter (fun q => decide ((q.2 : ℚ) = v))) ∧
    (∀ (t : List (String × ℚ)) (v : ℚ),
      (stableSortDescBy (fun q => q.2) t).filter
          (fun q => decide (q.2 = v))
        = t.filter (fun q => decide (q.2 = v))) := by
  have hnil : (l1 = []) ↔ (l2 = []) := by
    constructor
    · intro h
      rw [h] at hp
      exact hp.symm.eq_nil
    · intro h
      rw [h] at hp
      exact hp.eq_nil
  refine ⟨?_, ?_, ?_, ?_, ?_, ?_, ?_, ?_⟩
  · dsimp only [semSummary]
    by_cases h1 : l1 = []
    · rw [if_pos h1, if_pos (hnil.mp h1)]
    · rw [if_neg h1, if_neg (fun h2 => h1 (hnil.mpr h2))]
      apply List.filterMap_congr
      intro f _
      rw [semTotal_perm (recNumeric f) l1 l2 hp]
  · dsimp only [semSummary]
    by_cases h1 : l1 = []
    · rw [if_pos h1, if_pos (hnil.mp h1)]
    · rw [if_neg h1, if_neg (fun h2 => h1 (hnil.mpr h2))]
      apply List.filterMap_congr
      intro f _
      rw [semMin_perm (recNumeric f) l1 l2 hp, semMax_perm (recNumeric f) l1 l2 hp]
  · intro hcat
    dsimp only [semSummary]
    apply List.filterMap_congr
    intro f hf
    rw [semCounter_stable (recCat f) l1 l2 hp (hcat f hf)]
  · intro hw
    dsimp only [semSummary]
    apply List.filterMap_congr
    intro f hf
    rw [semWeightedTotals_stable (recCat f) l1 l2 hp (hw f hf)]
  · intro p hp1
    dsimp only [semSummary] at hp1
    rcases List.mem_filterMap.mp hp1 with ⟨f, _, hfp⟩
    by_cases hc : semCounter (recCat f) l1 = []
    · rw [if_pos hc] at hfp
      exact absurd hfp (by simp)
    · rw [if_neg hc] at hfp
      have hp2 : p.2 = mostCommon MAX_CHART_ITEMS (semCounter (recCat f) l1) := by
        have := Option.some.inj hfp
        rw [← this]
      rw [hp2, mostCommon]
      exact List.Pairwise.sublist (List.take_sublist _ _)
        (stableSortDescBy_pairwise _ _)
  · intro p hp1
    dsimp only [semSummary] at hp1
    rcases List.mem_filterMap.mp hp1 with ⟨f, _, hfp⟩
    by_cases hc : semWeightedTotals (recCat f) l1 = []
    · rw [if_pos hc] at hfp
      exact absurd hfp (by simp)
    · rw [if_neg hc] at hfp
      have hp2 : p.2 = topWeighted (semWeightedTotals (recCat f) l1) := by
        have := Option.some.inj hfp
        rw [← this]
      rw [hp2, topWeighted]
      rw [List.pairwise_map]
      dsimp only
      refine List.Pairwise.imp ?_
        (List.Pairwise.sublist (List.take_sublist _ _)
          (stableSortDescBy_pairwise (fun q : String × ℚ => q.2) _))
      intro a b hab
      exact pyRoundQ_mono 2 _ _ hab
  · intro c v
    exact stableSortDescBy_filter (fun q => (q.2 : ℚ)) v c
  · intro t v
    exact stableSortDescBy_filter (fun q => q.2) v t

/-- Witness for the C7 theorem: swapping the two "A"-labelled records is a
permutation; the numeric totals agree outright, and — as the swap keeps
each field's first-seen label order — the top-category lists agree too. -/
theorem C7_summary_stability_witness :
    [recWA1, recWB, recWA2].Perm [recWA2, recWB, recWA1] ∧
    (semSummary 3 [recWA1, recWB, recWA2]).numericTotals
      = (semSummary 3 [recWA2, recWB, recWA1]).numericTotals ∧
    (semSummary 3 [recWA1, recWB, recWA2]).topCategories
      = (semSummary 3 [recWA2, recWB, recWA1]).topCategories := by
  have hp : [recWA1, recWB, recWA2].Perm [recWA2, recWB, recWA1] := by
    decide
  have h := C7_summary_stability 3 _ _ hp
  exact ⟨hp, h.1, h.2.2.1 (by with_unfolding_all decide)⟩

/-! ## Header-detection argmax: the amended C5 facts -/

theorem qmax_eq_max (a b : ℚ) : qmax a b = max a b := by
  rw [qmax, max_def]

theorem foldr_qmax_eq_max (L : List ℚ) (b : ℚ) :
    L.foldr qmax b = L.foldr max b := by
  induction L with
  | nil => rfl
  | cons x xs ih =>
      show qmax x (xs.foldr qmax b) = max x (xs.foldr max b)
      rw [qmax_eq_max, ih]

theorem le_foldr_max (L : List ℚ) (b : ℚ) : b ≤ L.foldr max b := by
  induction L with
  | nil => exact le_refl b
  | cons x xs ih => exact le_trans ih (le_max_right x _)

theorem foldr_max_attained (L : List ℚ) (b : ℚ) :
    L.foldr max b = b ∨ L.foldr max b ∈ L := by
  induction L with
  | nil => left; rfl
  | cons x xs ih =>
      show max x (xs.foldr max b) = b ∨ max x (xs.foldr max b) ∈ x :: xs
      rcases max_choice x (xs.foldr max b) with h | h
      · right
        rw [h]
        exact List.mem_cons_self _ _
      · rw [h]
        rcases ih with ih | ih
        · left; exact ih
        · right; exact List.mem_cons_of_mem _ ih

theorem foldr_max_exchange (L : List ℚ) (a b : ℚ) :
    max a (L.foldr max b) = L.foldr max (max a b) := by
  induction L with
  | nil => rfl
  | cons x xs ih =>
      show max a (max x (xs.foldr max b)) = max x (xs.foldr max (max a b))
      rw [← ih, max_left_comm]

theorem scoringFold_char (score : List String → ℚ) :
    ∀ (l : List (ℕ × List String)) (bi : Option ℕ) (bs : ℚ),
      scoringFold score l bi bs = pickChar score l bi bs := by
  intro l
  induction l with
  | nil =>
      intro bi bs
      simp only [scoringFold, pickChar, List.filter_nil, List.map_nil,
        List.foldr_nil]
      rw [if_neg (lt_irrefl bs)]
  | cons p rest ih =>
      intro bi bs
      cases p with
      | mk i row =>
          by_cases hemp : row.isEmpty = true
          · have hfilter : List.filter (fun p => !p.2.isEmpty) ((i, row) :: rest)
                = List.filter (fun p => !p.2.isEmpty) rest := by
              simp [List.filter_cons, hemp]
            simp only [scoringFold, hemp, if_true]
            rw [ih]
            dsimp only [pickChar]
            rw [hfilter]
          · have hemp' : row.isEmpty = false := by simpa using hemp
            have hfilter : List.filter (fun p => !p.2.isEmpty) ((i, row) :: rest)
                = (i, row) :: List.filter (fun p => !p.2.isEmpty) rest := by
              simp [List.filter_cons, hemp']
            simp only [scoringFold, hemp', Bool.false_eq_true, if_false]
            by_cases hgt : score row > bs
            · rw [if_pos hgt, ih]
              dsimp only [pickChar]
              rw [hfilter, List.map_cons, List.foldr_cons]
              rw [foldr_max_exchange, max_eq_left (le_of_lt hgt)]
              set M1 := List.foldr max (score row)
                (List.map (fun p => score p.2)
                  (List.filter (fun p => !p.2.isEmpty) rest)) with hM1
              have hle : score row ≤ M1 := by
                rw [hM1]
                exact le_foldr_max _ _
              have hbsM : bs < M1 := lt_of_lt_of_le hgt hle
              rw [if_pos hbsM]
              by_cases hsM : score row = M1
              · rw [if_neg (by rw [← hsM]; exact lt_irrefl _),
                  List.find?_cons_of_pos _ (by simpa using hsM)]
                rfl
              · have hlt2 : score row < M1 := lt_of_le_of_ne hle hsM
                rw [if_pos hlt2, List.find?_cons_of_neg _ (by simpa using hsM)]
            · rw [if_neg hgt, ih]
              dsimp only [pickChar]
              rw [hfilter, List.map_cons, List.foldr_cons]
              set M0 := List.foldr max bs
                (List.map (fun p => score p.2)
                  (List.filter (fun p => !p.2.isEmpty) rest)) with hM0
              have hsbs : score row ≤ bs := not_lt.mp hgt
              have hbsM0 : bs ≤ M0 := by
                rw [hM0]
                exact le_foldr_max _ _
              rw [max_eq_right (le_trans hsbs hbsM0)]
              by_cases hlt : bs < M0
              · rw [if_pos hlt, if_pos hlt,
                  List.find?_cons_of_neg _ (by
                    simp only [decide_eq_true_eq]
                    intro he
                    rw [← he] at hlt
                    exact absurd hsbs (not_le.mpr hlt))]
              · rw [if_neg hlt, if_neg hlt]

/-- C5 (amended): when the `csv.Sniffer.has_header` pre-check (omitted by
the claim) does not fire, header detection returns exactly the first
highest-scoring non-empty row of the first 5 under the SOURCE score — which
also subtracts 0.5 when no cell is alphabetic, a penalty the claim omits —
provided that best score strictly improves on 0 and reaches the 0.2 floor;
otherwise it returns none, and the assembly step then marks the header as
synthetic with zero metadata rows, treating every row as data. -/
theorem C5_header_selection (rows : List (List String))
    (hne : ¬ rows = []) (hpre : sniffPreselect rows = false) :
    detectHeaderRowIndex rows = specChoice rows ∧
    (detectHeaderRowIndex rows = none →
      ∀ delim, (readCsvAssemble delim rows).2.2.syntheticHeader = true ∧
        (readCsvAssemble delim rows).2.2.metadataRows = 0) := by
  constructor
  · have hde : detectHeaderRowIndex rows = scoringPick rows := by
      dsimp only [detectHeaderRowIndex]
      rw [if_neg (by simpa using hne), if_neg (by rw [hpre]; simp)]
    rw [hde]
    dsimp only [scoringPick, specChoice]
    rw [scoringFold_char]
    dsimp only [pickChar]
    rw [foldr_qmax_eq_max]
    set M := List.foldr max 0
      (List.map (fun p => headerScore p.2)
        (List.filter (fun p => !p.2.isEmpty) (rows.take 5).enum)) with hM
    by_cases h0 : (0 : ℚ) < M
    · rw [if_pos h0]
      have hatt : M ∈ List.map (fun p => headerScore p.2)
          (List.filter (fun p => !p.2.isEmpty) (rows.take 5).enum) := by
        rcases foldr_max_attained
            (List.map (fun p => headerScore p.2)
              (List.filter (fun p => !p.2.isEmpty) (rows.take 5).enum)) 0
          with h | h
        · rw [hM] at h0
          rw [h] at h0
          exact absurd h0 (lt_irrefl 0)
        · rw [hM]
          exact h
      rcases List.mem_map.mp hatt with ⟨q, hq, hqs⟩
      have hsome : (List.find?
          (fun p => decide (headerScore p.2 = M))
          (List.filter (fun p => !p.2.isEmpty) (rows.take 5).enum)).isSome := by
        rw [List.find?_isSome]
        exact ⟨q, hq, by simp [hqs]⟩
      obtain ⟨q', hq'⟩ := Option.isSome_iff_exists.mp hsome
      rw [hq']
      show (if M ≥ 1/5 then some q'.1 else none)
        = if 1/5 ≤ M then some q'.1 else none
      by_cases hf : (1 : ℚ)/5 ≤ M
      · rw [if_pos hf]
      · rw [if_neg hf]
    · rw [if_neg h0]
      have hnf : ¬ (1 : ℚ)/5 ≤ M :=
        fun hh => h0 (lt_of_lt_of_le (by norm_num) hh)
      rw [if_neg hnf]
  · intro hnone delim
    constructor
    · have h1 : (readCsvAssemble delim rows).2.2.syntheticHeader
          = (detectHeaderRowIndex rows).isNone := rfl
      rw [h1, hnone]
      rfl
    · have h2 : (readCsvAssemble delim rows).2.2.metadataRows
          = (detectHeaderRowIndex rows).getD 0 := rfl
      rw [h2, hnone]
      rfl

/-- Witness for the C5 theorem at the concrete two-row input `c5rows` (the
sniffer pre-check does not fire there). -/
theorem C5_header_selection_witness :
    (¬ c5rows = []) ∧ sniffPreselect c5rows = false ∧
    detectHeaderRowIndex c5rows = specChoice c5rows := by
  have h1 : ¬ c5rows = [] := by decide
  have h2 : sniffPreselect c5rows = false := by with_unfolding_all rfl
  exact ⟨h1, h2, (C5_header_selection c5rows h1 h2).1⟩

/-! ## Unstructured-text reconstruction: the amended C6 facts -/

theorem scanTables_rows_pos (totalLen : ℕ) :
    ∀ (fuel : ℕ) (l : List (ℕ × String)) (t : TextTable),
      t ∈ scanTables totalLen fuel l → 1 ≤ t.rows.length := by
  intro fuel
  induction fuel with
  | zero =>
      intro l t ht
      simp [scanTables] at ht
  | succ fuel ih =>
      intro l t ht
      cases l with
      | nil => simp [scanTables] at ht
      | cons p rest =>
          cases p with
          | mk i line =>
              simp only [scanTables] at ht
              split at ht
              · exact ih rest t ht
              · split at ht
                · rename_i h2
                  rcases List.mem_cons.mp ht with ht | ht
                  · rw [ht]
                    exact h2
                  · exact ih _ t ht
                · exact ih rest t ht

theorem bestTable_length : ∀ (rest : List TextTable) (c : TextTable),
    (bestTable c rest).rows.length = maxTableRows (c :: rest) := by
  intro rest
  induction rest with
  | nil =>
      intro c
      show c.rows.length
        = List.foldr max 0 (List.map (fun t => t.rows.length) [c])
      rw [List.map_cons, List.map_nil, List.foldr_cons, List.foldr_nil]
      exact (max_eq_left (Nat.zero_le _)).symm
  | cons t ts ih =>
      intro c
      show (List.foldl (fun b t => if t.rows.length > b.rows.length then t else b)
          c (t :: ts)).rows.length = maxTableRows (c :: t :: ts)
      rw [List.foldl_cons]
      have hstep := ih (if t.rows.length > c.rows.length then t else c)
      rw [show (List.foldl
            (fun b t => if t.rows.length > b.rows.length then t else b)
            (if t.rows.length > c.rows.length then t else c) ts)
          = bestTable (if t.rows.length > c.rows.length then t else c) ts
          from rfl, hstep]
      dsimp only [maxTableRows]
      rw [List.map_cons, List.foldr_cons, List.map_cons, List.foldr_cons,
        List.map_cons, List.foldr_cons]
      have hh : (if t.rows.length > c.rows.length then t else c).rows.length
          = max c.rows.length t.rows.length := by
        by_cases h : t.rows.length > c.rows.length
        · rw [if_pos h]
          exact (max_eq_right (le_of_lt h)).symm
        · rw [if_neg h]
          exact (max_eq_left (not_lt.mp h)).symm
      rw [hh, max_assoc]

theorem convertTabularRows_length (rows : List Row)
    (dm : List (String × String)) (src : String) :
    (convertTabularRows rows dm src).1.length = rows.length := by
  by_cases h : rows = []
  · subst h
    rfl
  · dsimp only [convertTabularRows]
    rw [if_neg h]
    exact List.length_map _ _

theorem prepareGenericRows_length (rows : List Row) :
    (prepareGenericRows rows).1.length = rows.length := by
  by_cases h : rows = []
  · subst h
    rfl
  · dsimp only [prepareGenericRows]
    rw [if_neg h]
    exact List.length_map _ _

/-- C6 (amended): the reconstructor emits one Canonical Record per row of
the longest GREEDILY-found candidate table — the scan consumes runs as it
goes, so a longer run starting inside an already-consumed region is not
considered (refuting "found anywhere in the document") — and when no
candidate table exists it emits exactly one text-only record; the output is
never empty. -/
theorem C6_text_reconstruction (sourceName text : String) :
    (if candidateTables text = [] then
        (parseOcrText sourceName text).1.length = 1 ∧
        (parseOcrText sourceName text).2.hasTextOnly = true
      else
        (parseOcrText sourceName text).1.length
            = maxTableRows (candidateTables text) ∧
        (parseOcrText sourceName text).2.hasTextOnly = false) ∧
    0 < (parseOcrText sourceName text).1.length := by
  by_cases hc : candidateTables text = []
  · rw [if_pos hc]
    have hp : parseOcrText sourceName text
        = ([(summarizeTextDocument sourceName text).1],
           .textOnly (summarizeTextDocument sourceName text).2.2
             (summarizeTextDocument sourceName text).2.1) := by
      dsimp only [parseOcrText, parseTabularText, extractStructuredRowsFromText]
      rw [hc]
    rw [hp]
    exact ⟨⟨rfl, rfl⟩, Nat.zero_lt_one⟩
  · rw [if_neg hc]
    obtain ⟨c, rest, hcr⟩ : ∃ c rest, candidateTables text = c :: rest := by
      cases hx : candidateTables text with
      | nil => exact absurd hx hc
      | cons c rest => exact ⟨c, rest, rfl⟩
    have hcpos : 1 ≤ c.rows.length := by
      have hm : c ∈ candidateTables text := by
        rw [hcr]
        exact List.mem_cons_self _ _
      dsimp only [candidateTables] at hm
      exact scanTables_rows_pos _ _ _ c hm
    have hbl := bestTable_length rest c
    have hbpos : 1 ≤ (bestTable c rest).rows.length := by
      rw [hbl]
      calc 1 ≤ c.rows.length := hcpos
        _ ≤ maxTableRows (c :: rest) := by
            dsimp only [maxTableRows]
            rw [List.map_cons, List.foldr_cons]
            exact le_max_left _ _
    have hrne : ¬ (prepareGenericRows (bestTable c rest).rows).1 = [] := by
      intro h
      have hlen := prepareGenericRows_length (bestTable c rest).rows
      rw [h] at hlen
      rw [List.length_nil] at hlen
      omega
    have hp : parseOcrText sourceName text
        = ((convertTabularRows (prepareGenericRows (bestTable c rest).rows).1
              (prepareGenericRows (bestTable c rest).rows).2 sourceName).1,
           .tabular
             { (convertTabularRows (prepareGenericRows (bestTable c rest).rows).1
                  (prepareGenericRows (bestTable c rest).rows).2 sourceName).2
                with hasStructuredTable := true, hasTextOnly := false }
             ⟨(bestTable c rest).header, (bestTable c rest).startLine,
              (bestTable c rest).endLine, (bestTable c rest).rows.length⟩) := by
      dsimp only [parseOcrText, parseTabularText, extractStructuredRowsFromText]
      rw [hcr]
      dsimp only
      rw [if_neg hrne]
    rw [hp]
    refine ⟨⟨?_, rfl⟩, ?_⟩
    · rw [convertTabularRows_length, prepareGenericRows_length, hbl, hcr]
    · rw [convertTabularRows_length, prepareGenericRows_length]
      omega

/-! ## Batch orchestration: the amended C8 facts -/

theorem processPath_ok (f : PyFile) (h : isArchive f = false) :
    processPath f = .ok [handleSingleFile f] := by
  cases hd : f.data with
  | badZip msg =>
      exfalso
      have : isArchive f = true := by
        dsimp only [isArchive]
        rw [hd]
      rw [h] at this
      exact absurd this (by simp)
  | csvFile text => simp only [processPath, hd]
  | ocrFile text => simp only [processPath, hd]
  | readFailure ext msg => simp only [processPath, hd]
  | unsupportedFile ext => simp only [processPath, hd]

theorem mapM_processPath (files : List PyFile)
    (h : ∀ f ∈ files, isArchive f = false) :
    files.mapM processPath
      = .ok (files.map (fun f => [handleSingleFile f])) := by
  induction files with
  | nil => rfl
  | cons f fs ih =>
      have hpp := processPath_ok f (h f (List.mem_cons_self _ _))
      have hrest := ih (fun g hg => h g (List.mem_cons_of_mem _ hg))
      rw [List.mapM_cons, hpp, hrest]
      rfl

theorem flatten_singletons {α β : Type} (g : α → β) :
    ∀ l : List α, (l.map (fun a => [g a])).flatten = l.map g := by
  intro l
  induction l with
  | nil => rfl
  | cons a as ih =>
      rw [List.map_cons, List.flatten_cons, ih, List.map_cons]
      rfl

theorem handleSingleFile_name (f : PyFile) :
    (handleSingleFile f).name = f.name := by
  cases hd : f.data with
  | csvFile text =>
      simp only [handleSingleFile, hd]
      cases parseCsvText f.name text with
      | error msg => rfl
      | ok r => rfl
  | ocrFile text => simp only [handleSingleFile, hd]
  | readFailure ext msg => simp only [handleSingleFile, hd]
  | unsupportedFile ext => simp only [handleSingleFile, hd]
  | badZip msg => simp only [handleSingleFile, hd]

theorem handleSingleFile_status (f : PyFile) :
    (handleSingleFile f).status = "parsed"
      ∨ (handleSingleFile f).status = "error"
      ∨ (handleSingleFile f).status = "unsupported" := by
  cases hd : f.data with
  | csvFile text =>
      simp only [handleSingleFile, hd]
      cases parseCsvText f.name text with
      | error msg => right; left; rfl
      | ok r =>
          by_cases hr : r.data = []
          · right; left
            simp [hr]
          · left
            simp [hr]
  | ocrFile text =>
      simp only [handleSingleFile, hd]
      by_cases hr : (parseOcrText f.name text).1 = []
      · right; left
        simp [hr]
      · left
        simp [hr]
  | readFailure ext msg =>
      right; left
      simp [handleSingleFile, hd]
  | unsupportedFile ext =>
      right; right
      simp [handleSingleFile, hd]
  | badZip msg =>
      right; right
      simp [handleSingleFile, hd]

/-- C8 (amended): for a batch containing NO archive, each file is processed
independently — the batch result is `ok` with exactly the per-file outcome
of every file, in original submission order (the i-th result bears the i-th
file's name), and every per-file status is parsed, error or unsupported.
For archives failure is NOT isolated: a corrupt zip aborts the whole batch
(see the counterexample). -/
theorem C8_batch_isolation (files : List PyFile)
    (hna : ∀ f ∈ files, isArchive f = false) :
    extractDocuments files = .ok (files.map handleSingleFile) ∧
    (∀ f ∈ files, (handleSingleFile f).name = f.name) ∧
    (∀ f ∈ files, (handleSingleFile f).status = "parsed"
      ∨ (handleSingleFile f).status = "error"
      ∨ (handleSingleFile f).status = "unsupported") := by
  refine ⟨?_, fun f _ => handleSingleFile_name f,
    fun f _ => handleSingleFile_status f⟩
  by_cases h0 : files.length = 0
  · have hnil : files = [] := List.length_eq_zero.mp h0
    subst hnil
    rfl
  · have hstep : extractDocuments files
        = (files.mapM processPath).map List.flatten := by
      dsimp only [extractDocuments]
      rw [if_neg h0]
      split <;> rfl
    rw [hstep, mapM_processPath files hna]
    show Except.ok ((files.map (fun f => [handleSingleFile f])).flatten)
      = Except.ok (files.map handleSingleFile)
    rw [flatten_singletons]

/-- Witness for the C8 theorem at a one-file, archive-free batch. -/
theorem C8_batch_isolation_witness :
    (∀ f ∈ [goodCsvFile], isArchive f = false) ∧
    extractDocuments [goodCsvFile] = .ok ([goodCsvFile].map handleSingleFile) := by
  have h : ∀ f ∈ [goodCsvFile], isArchive f = false := by decide
  exact ⟨h, (C8_batch_isolation [goodCsvFile] h).1⟩

end DataExtractor
